import Mathlib

/-!
# Inline formatting tools for Editor.js: `BoldTool`, `ItalicTool`, `TextColorTool`

A shallow embedding of `frontend/src/components/{BoldTool,ItalicTool,TextColorTool}.js`.

* JavaScript statements become state-passing functions in the `Js` monad, whose result is
  either a returned value or a thrown error; `try`/`catch` is `Js.tryCatch`.
* The document in which the selection lives is a tree of `Node`s; boundary points of ranges
  are paths of child indices from the root, as in the DOM standard's tree order.
* Elements that a tool instance keeps references to (its button, the colour indicator, the
  picker and its swatches) live in an element store indexed by reference, so that aliasing
  between `this.button`, `this.colorPicker` and the button's descendants is kept.
* Browser operations whose behaviour the repository does not define (`window.getSelection`,
  `document.execCommand`, `Range.extractContents`, `Range.insertNode`, the CSS parser, ...)
  are fields of a `Browser` record; `Browser.dom` implements the range operations as the DOM
  standard describes them.
* Character data is a list of UTF-16 code units, the unit in which range offsets count.
-/

namespace EditorTools

/-! ## JavaScript control flow -/

/-- A value thrown by a JavaScript `throw`. -/
inductive JsError where
  | typeError (message : String)
  | domException (name : String)
  | other (message : String)
deriving DecidableEq, Repr

/-- How a JavaScript computation ends: it returns a value or it throws. -/
inductive Outcome (α : Type) where
  | ok (value : α)
  | thrown (error : JsError)
deriving DecidableEq, Repr

/-- Whether the computation returned normally. -/
def Outcome.isOk {α : Type} : Outcome α → Bool
  | .ok _ => true
  | .thrown _ => false

/-- A JavaScript computation over a mutable state `σ`. The state is kept when the
computation throws: nothing is rolled back. -/
def Js (σ α : Type) : Type := σ → Outcome α × σ

namespace Js

variable {σ α β : Type}

/-- Return a value. -/
def pure (a : α) : Js σ α := fun s => (.ok a, s)

/-- Sequencing: a throw in the first computation skips the second. -/
def bind (x : Js σ α) (f : α → Js σ β) : Js σ β := fun s =>
  match x s with
  | (.ok a, s') => f a s'
  | (.thrown e, s') => (.thrown e, s')

instance : Monad (Js σ) where
  pure := Js.pure
  bind := Js.bind

/-- The JavaScript `throw`. -/
def throw (e : JsError) : Js σ α := fun s => (.thrown e, s)

/-- The JavaScript statement `try { body } catch (error) { handler error }`. -/
def tryCatch (body : Js σ α) (handler : JsError → Js σ α) : Js σ α := fun s =>
  match body s with
  | (.ok a, s') => (.ok a, s')
  | (.thrown e, s') => handler e s'

/-- A state update that cannot throw. -/
def modify (f : σ → σ) : Js σ Unit := fun s => (.ok (), f s)

end Js

/-! ## The document tree -/

/-- A DOM string: the list of its UTF-16 code units, which is what the offsets of boundary
points and the property `length` count. -/
abbrev DOMString := List Nat

/-- The UTF-16 code units of one character: itself in the Basic Multilingual Plane, a
surrogate pair above it. -/
def utf16Char (c : Char) : DOMString :=
  if c.toNat < 65536 then [c.toNat]
  else [55296 + (c.toNat - 65536) / 1024, 56320 + (c.toNat - 65536) % 1024]

/-- The DOM string of a string literal. -/
def utf16 (s : String) : DOMString := (s.data.map utf16Char).flatten

/-- A node of the document tree. `text` and `comment` are the character-data nodes; `elem`
carries the tag name as `tagName` reports it, the class list, the inline style declarations
and the child nodes. -/
inductive Node where
  | text (data : DOMString)
  | comment (data : DOMString)
  | elem (tagName : String) (classList : List String) (style : List (String × String))
      (children : List Node)

/-- A node is addressed by the child indices that lead to it from the root. -/
abbrev Path := List Nat

namespace Node

/-- The child nodes (character data has none). -/
def children : Node → List Node
  | .elem _ _ _ ch => ch
  | _ => []

/-- The DOM "length" of a node: number of code units for character data, number of children
otherwise. -/
def length : Node → Nat
  | .text d => d.length
  | .comment d => d.length
  | .elem _ _ _ ch => ch.length

/-- The JavaScript test `node instanceof Element`. -/
def isElement : Node → Bool
  | .elem _ _ _ _ => true
  | _ => false

/-- The node a path leads to, if any. -/
def nodeAt : Node → Path → Option Node
  | n, [] => some n
  | n, i :: p =>
    match n.children[i]? with
    | none => none
    | some k => nodeAt k p

mutual
/-- The property `textContent`: the data of all `Text` descendants in tree order. -/
def textContent : Node → DOMString
  | .text d => d
  | .comment _ => []
  | .elem _ _ _ ch => textOfList ch
/-- The concatenated `textContent` of a list of sibling nodes. -/
def textOfList : List Node → DOMString
  | [] => []
  | n :: ns => n.textContent ++ textOfList ns
end

/-- The text content that precedes the boundary point `(p, off)` inside node `n`. -/
def textBefore : Path → Nat → Node → DOMString
  | _, off, .text d => d.take off
  | _, _, .comment _ => []
  | [], off, .elem _ _ _ ch => textOfList (ch.take off)
  | i :: p, off, .elem _ _ _ ch =>
    textOfList (ch.take i) ++
      (match ch[i]? with
       | none => []
       | some k => textBefore p off k)

/-- The text content that follows the boundary point `(p, off)` inside node `n`. -/
def textAfter : Path → Nat → Node → DOMString
  | _, off, .text d => d.drop off
  | _, _, .comment _ => []
  | [], off, .elem _ _ _ ch => textOfList (ch.drop off)
  | i :: p, off, .elem _ _ _ ch =>
    (match ch[i]? with
     | none => []
     | some k => textAfter p off k) ++ textOfList (ch.drop (i + 1))

/-- Whether `(p, off)` is a boundary point of the tree: the path leads to a node and the
offset does not exceed that node's length. -/
def validPoint : Path → Nat → Node → Bool
  | [], off, n => decide (off ≤ n.length)
  | i :: p, off, n =>
    match n with
    | .elem _ _ _ ch =>
      (match ch[i]? with
       | none => false
       | some k => validPoint p off k)
    | _ => false

end Node

/-- The position of boundary point `(ps, so)` relative to `(pe, eo)`: true when the first is
before or equal to the second in tree order. -/
def pointLE : Path → Nat → Path → Nat → Bool
  | [], so, [], eo => decide (so ≤ eo)
  | [], so, j :: _, _ => decide (so ≤ j)
  | i :: _, _, [], eo => decide (i < eo)
  | i :: ps, so, j :: pe, eo => if i = j then pointLE ps so pe eo else decide (i < j)

/-- A DOM `Range`: two boundary points of the document tree. -/
structure Range where
  startContainer : Path
  startOffset : Nat
  endContainer : Path
  endOffset : Nat
deriving DecidableEq, Repr

/-- A live range of the document: both ends are boundary points of the tree and the start is
not after the end. -/
def Range.validIn (r : Range) (doc : Node) : Bool :=
  doc.validPoint r.startContainer r.startOffset &&
  doc.validPoint r.endContainer r.endOffset &&
  pointLE r.startContainer r.startOffset r.endContainer r.endOffset

/-- The property `Range.collapsed`. -/
def Range.collapsed (r : Range) : Bool :=
  decide (r.startContainer = r.endContainer ∧ r.startOffset = r.endOffset)

/-- The stringification of a range (`Range.toString()`): the text of the document between
its two boundary points. -/
def Range.text (r : Range) (doc : Node) : DOMString :=
  (doc.textBefore r.endContainer r.endOffset).drop
    (doc.textBefore r.startContainer r.startOffset).length

/-! ## Range operations of the DOM standard -/

/-- Cut a node at the boundary point `(p, off)` into the part before and the part after the
point. This is what extraction does to a partially contained node: the part inside the range
goes to a shallow clone (attributes kept, identity new) and the rest stays in the original;
for character data the data is divided at the offset. -/
def Node.split : Path → Nat → Node → Node × Node
  | _, off, .text d => (.text (d.take off), .text (d.drop off))
  | _, off, .comment d => (.comment (d.take off), .comment (d.drop off))
  | [], off, .elem t c s ch => (.elem t c s (ch.take off), .elem t c s (ch.drop off))
  | i :: p, off, .elem t c s ch =>
    match ch[i]? with
    | none => (.elem t c s ch, .elem t c s [])
    | some k =>
      let r := Node.split p off k
      (.elem t c s (ch.take i ++ [r.1]), .elem t c s (r.2 :: ch.drop (i + 1)))

/-- The algorithm "extract a range" of the DOM standard on the subtree `n`, for a range from
`(ps, so)` to `(pe, eo)` (paths relative to `n`). Returns the subtree as it is left in the
document and the children of the returned `DocumentFragment`.

* Both ends in the same character-data node: the substring is cut out.
* Otherwise the common ancestor is found by following the common prefix of the two paths;
  its children strictly between the two ends are moved to the fragment, and the first and
  last partially contained children are split (`Node.split`). -/
def Node.extract : Path → Nat → Path → Nat → Node → Node × List Node
  | [], so, [], eo, n =>
    match n with
    | .text d => (.text (d.take so ++ d.drop eo), [.text ((d.take eo).drop so)])
    | .comment d => (.comment (d.take so ++ d.drop eo), [.comment ((d.take eo).drop so)])
    | .elem t c s ch => (.elem t c s (ch.take so ++ ch.drop eo), (ch.take eo).drop so)
  | [], so, j :: pe, eo, n =>
    match n with
    | .elem t c s ch =>
      (match ch[j]? with
       | none => (n, [])
       | some k =>
         let r := Node.split pe eo k
         (.elem t c s (ch.take so ++ r.2 :: ch.drop (j + 1)), (ch.take j).drop so ++ [r.1]))
    | _ => (n, [])
  | i :: ps, so, [], eo, n =>
    match n with
    | .elem t c s ch =>
      (match ch[i]? with
       | none => (n, [])
       | some k =>
         let r := Node.split ps so k
         (.elem t c s (ch.take i ++ r.1 :: ch.drop eo), r.2 :: (ch.take eo).drop (i + 1)))
    | _ => (n, [])
  | i :: ps, so, j :: pe, eo, n =>
    match n with
    | .elem t c s ch =>
      if i = j then
        (match ch[i]? with
         | none => (n, [])
         | some k =>
           let r := Node.extract ps so pe eo k
           (.elem t c s (ch.set i r.1), r.2))
      else
        (match ch[i]?, ch[j]? with
         | some a, some b =>
           let ra := Node.split ps so a
           let rb := Node.split pe eo b
           (.elem t c s (ch.take i ++ ra.1 :: rb.2 :: ch.drop (j + 1)),
            ra.2 :: (ch.take j).drop (i + 1) ++ [rb.1])
         | _, _ => (n, []))
    | _ => (n, [])

/-- The boundary point to which the range is collapsed by "extract": the original start when
the start node is an inclusive ancestor of the end node, otherwise the point just after the
child of the common ancestor that contains the start. -/
def collapsePoint : Path → Nat → Path → Nat → Path × Nat
  | [], so, _, _ => ([], so)
  | i :: _, _, [], _ => ([], i + 1)
  | i :: ps, so, j :: pe, eo =>
    if i = j then
      let r := collapsePoint ps so pe eo
      (i :: r.1, r.2)
    else ([], i + 1)

/-- The algorithm "insert a node into a range" of the DOM standard for a collapsed range at
`(p, off)`. Returns `none` where the standard throws `HierarchyRequestError`: the start node
is a comment, or a text node without a parent. A text start node is split at the offset and
the new node goes between the two halves; in an element the new node becomes the child at
index `off`. -/
def Node.insertAt (new : Node) : Path → Nat → Node → Option Node
  | [], off, n =>
    match n with
    | .elem t c s ch => some (.elem t c s (ch.take off ++ new :: ch.drop off))
    | _ => none
  | i :: p, off, n =>
    match n with
    | .elem t c s ch =>
      (match ch[i]? with
       | none => none
       | some k =>
         (match k, p with
          | .text d, [] =>
            some (.elem t c s (ch.take i ++ .text (d.take off) :: new :: .text (d.drop off)
              :: ch.drop (i + 1)))
          | _, _ => (Node.insertAt new p off k).map (fun k' => .elem t c s (ch.set i k'))))
    | _ => none

/-- Where the inserted node ends up: the path of its parent and its index among the
parent's children, for an insertion at `(p, off)`. -/
def Node.insertedAt : Path → Nat → Node → Path × Nat
  | [], off, _ => ([], off)
  | i :: p, off, n =>
    match n.children[i]? with
    | none => ([], off)
    | some k =>
      (match k, p with
       | .text _, [] => ([], i + 1)
       | _, _ =>
         let r := Node.insertedAt p off k
         (i :: r.1, r.2))

/-- Whether "insert a node into a range" accepts the boundary point `(p, _)` of the tree `n`:
the node at `p` is an element, or a text node that has a parent. -/
def Node.insertable : Path → Node → Bool
  | [], n => n.isElement
  | i :: p, n =>
    match n with
    | .elem _ _ _ ch =>
      (match ch[i]? with
       | none => false
       | some k =>
         (match k, p with
          | .text _, [] => true
          | _, _ => Node.insertable p k))
    | _ => false

/-- Whether the node at path `p` is a comment. -/
def Node.isCommentAt (doc : Node) (p : Path) : Bool :=
  match doc.nodeAt p with
  | some (.comment _) => true
  | _ => false

/-- Whether both ends of the range lie in one and the same comment node. -/
def Range.insideComment (r : Range) (doc : Node) : Bool :=
  decide (r.startContainer = r.endContainer) && doc.isCommentAt r.startContainer

/-! ## Selectors and `closest` -/

/-- ASCII upper-casing of one character of a name. -/
def asciiUpper (c : Char) : Char :=
  if 97 ≤ c.toNat ∧ c.toNat ≤ 122 then Char.ofNat (c.toNat - 32) else c

/-- ASCII lower-casing of one character of a name. -/
def asciiLower (c : Char) : Char :=
  if 65 ≤ c.toNat ∧ c.toNat ≤ 90 then Char.ofNat (c.toNat + 32) else c

/-- The upper-cased name, as `tagName` reports it for an HTML element. -/
def upperCase (s : String) : String := String.mk (s.data.map asciiUpper)

/-- The JavaScript `String.prototype.toLowerCase` on ASCII names. -/
def toLowerCase (s : String) : String := String.mk (s.data.map asciiLower)

/-- A compound selector of the form `TAG.class1.class2`; an empty tag matches every
element. -/
structure Selector where
  tag : String
  classes : List String
deriving DecidableEq, Repr

/-- Cut a character list at every dot. -/
def splitOnDot : List Char → List (List Char)
  | [] => [[]]
  | c :: cs =>
    if c = '.' then [] :: splitOnDot cs
    else
      match splitOnDot cs with
      | [] => [[c]]
      | x :: xs => (c :: x) :: xs

/-- Read a selector string such as `B` or `SPAN.colored-text`. -/
def parseSelector (s : String) : Selector :=
  match splitOnDot s.data with
  | [] => ⟨"", []⟩
  | t :: cls => ⟨String.mk t, cls.map String.mk⟩

/-- The method `Element.matches`: type selectors match the tag name of an HTML element
case-insensitively, class selectors need the class to be in the class list. Character data
never matches. -/
def Node.isMatch (sel : Selector) : Node → Bool
  | .elem t c _ _ =>
    (sel.tag == "" || upperCase sel.tag == upperCase t) && sel.classes.all (fun cl => c.contains cl)
  | _ => false

/-- The method `Element.closest` for the node at path `p` of the tree `n`: the path of the
nearest inclusive ancestor that matches the selector, or `none` for `null`. -/
def Node.closest (sel : Selector) : Node → Path → Option Path
  | n, [] => if n.isMatch sel then some [] else none
  | n, i :: p =>
    match n.children[i]? with
    | none => none
    | some k =>
      (match Node.closest sel k p with
       | some q => some (i :: q)
       | none => if n.isMatch sel then some [] else none)

/-- The expression `text instanceof Element ? text : text.parentElement` for the node at
path `p`: the node itself when it is an element, otherwise its parent element, `none` for
`null` (a node that is not an element and has no parent element). -/
def Node.elementOrParent (doc : Node) (p : Path) : Option Path :=
  match doc.nodeAt p with
  | some (.elem _ _ _ _) => some p
  | _ => if p = [] then none else some p.dropLast

/-! ## Selection, page and host -/

/-- A DOM `Selection`: anchor and focus (as boundary points of the document) and the list of
ranges. -/
structure Selection where
  anchorNode : Option Path
  anchorOffset : Nat
  focusNode : Option Path
  focusOffset : Nat
  ranges : List Range
deriving DecidableEq, Repr

/-- The property `Selection.isCollapsed`: anchor and focus are the same boundary point. -/
def Selection.isCollapsed (s : Selection) : Bool :=
  decide (s.anchorNode = s.focusNode ∧ s.anchorOffset = s.focusOffset)

/-- The property `Selection.rangeCount`. -/
def Selection.rangeCount (s : Selection) : Nat := s.ranges.length

/-- The method `Selection.getRangeAt`. -/
def Selection.getRangeAt (s : Selection) (i : Nat) : Outcome Range :=
  match s.ranges[i]? with
  | some r => .ok r
  | none => .thrown (.domException "IndexSizeError")

/-- The selection that holds exactly the range `r`. -/
def Selection.ofRange (r : Range) : Selection :=
  ⟨some r.startContainer, r.startOffset, some r.endContainer, r.endOffset, [r]⟩

/-- The part of the page the browser operations act on: the document tree and the window's
selection (`none` when `window.getSelection()` is `null`). -/
structure Page where
  document : Node
  selection : Option Selection

/-- State owned by the host editor. -/
structure Host where
  inlineToolbarOpened : Bool
deriving DecidableEq, Repr

/-- The object `api.inlineToolbar` of the host editor. -/
structure InlineToolbar where
  close : Js Host Unit

/-- The `api` object handed to the constructor of a tool. -/
structure Api where
  inlineToolbar : InlineToolbar

/-- The browser operations used by the tools. Each field may behave in any way, including
throwing. -/
structure Browser where
  /-- The call `window.getSelection()`. -/
  getSelection : Page → Outcome (Option Selection)
  /-- The call `document.execCommand(name)`. -/
  execCommand : String → Js Page Bool
  /-- The method `range.extractContents()`; returns the fragment's children and the range as
  the operation leaves it. -/
  extractContents : Range → Js Page (List Node × Range)
  /-- The method `range.insertNode(node)`; returns the range as the operation leaves it. -/
  insertNode : Range → Node → Js Page Range
  /-- The method `selection.removeAllRanges()`. -/
  removeAllRanges : Js Page Unit
  /-- The method `selection.addRange(range)`. -/
  addRange : Range → Js Page Unit
  /-- Whether the CSS parser of the browser accepts `value` for the style property `prop`,
  as `CSS.supports(prop, value)` reports. -/
  cssSupports : String → String → Bool

/-- The window selection follows a range object that an operation changed from `r` to
`r2`. -/
def Selection.follow (r r2 : Range) (s : Selection) : Selection :=
  if s.ranges.head? = some r then
    ⟨some r2.startContainer, r2.startOffset, some r2.endContainer, r2.endOffset,
      r2 :: s.ranges.tail⟩
  else s

/-- The range operations as the DOM standard defines them; `execCommand` and the CSS parser
are left to the arguments. -/
def Browser.dom (execCommand : String → Js Page Bool)
    (cssSupports : String → String → Bool) : Browser where
  getSelection := fun p => .ok p.selection
  execCommand := execCommand
  extractContents := fun r p =>
    let res := p.document.extract r.startContainer r.startOffset r.endContainer r.endOffset
    let cp := collapsePoint r.startContainer r.startOffset r.endContainer r.endOffset
    let r2 : Range := ⟨cp.1, cp.2, cp.1, cp.2⟩
    (.ok (res.2, r2), ⟨res.1, p.selection.map (Selection.follow r r2)⟩)
  insertNode := fun r node p =>
    match Node.insertAt node r.startContainer r.startOffset p.document with
    | none => (.thrown (.domException "HierarchyRequestError"), p)
    | some d =>
      let q := p.document.insertedAt r.startContainer r.startOffset
      let r2 : Range := if r.collapsed then ⟨r.startContainer, r.startOffset, q.1, q.2 + 1⟩ else r
      (.ok r2, ⟨d, p.selection.map (Selection.follow r r2)⟩)
  removeAllRanges := fun p =>
    (.ok (), ⟨p.document, p.selection.map (fun _ => ⟨none, 0, none, 0, []⟩)⟩)
  addRange := fun r p =>
    (.ok (), ⟨p.document, p.selection.map (fun s =>
      if s.ranges = [] then Selection.ofRange r else s)⟩)
  cssSupports := cssSupports

/-! ## Elements kept by reference, listeners and function objects -/

/-- An event listener registration: event type, the function object and the capture flag.
Two registrations are the same when all three agree. -/
structure Listener where
  type : String
  callback : Nat
  capture : Bool
deriving DecidableEq, Repr

/-- A child of a stored element: markup assigned through `innerHTML`, or another stored
element. -/
inductive Child where
  | markup (html : String)
  | element (ref : Nat)
deriving DecidableEq, Repr

/-- An element that some tool holds a reference to. -/
structure Elem where
  tagName : String
  type : String
  classList : List String
  title : String
  style : List (String × String)
  attributes : List (String × String)
  children : List Child
  parent : Option Nat
  listeners : List Listener
deriving DecidableEq, Repr

/-- The methods of a tool that are turned into function objects by `bind`. -/
inductive Method where
  | handleClick
  | showColorPicker
  | hideColorPicker
  | handleColorSelect
  | handleDocumentClick
deriving DecidableEq, Repr

/-- A function object. `bound owner m` is `this.m.bind(this)` of the instance `owner`,
`colorOption owner c` is the arrow function `(e) => this.handleColorSelect(e, c)` created by
`render`, and `foreign` is a function of other code. -/
inductive Fn where
  | bound (owner : Nat) (method : Method)
  | colorOption (owner : Nat) (colorValue : String)
  | foreign
deriving DecidableEq, Repr

/-- One line written to the console. -/
inductive LogEntry where
  | log (message : String)
  | error (message : String) (error : JsError)
deriving DecidableEq, Repr

/-- A call of a browser or host operation, as recorded in the trace. -/
inductive Call where
  | getSelection
  | execCommand (name : String)
  | extractContents
  | insertNode
  | removeAllRanges
  | addRange
  | inlineToolbarClose
deriving DecidableEq, Repr

/-- Everything the tools can observe or change. -/
structure World where
  page : Page
  host : Host
  elems : List Elem
  fns : List Fn
  instances : Nat
  documentListeners : List Listener
  console : List LogEntry
  calls : List Call

/-- Replace the element of a list at an index. -/
def updateAt {α : Type} (f : α → α) : Nat → List α → List α
  | _, [] => []
  | 0, a :: l => f a :: l
  | i + 1, a :: l => a :: updateAt f i l

/-- Set a key of a list of declarations, keeping its position when it is already there. -/
def setKey (k v : String) : List (String × String) → List (String × String)
  | [] => [(k, v)]
  | (k', v') :: l => if k' = k then (k, v) :: l else (k', v') :: setKey k v l

/-- Read a key of a list of declarations. -/
def getKey (k : String) : List (String × String) → Option String
  | [] => none
  | (k', v') :: l => if k' = k then some v' else getKey k l

/-- The algorithm "add an event listener": nothing happens when the same registration is
already in the list. -/
def addListener (l : Listener) (ls : List Listener) : List Listener :=
  if l ∈ ls then ls else ls ++ [l]

/-- The algorithm "remove an event listener". -/
def removeListener (l : Listener) (ls : List Listener) : List Listener :=
  ls.filter (fun x => decide (x ≠ l))

namespace World

/-- The call `document.createElement(tag)`: a new element, referred to by its index. -/
def createElement (tag : String) (w : World) : Nat × World :=
  (w.elems.length,
    { w with elems := w.elems ++ [⟨upperCase tag, "", [], "", [], [], [], none, []⟩] })

/-- Change the element with reference `ref`. -/
def update (ref : Nat) (f : Elem → Elem) (w : World) : World :=
  { w with elems := updateAt f ref w.elems }

/-- The assignment `el.type = v`. -/
def setType (ref : Nat) (v : String) (w : World) : World :=
  w.update ref (fun e => { e with type := v })

/-- The assignment `el.title = v`. -/
def setTitle (ref : Nat) (v : String) (w : World) : World :=
  w.update ref (fun e => { e with title := v })

/-- The call `el.classList.add(c)`. -/
def classListAdd (ref : Nat) (c : String) (w : World) : World :=
  w.update ref (fun e => { e with classList := if c ∈ e.classList then e.classList else e.classList ++ [c] })

/-- The assignment `el.style[prop] = v` on a stored element, for a value that the CSS parser
accepts for the property, as the constants that the tool assigns and the colours of its
palette are: the value is stored. -/
def setStyle (ref : Nat) (prop v : String) (w : World) : World :=
  w.update ref (fun e => { e with style := setKey prop v e.style })

/-- The call `el.setAttribute(name, v)`; `el.dataset.color = v` is
`setAttribute "data-color" v`. -/
def setAttribute (ref : Nat) (name v : String) (w : World) : World :=
  w.update ref (fun e => { e with attributes := setKey name v e.attributes })

/-- The assignment `el.innerHTML = html`: the children are replaced by the parsed markup,
which is kept unparsed. -/
def setInnerHTML (ref : Nat) (html : String) (w : World) : World :=
  w.update ref (fun e => { e with children := [.markup html] })

/-- The call `parent.appendChild(child)` for a child that has no parent yet (as in every
call the tools make). -/
def appendChild (parent child : Nat) (w : World) : World :=
  (w.update parent (fun e => { e with children := e.children ++ [.element child] })).update
    child (fun e => { e with parent := some parent })

/-- The call `el.addEventListener(type, fn)`. -/
def addEventListener (ref : Nat) (type : String) (fn : Nat) (w : World) : World :=
  w.update ref (fun e => { e with listeners := addListener ⟨type, fn, false⟩ e.listeners })

/-- The call `el.removeEventListener(type, fn)`. -/
def removeEventListener (ref : Nat) (type : String) (fn : Nat) (w : World) : World :=
  w.update ref (fun e => { e with listeners := removeListener ⟨type, fn, false⟩ e.listeners })

/-- The call `document.addEventListener(type, fn)`. -/
def addDocumentListener (type : String) (fn : Nat) (w : World) : World :=
  { w with documentListeners := addListener ⟨type, fn, false⟩ w.documentListeners }

/-- The call `document.removeEventListener(type, fn)`. -/
def removeDocumentListener (type : String) (fn : Nat) (w : World) : World :=
  { w with documentListeners := removeListener ⟨type, fn, false⟩ w.documentListeners }

/-- A new function object, referred to by its index. -/
def newFn (f : Fn) (w : World) : Nat × World :=
  (w.fns.length, { w with fns := w.fns ++ [f] })

/-- The first descendant, in tree order, that carries the class `c`, searched in the list of
children `cs`. `fuel` bounds the depth of the search. -/
def findByClass (elems : List Elem) (c : String) : Nat → List Child → Option Nat
  | 0, _ => none
  | fuel + 1, cs =>
    cs.findSome? (fun child =>
      match child with
      | .markup _ => none
      | .element r =>
        match elems[r]? with
        | none => none
        | some e =>
          if c ∈ e.classList then some r
          else findByClass elems c fuel e.children)

/-- The references of the ancestors of `ref`, nearest first. -/
def ancestorsIn (elems : List Elem) : Nat → Nat → List Nat
  | 0, _ => []
  | fuel + 1, ref =>
    match elems[ref]? with
    | none => []
    | some e =>
      (match e.parent with
       | none => []
       | some p => p :: ancestorsIn elems fuel p)

/-- The call `el.querySelector('.' + c)`. Markup assigned through `innerHTML` is not
searched: the markup the tools assign carries no class. -/
def querySelectorClass (w : World) (ref : Nat) (c : String) : Option Nat :=
  match w.elems[ref]? with
  | none => none
  | some e => findByClass w.elems c (w.elems.length + 1) e.children

/-- The references of the ancestors of a stored element, nearest first. -/
def ancestors (w : World) (ref : Nat) : List Nat :=
  ancestorsIn w.elems w.elems.length ref

/-- The call `el.contains(target)`: `target` is `el` or one of its descendants. -/
def contains (w : World) (ref : Nat) (target : Option Nat) : Bool :=
  match target with
  | none => false
  | some t => decide (t = ref) || (w.ancestors t).contains ref

/-- The call `console.log(message)`. -/
def consoleLog (message : String) : Js World Unit :=
  Js.modify (fun w => { w with console := w.console ++ [.log message] })

/-- The call `console.error(message, error)`. -/
def consoleError (message : String) (error : JsError) : Js World Unit :=
  Js.modify (fun w => { w with console := w.console ++ [.error message error] })

/-- Run a browser operation on the page and record the call. -/
def native {α : Type} (c : Call) (op : Js Page α) : Js World α := fun w =>
  let r := op w.page
  (r.1, { w with page := r.2, calls := w.calls ++ [c] })

/-- The call `window.getSelection()`, which reads the page. -/
def getSelection (env : Browser) : Js World (Option Selection) := fun w =>
  (env.getSelection w.page, { w with calls := w.calls ++ [.getSelection] })

/-- Run an operation of the host editor and record the call. -/
def hostCall {α : Type} (c : Call) (op : Js Host α) : Js World α := fun w =>
  let r := op w.host
  (r.1, { w with host := r.2, calls := w.calls ++ [c] })

end World

/-- Read the state. -/
def Js.get {σ : Type} : Js σ σ := fun s => (.ok s, s)

/-- A DOM event on its way through the listeners. -/
structure Event where
  /-- The clicked node when it is one of the stored elements; for a node inside the markup of
  a stored element (the icon of a button) the stored element around it, which contains and is
  contained in the same stored elements; `none` for a node outside every stored element. -/
  target : Option Nat
  defaultPrevented : Bool
  propagationStopped : Bool
deriving DecidableEq, Repr

/-- The call `event.preventDefault()`. -/
def Event.preventDefault (e : Event) : Event := { e with defaultPrevented := true }

/-- The call `event.stopPropagation()`. -/
def Event.stopPropagation (e : Event) : Event := { e with propagationStopped := true }

/-- The call `document.createElement(tag)` for an element that is built and then inserted
into the document tree. -/
def Node.createElement (tag : String) : Node := .elem (upperCase tag) [] [] []

/-- The call `el.classList.add(c)` on a tree node. -/
def Node.classListAdd (c : String) : Node → Node
  | .elem t cl s ch => .elem t (if c ∈ cl then cl else cl ++ [c]) s ch
  | n => n

/-- The assignment `el.style[prop] = v` on a tree node, with the CSS parser of the browser
as `cssSupports`: a value that the parser accepts for the property is stored, the empty string removes the declaration, and any other value
is dropped, leaving the declarations as they were. -/
def Node.setStyle (cssSupports : String → String → Bool) (prop v : String) : Node → Node
  | .elem t cl s ch =>
    if cssSupports prop v then .elem t cl (setKey prop v s) ch
    else if v = "" then .elem t cl (s.filter (fun d => decide (d.1 ≠ prop))) ch
    else .elem t cl s ch
  | n => n

/-- The call `el.appendChild(fragment)`: the children of the fragment become the last
children of the element. -/
def Node.appendFragment (fragment : List Node) : Node → Node
  | .elem t cl s ch => .elem t cl s (ch ++ fragment)
  | n => n

/-- The names of the attributes an element of the tree carries. -/
def Node.attributeNames : Node → List String
  | .elem _ cl s _ => (if cl = [] then [] else ["class"]) ++ (if s = [] then [] else ["style"])
  | _ => []

/-- A sanitizer configuration: for each allowed tag (lower case) the attributes it may
keep. -/
abbrev SanitizeConfig := List (String × List (String × Bool))

/-- Whether the configuration keeps the attribute `attr` on the tag `key`. -/
def SanitizeConfig.allows (cfg : SanitizeConfig) (key attr : String) : Bool :=
  match cfg.lookup key with
  | none => false
  | some attrs => attrs.lookup attr == some true

/-! ## `BoldTool.js` -/

/-- An instance of `BoldTool`. `handleClickFn` is the function object
`this.handleClick.bind(this)`. -/
structure BoldTool where
  ref : Nat
  api : Api
  button : Option Nat
  tag : String
  handleClickFn : Nat

namespace BoldTool

/-- The static getter `isInline`. -/
def isInline : Bool := true

/-- The constructor. -/
def new (api : Api) (w : World) : BoldTool × World :=
  let ref := w.instances
  let w := { w with instances := w.instances + 1 }
  let (fn, w) := w.newFn (.bound ref .handleClick)
  ({ ref := ref, api := api, button := none, tag := "B", handleClickFn := fn }, w)

/-- The method `render`. -/
def render (self : BoldTool) (w : World) : Nat × BoldTool × World :=
  let (button, w) := w.createElement "button"
  let self := { self with button := some button }
  let w := w.setType button "button"
  let w := w.classListAdd button "ce-inline-tool"
  let w := w.classListAdd button "bold-tool-button"
  let w := w.setTitle button "Bold"
  let w := w.setInnerHTML button "<b>B</b>"
  let w := w.addEventListener button "click" self.handleClickFn
  (button, self, w)

/-- The method `checkState`; `doc` is the tree the anchor node lives in. -/
def checkState (self : BoldTool) (doc : Node) (selection : Selection) : Outcome Bool :=
  match selection.anchorNode with
  | none => .ok false
  | some text =>
    match doc.elementOrParent text with
    | none => .thrown (.typeError "Cannot read properties of null (reading 'closest')")
    | some anchorElement => .ok (doc.closest (parseSelector self.tag) anchorElement).isSome

/-- The method `wrap`. -/
def wrap (env : Browser) (self : BoldTool) : Js World Unit :=
  Js.tryCatch
    (do
      let selection ← World.getSelection env
      match selection with
      | none => World.consoleLog "No text selected"
      | some selection =>
        if selection.isCollapsed || selection.rangeCount == 0 then
          World.consoleLog "No text selected"
        else do
          let _ ← World.native (.execCommand "bold") (env.execCommand "bold")
          World.hostCall .inlineToolbarClose self.api.inlineToolbar.close)
    (fun error => World.consoleError "Error applying bold:" error)

/-- The method `handleClick`. -/
def handleClick (env : Browser) (self : BoldTool) (event : Event) (w : World) :
    Outcome Unit × Event × World :=
  let event := event.preventDefault
  let event := event.stopPropagation
  let r := self.wrap env w
  (r.1, event, r.2)

/-- The method `destroy`. -/
def destroy (self : BoldTool) : Js World Unit :=
  match self.button with
  | none => Js.throw (.typeError "Cannot read properties of null (reading 'removeEventListener')")
  | some button => Js.modify (World.removeEventListener button "click" self.handleClickFn)

/-- The static getter `sanitize`. -/
def sanitize : SanitizeConfig := [("b", [])]

end BoldTool

/-! ## `ItalicTool.js` -/

/-- An instance of `ItalicTool`. -/
structure ItalicTool where
  ref : Nat
  api : Api
  button : Option Nat
  tag : String
  handleClickFn : Nat

namespace ItalicTool

/-- The static getter `isInline`. -/
def isInline : Bool := true

/-- The constructor. -/
def new (api : Api) (w : World) : ItalicTool × World :=
  let ref := w.instances
  let w := { w with instances := w.instances + 1 }
  let (fn, w) := w.newFn (.bound ref .handleClick)
  ({ ref := ref, api := api, button := none, tag := "I", handleClickFn := fn }, w)

/-- The method `render`. -/
def render (self : ItalicTool) (w : World) : Nat × ItalicTool × World :=
  let (button, w) := w.createElement "button"
  let self := { self with button := some button }
  let w := w.setType button "button"
  let w := w.classListAdd button "ce-inline-tool"
  let w := w.classListAdd button "italic-tool-button"
  let w := w.setTitle button "Italic"
  let w := w.setInnerHTML button "<i>I</i>"
  let w := w.addEventListener button "click" self.handleClickFn
  (button, self, w)

/-- The method `checkState`; `doc` is the tree the anchor node lives in. -/
def checkState (self : ItalicTool) (doc : Node) (selection : Selection) : Outcome Bool :=
  match selection.anchorNode with
  | none => .ok false
  | some text =>
    match doc.elementOrParent text with
    | none => .thrown (.typeError "Cannot read properties of null (reading 'closest')")
    | some anchorElement => .ok (doc.closest (parseSelector self.tag) anchorElement).isSome

/-- The method `wrap`. -/
def wrap (env : Browser) (self : ItalicTool) : Js World Unit :=
  Js.tryCatch
    (do
      let selection ← World.getSelection env
      match selection with
      | none => World.consoleLog "No text selected"
      | some selection =>
        if selection.isCollapsed || selection.rangeCount == 0 then
          World.consoleLog "No text selected"
        else do
          let _ ← World.native (.execCommand "italic") (env.execCommand "italic")
          World.hostCall .inlineToolbarClose self.api.inlineToolbar.close)
    (fun error => World.consoleError "Error applying italic:" error)

/-- The method `handleClick`. -/
def handleClick (env : Browser) (self : ItalicTool) (event : Event) (w : World) :
    Outcome Unit × Event × World :=
  let event := event.preventDefault
  let event := event.stopPropagation
  let r := self.wrap env w
  (r.1, event, r.2)

/-- The method `destroy`. -/
def destroy (self : ItalicTool) : Js World Unit :=
  match self.button with
  | none => Js.throw (.typeError "Cannot read properties of null (reading 'removeEventListener')")
  | some button => Js.modify (World.removeEventListener button "click" self.handleClickFn)

/-- The static getter `sanitize`. -/
def sanitize : SanitizeConfig := [("i", [])]

end ItalicTool

/-! ## `TextColorTool.js` -/

/-- A palette entry. -/
structure Color where
  name : String
  value : String
deriving DecidableEq, Repr

/-- An instance of `TextColorTool`. The field `className` is the JavaScript field `class`;
`colorPicker` is `none` while the field is undefined (before `render`); the four `...Fn`
fields are the function objects made by `bind` in the constructor. -/
structure TextColorTool where
  ref : Nat
  api : Api
  button : Option Nat
  state : Bool
  tag : String
  className : String
  colors : List Color
  currentColor : String
  colorPicker : Option Nat
  showColorPickerFn : Nat
  hideColorPickerFn : Nat
  handleColorSelectFn : Nat
  handleDocumentClickFn : Nat

namespace TextColorTool

/-- The static getter `isInline`. -/
def isInline : Bool := true

/-- The colours assigned to `this.colors` by the constructor. -/
def palette : List Color :=
  [ ⟨"Black", "#000000"⟩,
    ⟨"Red", "#FF0000"⟩,
    ⟨"Green", "#008000"⟩,
    ⟨"Blue", "#0000FF"⟩,
    ⟨"Yellow", "#FFFF00"⟩,
    ⟨"Purple", "#800080"⟩,
    ⟨"Orange", "#FFA500"⟩,
    ⟨"Gray", "#808080"⟩ ]

/-- The constructor. -/
def new (api : Api) (w : World) : TextColorTool × World :=
  let ref := w.instances
  let w := { w with instances := w.instances + 1 }
  let colors := palette
  let currentColor := (colors.head?.map Color.value).getD ""
  let (showColorPicker, w) := w.newFn (.bound ref .showColorPicker)
  let (hideColorPicker, w) := w.newFn (.bound ref .hideColorPicker)
  let (handleColorSelect, w) := w.newFn (.bound ref .handleColorSelect)
  let (handleDocumentClick, w) := w.newFn (.bound ref .handleDocumentClick)
  ({ ref := ref, api := api, button := none, state := false, tag := "SPAN",
     className := "colored-text", colors := colors, currentColor := currentColor,
     colorPicker := none, showColorPickerFn := showColorPicker,
     hideColorPickerFn := hideColorPicker, handleColorSelectFn := handleColorSelect,
     handleDocumentClickFn := handleDocumentClick }, w)

/-- The body of `this.colors.forEach(color => ...)` in `render`: one swatch for `color`,
appended to the picker. -/
def renderColorOption (self : TextColorTool) (colorPicker : Nat) (w : World) (color : Color) :
    World :=
  let (colorOption, w) := w.createElement "div"
  let w := w.classListAdd colorOption "color-option"
  let w := w.setStyle colorOption "width" "30px"
  let w := w.setStyle colorOption "height" "30px"
  let w := w.setStyle colorOption "backgroundColor" color.value
  let w := w.setStyle colorOption "margin" "4px"
  let w := w.setStyle colorOption "cursor" "pointer"
  let w := w.setStyle colorOption "borderRadius" "4px"
  let w := w.setStyle colorOption "border" "1px solid #ccc"
  let w := w.setStyle colorOption "boxSizing" "border-box"
  let w := w.setTitle colorOption color.name
  let w := w.setAttribute colorOption "data-color" color.value
  let w := w.setAttribute colorOption "data-color" color.value
  let (listener, w) := w.newFn (.colorOption self.ref color.value)
  let w := w.addEventListener colorOption "click" listener
  w.appendChild colorPicker colorOption

/-- The method `render`. -/
def render (self : TextColorTool) (w : World) : Nat × TextColorTool × World :=
  let (button, w) := w.createElement "button"
  let self := { self with button := some button }
  let w := w.setType button "button"
  let w := w.classListAdd button "ce-inline-tool"
  let w := w.classListAdd button "text-color-button"
  let w := w.setTitle button "Text Color"
  let w := w.setInnerHTML button
    "<svg width=\"20\" height=\"18\" viewBox=\"0 0 20 18\"><path d=\"M10.5 1L5.5 15M8 18h5M7 11h7\" stroke=\"currentColor\" stroke-width=\"2\" stroke-linecap=\"round\" stroke-linejoin=\"round\"/></svg>"
  let w := w.setStyle button "position" "relative"
  let (colorIndicator, w) := w.createElement "span"
  let w := w.classListAdd colorIndicator "color-indicator"
  let w := w.setStyle colorIndicator "display" "block"
  let w := w.setStyle colorIndicator "width" "10px"
  let w := w.setStyle colorIndicator "height" "3px"
  let w := w.setStyle colorIndicator "backgroundColor" self.currentColor
  let w := w.setStyle colorIndicator "position" "absolute"
  let w := w.setStyle colorIndicator "bottom" "2px"
  let w := w.setStyle colorIndicator "left" "50%"
  let w := w.setStyle colorIndicator "transform" "translateX(-50%)"
  let w := w.setStyle colorIndicator "borderRadius" "1px"
  let w := w.appendChild button colorIndicator
  let (colorPicker, w) := w.createElement "div"
  let self := { self with colorPicker := some colorPicker }
  let w := w.classListAdd colorPicker "text-color-picker"
  let w := w.setStyle colorPicker "display" "none"
  let w := w.setStyle colorPicker "position" "absolute"
  let w := w.setStyle colorPicker "top" "30px"
  let w := w.setStyle colorPicker "left" "-60px"
  let w := w.setStyle colorPicker "zIndex" "9999"
  let w := w.setStyle colorPicker "backgroundColor" "#fff"
  let w := w.setStyle colorPicker "border" "1px solid #e8e8eb"
  let w := w.setStyle colorPicker "borderRadius" "4px"
  let w := w.setStyle colorPicker "boxShadow" "0 3px 15px -3px rgba(13,20,33,.13)"
  let w := w.setStyle colorPicker "padding" "8px"
  let w := w.setStyle colorPicker "flexWrap" "wrap"
  let w := w.setStyle colorPicker "width" "150px"
  let w := w.setStyle colorPicker "pointerEvents" "auto"
  let w := self.colors.foldl (self.renderColorOption colorPicker) w
  let w := w.appendChild button colorPicker
  let w := w.addEventListener button "click" self.showColorPickerFn
  let w := w.addDocumentListener "click" self.handleDocumentClickFn
  (button, self, w)

/-- The method `showColorPicker`. -/
def showColorPicker (self : TextColorTool) (event : Event) (w : World) :
    Outcome Unit × Event × World :=
  let event := event.preventDefault
  let event := event.stopPropagation
  match self.colorPicker with
  | none => (.thrown (.typeError "Cannot read properties of undefined (reading 'style')"), event, w)
  | some colorPicker =>
    let w := w.setStyle colorPicker "display" "flex"
    match self.button with
    | none =>
      (.thrown (.typeError "Cannot read properties of null (reading 'querySelector')"), event, w)
    | some button =>
      match w.querySelectorClass button "color-indicator" with
      | some colorIndicator =>
        (.ok (), event, w.setStyle colorIndicator "backgroundColor" self.currentColor)
      | none => (.ok (), event, w)

/-- The method `hideColorPicker`. -/
def hideColorPicker (self : TextColorTool) : Js World Unit :=
  match self.colorPicker with
  | none => Js.throw (.typeError "Cannot read properties of undefined (reading 'style')")
  | some colorPicker => Js.modify (World.setStyle colorPicker "display" "none")

/-- The lines of `wrap` that build the coloured span around the extracted contents. -/
def coloredSpan (cssSupports : String → String → Bool) (self : TextColorTool)
    (selectedText : List Node) : Node :=
  let span := Node.createElement self.tag
  let span := span.classListAdd self.className
  let span := span.setStyle cssSupports "color" self.currentColor
  span.appendFragment selectedText

/-- The method `wrap`. -/
def wrap (env : Browser) (self : TextColorTool) : Js World Unit :=
  Js.tryCatch
    (do
      let selection ← World.getSelection env
      match selection with
      | none => World.consoleLog "No text selected"
      | some selection =>
        if selection.isCollapsed || selection.rangeCount == 0 then
          World.consoleLog "No text selected"
        else do
          let range ← (fun w => (selection.getRangeAt 0, w))
          let (selectedText, range) ← World.native .extractContents (env.extractContents range)
          let span := self.coloredSpan env.cssSupports selectedText
          let range ← World.native .insertNode (env.insertNode range span)
          World.native .removeAllRanges env.removeAllRanges
          World.native .addRange (env.addRange range)
          match self.button with
          | none =>
            Js.throw (.typeError "Cannot read properties of null (reading 'querySelector')")
          | some button =>
            let w ← Js.get
            match w.querySelectorClass button "color-indicator" with
            | some colorIndicator =>
              Js.modify (World.setStyle colorIndicator "backgroundColor" self.currentColor)
            | none => pure ()
          World.hostCall .inlineToolbarClose self.api.inlineToolbar.close)
    (fun error => World.consoleError "Error applying text color:" error)

/-- The method `handleColorSelect`; the instance is returned with its new current colour. -/
def handleColorSelect (env : Browser) (self : TextColorTool) (event : Event)
    (colorValue : String) (w : World) : Outcome Unit × TextColorTool × Event × World :=
  let event := event.preventDefault
  let event := event.stopPropagation
  let self := { self with currentColor := colorValue }
  match self.hideColorPicker w with
  | (.thrown e, w) => (.thrown e, self, event, w)
  | (.ok _, w) =>
    let r := self.wrap env w
    (r.1, self, event, r.2)

/-- The method `handleDocumentClick`. -/
def handleDocumentClick (self : TextColorTool) (event : Event) : Js World Unit :=
  match self.colorPicker with
  | none => Js.throw (.typeError "Cannot read properties of undefined (reading 'contains')")
  | some colorPicker => fun w =>
    if w.contains colorPicker event.target then (.ok (), w)
    else
      match self.button with
      | none =>
        (.thrown (.typeError "Cannot read properties of null (reading 'contains')"), w)
      | some button =>
        if w.contains button event.target then (.ok (), w)
        else self.hideColorPicker w

/-- The method `checkState`; `doc` is the tree the anchor node lives in. -/
def checkState (self : TextColorTool) (doc : Node) (selection : Selection) : Outcome Bool :=
  match selection.anchorNode with
  | none => .ok false
  | some text =>
    match doc.elementOrParent text with
    | none => .thrown (.typeError "Cannot read properties of null (reading 'closest')")
    | some anchorElement =>
      .ok (doc.closest (parseSelector (self.tag ++ "." ++ self.className)) anchorElement).isSome

/-- The method `destroy`. -/
def destroy (self : TextColorTool) : Js World Unit := do
  Js.modify (World.removeDocumentListener "click" self.handleDocumentClickFn)
  match self.button with
  | none => Js.throw (.typeError "Cannot read properties of null (reading 'removeEventListener')")
  | some button => Js.modify (World.removeEventListener button "click" self.showColorPickerFn)

/-- The static getter `sanitize`. -/
def sanitize : SanitizeConfig := [("span", [("class", true), ("style", true)])]

/-! ### Dispatch of a click to the listeners of the instance -/

/-- The instance, the event and the world while a click is dispatched. -/
structure Dispatch where
  self : TextColorTool
  event : Event
  world : World

/-- An exception that escapes a listener is reported and the dispatch goes on. -/
def report (r : Outcome Unit) (w : World) : World :=
  match r with
  | .ok _ => w
  | .thrown e => { w with console := w.console ++ [.error "Uncaught" e] }

/-- Call the function object `fn` as a click listener. Only the functions that this instance
registers as listeners are run: `showColorPicker`, `handleDocumentClick` and the arrow
functions of the swatches; functions of other owners are not part of the model. -/
def invoke (env : Browser) (fn : Nat) (st : Dispatch) : Dispatch :=
  match st.world.fns[fn]? with
  | some (.bound owner .showColorPicker) =>
    if owner = st.self.ref then
      let r := st.self.showColorPicker st.event st.world
      ⟨st.self, r.2.1, report r.1 r.2.2⟩
    else st
  | some (.bound owner .handleDocumentClick) =>
    if owner = st.self.ref then
      let r := st.self.handleDocumentClick st.event st.world
      ⟨st.self, st.event, report r.1 r.2⟩
    else st
  | some (.colorOption owner colorValue) =>
    if owner = st.self.ref then
      let r := st.self.handleColorSelect env st.event colorValue st.world
      ⟨r.2.1, r.2.2.1, report r.1 r.2.2.2⟩
    else st
  | _ => st

/-- The listeners registered on a stored element, or on the document for `none`. -/
def listenersOf (w : World) : Option Nat → List Listener
  | none => w.documentListeners
  | some ref =>
    match w.elems[ref]? with
    | none => []
    | some e => e.listeners

/-- Invoke the click listeners of one object on the event path. `phase` is `some true` in
the capture phase, `some false` in the bubble phase and `none` at the target. Nothing runs
once propagation has been stopped at an earlier object. -/
def visit (env : Browser) (phase : Option Bool) (node : Option Nat) (st : Dispatch) : Dispatch :=
  if st.event.propagationStopped then st
  else
    (listenersOf st.world node).foldl
      (fun st l =>
        if l.type = "click" ∧ (phase = none ∨ phase = some l.capture) then invoke env l.callback st
        else st)
      st

/-- Dispatch a click on the stored element `target`: capture phase from the document down
to the parent, the target itself, then the bubble phase up to the document. -/
def dispatchClick (env : Browser) (target : Nat) (self : TextColorTool) (w : World) :
    TextColorTool × World :=
  let path := w.ancestors target
  let st : Dispatch := ⟨self, ⟨some target, false, false⟩, w⟩
  let st := visit env (some true) none st
  let st := path.reverse.foldl (fun st a => visit env (some true) (some a) st) st
  let st := visit env none (some target) st
  let st := path.foldl (fun st a => visit env (some false) (some a) st) st
  let st := visit env (some false) none st
  (st.self, st.world)

/-- The swatch elements of the picker, in order. -/
def swatches (self : TextColorTool) (w : World) : List Nat :=
  match self.colorPicker with
  | none => []
  | some colorPicker =>
    match w.elems[colorPicker]? with
    | none => []
    | some e => e.children.filterMap (fun c => match c with | .element r => some r | _ => none)

/-- The inline style property `prop` of a stored element. -/
def styleOf (w : World) (ref : Option Nat) (prop : String) : Option String :=
  match ref with
  | none => none
  | some r =>
    match w.elems[r]? with
    | none => none
    | some e => getKey prop e.style

end TextColorTool

/-- The property `tagName` of an element of the tree (empty for character data). -/
def Node.tagName : Node → String
  | .elem t _ _ _ => t
  | _ => ""

/-- The class list of an element of the tree. -/
def Node.classes : Node → List String
  | .elem _ c _ _ => c
  | _ => []

mutual
/-- The number of elements of the subtree, the node itself included, whose tag name, class
list and inline style satisfy `sel`. -/
def Node.count (sel : String → List String → List (String × String) → Bool) : Node → Nat
  | .text _ => 0
  | .comment _ => 0
  | .elem t c s ch => (if sel t c s then 1 else 0) + Node.countList sel ch
/-- The number of such elements in a list of sibling subtrees. -/
def Node.countList (sel : String → List String → List (String × String) → Bool) :
    List Node → Nat
  | [] => 0
  | n :: ns => n.count sel + Node.countList sel ns
end

/-- The inline style declarations of an element of the tree. -/
def Node.inlineStyle : Node → List (String × String)
  | .elem _ _ s _ => s
  | _ => []

/-- The window selection is absent, collapsed, or has no range. -/
def NoSelection (env : Browser) (p : Page) : Prop :=
  env.getSelection p = .ok none ∨
    ∃ s, env.getSelection p = .ok (some s) ∧ (s.isCollapsed = true ∨ s.rangeCount = 0)

/-- No registration on the document refers to a function object that does not exist yet, and
no function object belongs to an instance that does not exist yet. -/
def World.WellFormed (w : World) : Prop :=
  (∀ l ∈ w.documentListeners, l.callback < w.fns.length) ∧
    ∀ f ∈ w.fns,
      match f with
      | .bound owner _ => owner < w.instances
      | .colorOption owner _ => owner < w.instances
      | .foreign => True

/-- Call `render` on the instance `n` times in a row. -/
def TextColorTool.renderTimes : Nat → TextColorTool → World → TextColorTool × World
  | 0, self, w => (self, w)
  | n + 1, self, w =>
    let r := self.render w
    TextColorTool.renderTimes n r.2.1 r.2.2

/-- A click on the `i`-th swatch of the picker. -/
def TextColorTool.clickSwatch (env : Browser) (s : TextColorTool × World) (i : Nat) :
    TextColorTool × World :=
  match (TextColorTool.swatches s.1 s.2)[i]? with
  | none => s
  | some target => TextColorTool.dispatchClick env target s.1 s.2

mutual
/-- The node and all its descendants, in tree order. -/
def Node.descendants : Node → List Node
  | .elem t c s ch => .elem t c s ch :: Node.descendantsOfList ch
  | .text d => [.text d]
  | .comment d => [.comment d]
/-- The descendants of a list of sibling nodes, in tree order. -/
def Node.descendantsOfList : List Node → List Node
  | [] => []
  | n :: ns => n.descendants ++ Node.descendantsOfList ns
end

/-- The background colour of the button's `.color-indicator` element, as `querySelector`
finds it. -/
def TextColorTool.indicatorColor (self : TextColorTool) (w : World) : Option String :=
  match self.button with
  | none => none
  | some button =>
    TextColorTool.styleOf w (w.querySelectorClass button "color-indicator") "backgroundColor"

/-- The inline `display` of the picker popover. -/
def TextColorTool.pickerDisplay (self : TextColorTool) (w : World) : Option String :=
  TextColorTool.styleOf w self.colorPicker "display"

/-- The part of a stored element that decides how events travel: parent, listeners and
children. -/
def Elem.shape (e : Elem) : Option Nat × List Listener × List Child :=
  (e.parent, e.listeners, e.children)

/-- Two worlds agree on everything that decides how events travel and which functions run:
the shapes of the stored elements, the function objects, the listeners on the document and
the number of instances. -/
def World.SameWiring (w w' : World) : Prop :=
  w'.elems.map Elem.shape = w.elems.map Elem.shape ∧ w'.fns = w.fns ∧
    w'.documentListeners = w.documentListeners ∧ w'.instances = w.instances

/-- A computation that never changes the wiring of the world. -/
def Js.Steady {α : Type} (x : Js World α) : Prop := ∀ w, World.SameWiring w (x w).2

/-- The attribute `name` of a stored element. -/
def TextColorTool.attributeOf (w : World) (ref : Nat) (name : String) : Option String :=
  match w.elems[ref]? with
  | none => none
  | some e => getKey name e.attributes

/-- The state of an instance after `render`, relative to the first element `e0` and the
first function object `f0` that `render` created: the button, the picker and the eight
swatches are wired as `render` wired them, the functions of the swatches select the palette
values, and no capturing listener on the document belongs to the instance. -/
structure TextColorTool.Rendered (tool : TextColorTool) (w : World) (e0 f0 : Nat) : Prop where
  button : tool.button = some e0
  picker : tool.colorPicker = some (e0 + 2)
  elemButton : ∃ e, w.elems[e0]? = some e ∧ e.parent = none ∧
    e.listeners = [⟨"click", tool.showColorPickerFn, false⟩]
  elemPicker : ∃ e, w.elems[e0 + 2]? = some e ∧ e.parent = some e0 ∧ e.listeners = [] ∧
    e.children = [.element (e0 + 3), .element (e0 + 4), .element (e0 + 5), .element (e0 + 6),
      .element (e0 + 7), .element (e0 + 8), .element (e0 + 9), .element (e0 + 10)]
  elemSwatch : ∀ i, i < 8 → ∃ e, w.elems[e0 + 3 + i]? = some e ∧ e.parent = some (e0 + 2) ∧
    e.listeners = [⟨"click", f0 + i, false⟩]
  fnSwatch : ∀ i, i < 8 →
    w.fns[f0 + i]? = (TextColorTool.palette[i]?).map (fun c => Fn.colorOption tool.ref c.value)
  documentCapture : ∀ l ∈ w.documentListeners, l.capture = true →
    match w.fns[l.callback]? with
    | some (.bound owner _) => owner ≠ tool.ref
    | some (.colorOption owner _) => owner ≠ tool.ref
    | _ => True

/-- The node at path `p` has an inclusive ancestor (the node itself or a node above it) that
matches the selector. -/
def Node.hasMatchingAncestor (sel : Selector) (doc : Node) (p : Path) : Prop :=
  ∃ q k, q <+: p ∧ doc.nodeAt q = some k ∧ k.isMatch sel = true

/-! ## `EditorJSFix.js` -/

/-- An element of the document that is not kept in the element store, as far as
`document.head` and `getElementById` see it: tag name, `id` and text. -/
structure DocElement where
  tagName : String
  id : String
  textContent : String
deriving DecidableEq, Repr

/-- A `MutationObserver`: its callback and whether it is observing `document.body`. -/
structure Observer where
  callback : Nat
  connected : Bool
deriving DecidableEq, Repr

/-- A reference to an element of the document outside the store: the `i`-th child of the
head, or the `i`-th of the other elements. -/
inductive DocRef where
  | head (i : Nat)
  | body (i : Nat)
deriving DecidableEq, Repr

/-- The state the patch module works on.
* `world` holds the stored elements (the toolbar buttons), their listeners, the function
  objects and the listeners on the document;
* `head` are the children of `document.head`, `body` the other elements of the document
  outside the store, both in tree order; the stored elements carry no `id`;
* `inDocument` lists the stored elements that are in the document, in tree order;
* `observers` are the `MutationObserver` objects and `editorJSFixObserver` is the property
  `window.editorJSFixObserver`;
* `handleToolbarClick` is the function object of the module-level function of that name.
The listeners and callbacks the module creates are new function objects; their bodies only
run later, from events, timers and mutations. -/
structure FixWorld where
  world : World
  head : List DocElement
  body : List DocElement
  inDocument : List Nat
  observers : List Observer
  editorJSFixObserver : Option Nat
  handleToolbarClick : Nat

/-- The `id` given to the injected style element. -/
def fixStyleId : String := "editorjs-fix-style"

/-- The text assigned to `style.textContent` in `fixInlineToolbar`. -/
def fixStyleText : String :=
    "\n" ++
    "    .ce-inline-toolbar \x7b\n" ++
    "      display: flex !important;\n" ++
    "      opacity: 1 !important;\n" ++
    "      visibility: visible !important;\n" ++
    "      pointer-events: auto !important;\n" ++
    "      z-index: 9999 !important;\n" ++
    "      position: fixed !important;\n" ++
    "    \x7d\n" ++
    "\n" ++
    "    .ce-inline-toolbar__dropdown,\n" ++
    "    .ce-inline-tool-dropdown,\n" ++
    "    .text-color-picker \x7b\n" ++
    "      display: flex !important;\n" ++
    "      opacity: 1 !important;\n" ++
    "      visibility: visible !important;\n" ++
    "      pointer-events: auto !important;\n" ++
    "      z-index: 10000 !important;\n" ++
    "    \x7d\n" ++
    "\n" ++
    "    .ce-inline-tool \x7b\n" ++
    "      pointer-events: auto !important;\n" ++
    "      cursor: pointer !important;\n" ++
    "    \x7d\n" ++
    "  "

/-- The index of the first element of the list with the given `id`. -/
def findId (id : String) : List DocElement → Option Nat
  | [] => none
  | e :: l => if e.id = id then some 0 else (findId id l).map (· + 1)

/-- The elements of the list with the given `id`. -/
def withId (id : String) (l : List DocElement) : List DocElement :=
  l.filter (fun e => decide (e.id = id))

namespace FixWorld

/-- The call `document.getElementById(id)`: the first element in tree order with that
`id`. -/
def getElementById (s : FixWorld) (id : String) : Option DocRef :=
  match findId id s.head with
  | some i => some (.head i)
  | none => (findId id s.body).map DocRef.body

/-- The call `el.remove()`. -/
def remove (s : FixWorld) : DocRef → FixWorld
  | .head i => { s with head := s.head.eraseIdx i }
  | .body i => { s with body := s.body.eraseIdx i }

/-- The call `observer.disconnect()`. -/
def disconnect (s : FixWorld) (o : Nat) : FixWorld :=
  { s with observers := updateAt (fun x => { x with connected := false }) o s.observers }

/-- The call `observer.observe(document.body, options)`. -/
def observe (s : FixWorld) (o : Nat) : FixWorld :=
  { s with observers := updateAt (fun x => { x with connected := true }) o s.observers }

/-- The call `el.hasAttribute(name)` on a stored element. -/
def hasAttribute (s : FixWorld) (ref : Nat) (name : String) : Bool :=
  match s.world.elems[ref]? with
  | none => false
  | some e => (getKey name e.attributes).isSome

/-- Whether the stored element matches `.ce-inline-tool[data-tool="v"]` for one of the
values `v`. -/
def isTool (s : FixWorld) (values : List String) (ref : Nat) : Bool :=
  match s.world.elems[ref]? with
  | none => false
  | some e =>
    decide ("ce-inline-tool" ∈ e.classList) &&
      (match getKey "data-tool" e.attributes with
       | none => false
       | some v => decide (v ∈ values))

/-- The call `document.querySelectorAll` for a list of selectors
`.ce-inline-tool[data-tool="v"]`: the matching stored elements of the document, in tree
order. -/
def querySelectorAllTools (s : FixWorld) (values : List String) : List Nat :=
  s.inDocument.filter (s.isTool values)

/-- The call `el.addEventListener(type, fn, true)` with a new function `fn`. -/
def addCapturingListener (s : FixWorld) (ref : Nat) (type : String) : FixWorld :=
  let r := s.world.newFn .foreign
  let w := World.update ref
    (fun e => { e with listeners := addListener ⟨type, r.1, true⟩ e.listeners }) r.2
  { s with world := w }

/-- The call `document.removeEventListener(type, fn, capture)`. -/
def removeDocumentListener (s : FixWorld) (type : String) (fn : Nat) (capture : Bool) :
    FixWorld :=
  let ls := removeListener ⟨type, fn, capture⟩ s.world.documentListeners
  { s with world := { s.world with documentListeners := ls } }

/-- The call `document.addEventListener(type, fn, capture)`. -/
def addDocumentListener (s : FixWorld) (type : String) (fn : Nat) (capture : Bool) :
    FixWorld :=
  let ls := addListener ⟨type, fn, capture⟩ s.world.documentListeners
  { s with world := { s.world with documentListeners := ls } }

/-- The call `console.log(message)`. -/
def consoleLog (s : FixWorld) (message : String) : FixWorld :=
  { s with world := { s.world with console := s.world.console ++ [.log message] } }

end FixWorld

/-- The function `setupMutationObserver`. -/
def setupMutationObserver (s : FixWorld) : FixWorld :=
  let s :=
    match s.editorJSFixObserver with
    | some o => s.disconnect o
    | none => s
  let r := s.world.newFn .foreign
  let observer : Observer := ⟨r.1, false⟩
  let o := s.observers.length
  let s := { s with world := r.2, observers := s.observers ++ [observer],
                    editorJSFixObserver := some o }
  s.observe o

/-- The function `fixInlineToolbar`. -/
def fixInlineToolbar (s : FixWorld) : FixWorld :=
  let s := s.consoleLog "Applying EditorJS inline toolbar fix"
  let style : DocElement := ⟨upperCase "style", "", ""⟩
  let style := { style with textContent := fixStyleText }
  let s :=
    match s.getElementById fixStyleId with
    | some existingStyle => s.remove existingStyle
    | none => s
  let style := { style with id := fixStyleId }
  let s := { s with head := s.head ++ [style] }
  let s := s.removeDocumentListener "click" s.handleToolbarClick true
  let s := s.addDocumentListener "click" s.handleToolbarClick true
  setupMutationObserver s

/-- The body of `formattingButtons.forEach(button => ...)` in `fixBoldItalicButtons`. -/
def fixFormatButton (s : FixWorld) (button : Nat) : FixWorld :=
  if s.hasAttribute button "data-format-fixed" then s
  else
    let s := { s with world := s.world.setAttribute button "data-format-fixed" "true" }
    let s := s.addCapturingListener button "mousedown"
    s.addCapturingListener button "click"

/-- The function `fixBoldItalicButtons`. -/
def fixBoldItalicButtons (s : FixWorld) : FixWorld :=
  let formattingButtons := s.querySelectorAllTools ["bold", "italic", "Bold", "Italic"]
  formattingButtons.foldl fixFormatButton s

/-- The body of `colorButtons.forEach(button => ...)` in `fixColorPicker`. -/
def fixColorButton (s : FixWorld) (button : Nat) : FixWorld :=
  if s.hasAttribute button "data-color-fixed" then s
  else
    let s := { s with world := s.world.setAttribute button "data-color-fixed" "true" }
    s.addCapturingListener button "click"

/-- The function `fixColorPicker`. -/
def fixColorPicker (s : FixWorld) : FixWorld :=
  let colorButtons := s.querySelectorAllTools ["Color", "Marker", "TextColor"]
  colorButtons.foldl fixColorButton s

/-- The body of both timer callbacks of `applyEditorJSFixes`: the three fixes in the order
the interval calls them. -/
def applyFixes (s : FixWorld) : FixWorld :=
  fixBoldItalicButtons (fixColorPicker (fixInlineToolbar s))

/-- The state after `n` firings of the timer callback. -/
def applyFixesTimes : Nat → FixWorld → FixWorld
  | 0, s => s
  | n + 1, s => applyFixesTimes n (applyFixes s)

/-- The listeners of a stored element. -/
def FixWorld.listenersAt (s : FixWorld) (ref : Nat) : List Listener :=
  match s.world.elems[ref]? with
  | none => []
  | some e => e.listeners

/-- The parts of the state that only `fixInlineToolbar` changes. -/
def FixWorld.frame (s : FixWorld) :
    List DocElement × List DocElement × List Nat × List Observer × Option Nat × Nat ×
      List Listener :=
  (s.head, s.body, s.inDocument, s.observers, s.editorJSFixObserver, s.handleToolbarClick,
    s.world.documentListeners)

/-- Of the observers with index `base` or more, exactly the last one is connected, and it
is the one `window.editorJSFixObserver` refers to. -/
def FixWorld.LastObserverOnly (s : FixWorld) (base : Nat) : Prop :=
  base < s.observers.length ∧
    s.editorJSFixObserver = some (s.observers.length - 1) ∧
    ∀ i o, base ≤ i → s.observers[i]? = some o →
      (o.connected = true ↔ i + 1 = s.observers.length)

/-- The state `t` has the same stored elements in the document as `s`, with the same
classes and the same `data-tool`, and every attribute present in `s` is present in `t`. -/
def FixWorld.SameTools (s t : FixWorld) : Prop :=
  t.inDocument = s.inDocument ∧ t.world.elems.length = s.world.elems.length ∧
    ∀ (r : Nat) (e : Elem), s.world.elems[r]? = some e →
      ∃ e' : Elem, t.world.elems[r]? = some e' ∧ e'.classList = e.classList ∧
        getKey "data-tool" e'.attributes = getKey "data-tool" e.attributes ∧
        ∀ name, (getKey name e.attributes).isSome = true →
          (getKey name e'.attributes).isSome = true

/-- Every button that `fixBoldItalicButtons` or `fixColorPicker` would select already
carries the marker of that function. -/
def FixWorld.AllFixed (s : FixWorld) : Prop :=
  (∀ b ∈ s.querySelectorAllTools ["Color", "Marker", "TextColor"],
      s.hasAttribute b "data-color-fixed" = true) ∧
    ∀ b ∈ s.querySelectorAllTools ["bold", "italic", "Bold", "Italic"],
      s.hasAttribute b "data-format-fixed" = true

/-! ## Concrete inputs -/

namespace Sample

/-- A host whose toolbar closes without error. -/
def api : Api := ⟨⟨fun _ => (.ok (), ⟨false⟩)⟩⟩

/-- Whether the string is a colour in hexadecimal notation: `#` and three, four, six or
eight hexadecimal digits. -/
def isHexColor (v : String) : Bool :=
  match v.data with
  | '#' :: ds =>
    decide (ds.length ∈ [3, 4, 6, 8]) &&
      ds.all (fun c => c.isDigit || (decide (97 ≤ c.toNat) && decide (c.toNat ≤ 102)) ||
        (decide (65 ≤ c.toNat) && decide (c.toNat ≤ 70)))
  | _ => false

/-- A browser whose `execCommand` reports success and leaves the page alone, and whose CSS
parser is asked about colours in hexadecimal notation only. -/
def env : Browser := Browser.dom (fun _ p => (.ok true, p)) (fun _ v => isHexColor v)

/-- The paragraph `<p>Hello world</p>`. -/
def doc : Node := .elem "P" [] [] [.text (utf16 "Hello world")]

/-- The word "Hello" of the paragraph is selected. -/
def selHello : Selection := Selection.ofRange ⟨[0], 0, [0], 5⟩

/-- The caret stands after "He": a collapsed selection. -/
def selCaret : Selection := Selection.ofRange ⟨[0], 2, [0], 2⟩

/-- A page with the given document and selection and nothing else. -/
def world (d : Node) (s : Option Selection) : World :=
  ⟨⟨d, s⟩, ⟨true⟩, [], [], 0, [], [], []⟩

/-- A paragraph that starts with a comment: `<p><!--note-->Hello</p>`. -/
def docComment : Node := .elem "P" [] [] [.comment (utf16 "note"), .text (utf16 "Hello")]

/-- The characters "ot" inside the comment are selected. -/
def selInComment : Selection := Selection.ofRange ⟨[0], 1, [0], 3⟩

/-- A text node that is not inside any element. -/
def loneText : Node := .text (utf16 "x")

/-- A selection whose anchor is the root node of the tree. -/
def selRoot : Selection := ⟨some [], 0, some [], 0, []⟩

/-- The sample page with the colour tool constructed and rendered. -/
def rendered : TextColorTool × World :=
  ((TextColorTool.new api (world doc (some selHello))).1.render
    (TextColorTool.new api (world doc (some selHello))).2).2

/-- A toolbar button of the host for the tool registered as `name`. -/
def toolButton (name : String) : Elem :=
  ⟨"BUTTON", "button", ["ce-inline-tool"], "", [], [("data-tool", name)], [], none, []⟩

/-- A page before the patch is applied: a head with a title, a toolbar with the buttons of
the tools `bold`, `italic` and `TextColor`, no observer, and one function object, that of
`handleToolbarClick`. -/
def fixWorld : FixWorld :=
  { world := ⟨⟨doc, none⟩, ⟨true⟩, [toolButton "bold", toolButton "italic",
      toolButton "TextColor"], [.foreign], 0, [], [], []⟩,
    head := [⟨"TITLE", "", "Editor"⟩], body := [⟨"DIV", "root", ""⟩],
    inDocument := [0, 1, 2], observers := [], editorJSFixObserver := none,
    handleToolbarClick := 0 }

end Sample

/-! # Theorems -/

/-! ## Text content and the range operations -/

theorem textOfList_append (a b : List Node) :
    Node.textOfList (a ++ b) = Node.textOfList a ++ Node.textOfList b := by
  induction a with
  | nil => simp [Node.textOfList]
  | cons n ns ih => simp [Node.textOfList, ih]

theorem textOfList_take_drop (ch : List Node) (k : Nat) :
    Node.textOfList (ch.take k) ++ Node.textOfList (ch.drop k) = Node.textOfList ch := by
  rw [← textOfList_append, List.take_append_drop]

theorem take_succ_of_getElem? {α : Type} (l : List α) (i : Nat) (a : α) (h : l[i]? = some a) :
    l.take (i + 1) = l.take i ++ [a] := by
  rw [List.take_succ, h]; rfl

theorem drop_of_getElem? {α : Type} (l : List α) (i : Nat) (a : α) (h : l[i]? = some a) :
    l.drop i = a :: l.drop (i + 1) := by
  have hi : i < l.length := by
    rcases Nat.lt_or_ge i l.length with h1 | h1
    · exact h1
    · rw [List.getElem?_eq_none h1] at h; cases h
  rw [List.getElem?_eq_getElem hi] at h
  cases h
  exact List.drop_eq_getElem_cons hi

theorem split_fst_text (p : Path) (off : Nat) (n : Node) :
    (Node.split p off n).1.textContent = Node.textBefore p off n := by
  induction p generalizing n with
  | nil =>
    cases n <;> simp [Node.split, Node.textBefore, Node.textContent]
  | cons i p ih =>
    cases n with
    | text d => simp [Node.split, Node.textBefore, Node.textContent]
    | comment d => simp [Node.split, Node.textBefore, Node.textContent]
    | elem t c s ch =>
      simp only [Node.split, Node.textBefore]
      cases h : ch[i]? with
      | none =>
        have hi : ch.length ≤ i := by
          rcases Nat.lt_or_ge i ch.length with h1 | h1
          · rw [List.getElem?_eq_getElem h1] at h; cases h
          · exact h1
        simp [Node.textContent, List.take_of_length_le hi]
      | some k =>
        simp [Node.textContent, textOfList_append, Node.textOfList, ih]

theorem split_snd_text (p : Path) (off : Nat) (n : Node) :
    (Node.split p off n).2.textContent = Node.textAfter p off n := by
  induction p generalizing n with
  | nil =>
    cases n <;> simp [Node.split, Node.textAfter, Node.textContent]
  | cons i p ih =>
    cases n with
    | text d => simp [Node.split, Node.textAfter, Node.textContent]
    | comment d => simp [Node.split, Node.textAfter, Node.textContent]
    | elem t c s ch =>
      simp only [Node.split, Node.textAfter]
      cases h : ch[i]? with
      | none =>
        have hi : ch.length ≤ i := by
          rcases Nat.lt_or_ge i ch.length with h1 | h1
          · rw [List.getElem?_eq_getElem h1] at h; cases h
          · exact h1
        have hi' : ch.length ≤ i + 1 := by omega
        simp [Node.textContent, Node.textOfList, List.drop_of_length_le hi']
      | some k =>
        simp [Node.textContent, Node.textOfList, ih]

theorem textBefore_append_textAfter (p : Path) (off : Nat) (n : Node) :
    Node.textBefore p off n ++ Node.textAfter p off n = n.textContent := by
  induction p generalizing n with
  | nil =>
    cases n with
    | text d => simp [Node.textBefore, Node.textAfter, Node.textContent]
    | comment d => simp [Node.textBefore, Node.textAfter, Node.textContent]
    | elem t c s ch =>
      simp [Node.textBefore, Node.textAfter, Node.textContent, textOfList_take_drop]
  | cons i p ih =>
    cases n with
    | text d => simp [Node.textBefore, Node.textAfter, Node.textContent]
    | comment d => simp [Node.textBefore, Node.textAfter, Node.textContent]
    | elem t c s ch =>
      simp only [Node.textBefore, Node.textAfter, Node.textContent]
      cases h : ch[i]? with
      | none =>
        have hi : ch.length ≤ i := by
          rcases Nat.lt_or_ge i ch.length with h1 | h1
          · rw [List.getElem?_eq_getElem h1] at h; cases h
          · exact h1
        have hi' : ch.length ≤ i + 1 := by omega
        simp [Node.textOfList, List.drop_of_length_le hi', List.take_of_length_le hi]
      | some k =>
        have h1 := ih k
        have h2 : Node.textOfList ch =
            Node.textOfList (ch.take i) ++ (k.textContent ++ Node.textOfList (ch.drop (i + 1))) := by
          conv_lhs => rw [← List.take_append_drop i ch, drop_of_getElem? ch i k h]
          rw [textOfList_append]; rfl
        rw [h2, ← h1]
        simp [List.append_assoc]

theorem lt_length_of_getElem? {α : Type} (l : List α) (i : Nat) (a : α) (h : l[i]? = some a) :
    i < l.length := by
  rcases Nat.lt_or_ge i l.length with h1 | h1
  · exact h1
  · rw [List.getElem?_eq_none h1] at h; cases h

theorem textOfList_at (ch : List Node) (i : Nat) (k : Node) (h : ch[i]? = some k) :
    Node.textOfList (ch.take i) ++ (k.textContent ++ Node.textOfList (ch.drop (i + 1))) =
      Node.textOfList ch := by
  conv_rhs => rw [← List.take_append_drop i ch, drop_of_getElem? ch i k h]
  rw [textOfList_append]; rfl

theorem textOfList_take_le (ch : List Node) (i j : Nat) (h : i ≤ j) :
    Node.textOfList (ch.take i) ++ Node.textOfList ((ch.take j).drop i) =
      Node.textOfList (ch.take j) := by
  have h1 : ch.take i = (ch.take j).take i := by
    rw [List.take_take, Nat.min_eq_left h]
  rw [h1, textOfList_take_drop]

theorem textOfList_take_at (ch : List Node) (i j : Nat) (k : Node) (h : ch[i]? = some k)
    (hij : i < j) :
    Node.textOfList (ch.take i) ++
        (k.textContent ++ Node.textOfList ((ch.take j).drop (i + 1))) =
      Node.textOfList (ch.take j) := by
  have h1 : ch.take i = (ch.take j).take i := by
    rw [List.take_take, Nat.min_eq_left (Nat.le_of_lt hij)]
  have h2 : (ch.take j)[i]? = some k := by
    rw [List.getElem?_take_of_lt hij]; exact h
  rw [h1]
  exact textOfList_at (ch.take j) i k h2

theorem textOfList_set (ch : List Node) (i : Nat) (k x : Node) (h : ch[i]? = some k) :
    Node.textOfList (ch.set i x) =
      Node.textOfList (ch.take i) ++ (x.textContent ++ Node.textOfList (ch.drop (i + 1))) := by
  have hi := lt_length_of_getElem? ch i k h
  rw [List.set_eq_take_append_cons_drop, if_pos hi, textOfList_append]; rfl

/-- Extraction takes out exactly the text between the two boundary points: the text before
the start followed by the fragment's text is the text before the end, and what is left in
the document is the text before the start followed by the text after the end. -/
theorem extract_text (ps : Path) (so : Nat) (pe : Path) (eo : Nat) (n : Node)
    (hs : n.validPoint ps so = true) (he : n.validPoint pe eo = true)
    (hle : pointLE ps so pe eo = true) :
    Node.textBefore ps so n ++ Node.textOfList (Node.extract ps so pe eo n).2 =
        Node.textBefore pe eo n ∧
      (Node.extract ps so pe eo n).1.textContent =
        Node.textBefore ps so n ++ Node.textAfter pe eo n := by
  induction ps generalizing pe n with
  | nil =>
    cases pe with
    | nil =>
      simp only [pointLE, decide_eq_true_eq] at hle
      cases n with
      | text d =>
        simp only [Node.extract, Node.textBefore, Node.textAfter, Node.textOfList,
          Node.textContent, List.append_nil, and_true]
        have h1 : d.take so = (d.take eo).take so := by
          rw [List.take_take, Nat.min_eq_left hle]
        rw [h1, List.take_append_drop]
      | comment d =>
        simp [Node.extract, Node.textBefore, Node.textAfter, Node.textOfList, Node.textContent]
      | elem t c s ch =>
        simp only [Node.extract, Node.textBefore, Node.textAfter, Node.textContent,
          textOfList_append, and_true]
        exact textOfList_take_le ch so eo hle
    | cons j pe =>
      simp only [pointLE, decide_eq_true_eq] at hle
      cases n with
      | text d => simp [Node.validPoint] at he
      | comment d => simp [Node.validPoint] at he
      | elem t c s ch =>
        simp only [Node.validPoint] at he
        cases h : ch[j]? with
        | none => simp [h] at he
        | some k =>
          simp only [Node.extract, h, Node.textBefore, Node.textAfter, Node.textContent,
            textOfList_append, Node.textOfList, List.append_nil, split_fst_text,
            split_snd_text]
          rw [← List.append_assoc, textOfList_take_le ch so j hle]
          simp
  | cons i ps ih =>
    cases n with
    | text d => simp [Node.validPoint] at hs
    | comment d => simp [Node.validPoint] at hs
    | elem t c s ch =>
      simp only [Node.validPoint] at hs
      cases hi : ch[i]? with
      | none => simp [hi] at hs
      | some a =>
        simp only [hi] at hs
        cases pe with
        | nil =>
          simp only [pointLE, decide_eq_true_eq] at hle
          simp only [Node.extract, hi, Node.textBefore, Node.textAfter, Node.textContent,
            textOfList_append, Node.textOfList, split_fst_text, split_snd_text]
          constructor
          · rw [List.append_assoc, ← List.append_assoc (Node.textBefore ps so a),
              textBefore_append_textAfter]
            exact textOfList_take_at ch i eo a hi hle
          · simp [List.append_assoc]
        | cons j pe =>
          simp only [Node.validPoint] at he
          cases hj : ch[j]? with
          | none => simp [hj] at he
          | some b =>
            simp only [hj] at he
            simp only [pointLE] at hle
            by_cases hij : i = j
            · subst hij
              rw [hi] at hj; cases hj
              simp only [if_true] at hle
              have h := ih pe a hs he hle
              simp only [Node.extract, if_true, hi, Node.textBefore, Node.textAfter,
                Node.textContent]
              constructor
              · rw [List.append_assoc, h.1]
              · rw [textOfList_set ch i a _ hi, h.2]
                simp [List.append_assoc]
            · simp only [hij, if_false, decide_eq_true_eq] at hle
              simp only [Node.extract, hij, if_false, hi, hj, Node.textBefore, Node.textAfter,
                Node.textContent, textOfList_append, Node.textOfList, List.append_nil,
                split_fst_text, split_snd_text]
              constructor
              · rw [← textOfList_take_at ch i j a hi hle, ← textBefore_append_textAfter ps so a]
                simp [List.append_assoc]
              · simp [List.append_assoc]

theorem take_succ_append_cons {α : Type} (l1 l2 : List α) (x : α) (i : Nat)
    (h : l1.length = i) : (l1 ++ x :: l2).take (i + 1) = l1 ++ [x] := by
  have h1 : l1 ++ x :: l2 = (l1 ++ [x]) ++ l2 := by simp
  rw [h1]
  exact List.take_left' (by simp [h])

theorem drop_succ_append_cons {α : Type} (l1 l2 : List α) (x : α) (i : Nat)
    (h : l1.length = i) : (l1 ++ x :: l2).drop (i + 1) = l2 := by
  have h1 : l1 ++ x :: l2 = (l1 ++ [x]) ++ l2 := by simp
  rw [h1]
  exact List.drop_left' (by simp [h])

theorem getElem?_set_self_of_some {α : Type} (l : List α) (i : Nat) (a x : α)
    (h : l[i]? = some a) : (l.set i x)[i]? = some x := by
  have hi := lt_length_of_getElem? l i a h
  simp [List.getElem?_set, hi]

theorem take_set_self {α : Type} (l : List α) (i : Nat) (x : α) :
    (l.set i x).take i = l.take i := by
  induction l generalizing i with
  | nil => simp
  | cons a l ih =>
    cases i with
    | zero => simp
    | succ i => simp [List.set, ih]

theorem drop_set_self {α : Type} (l : List α) (i : Nat) (x : α) :
    (l.set i x).drop (i + 1) = l.drop (i + 1) := by
  induction l generalizing i with
  | nil => simp
  | cons a l ih =>
    cases i with
    | zero => simp
    | succ i => simp [List.set, ih]

/-- After extraction the range is collapsed to a point of the remaining tree that has the
text before the original start on its left and the text after the original end on its
right. -/
theorem extract_collapse (ps : Path) (so : Nat) (pe : Path) (eo : Nat) (n : Node)
    (hs : n.validPoint ps so = true) (he : n.validPoint pe eo = true)
    (hle : pointLE ps so pe eo = true) :
    Node.textBefore (collapsePoint ps so pe eo).1 (collapsePoint ps so pe eo).2
        (Node.extract ps so pe eo n).1 = Node.textBefore ps so n ∧
      Node.textAfter (collapsePoint ps so pe eo).1 (collapsePoint ps so pe eo).2
        (Node.extract ps so pe eo n).1 = Node.textAfter pe eo n := by
  induction ps generalizing pe n with
  | nil =>
    simp only [Node.validPoint, decide_eq_true_eq] at hs
    cases pe with
    | nil =>
      simp only [pointLE, decide_eq_true_eq] at hle
      cases n with
      | text d =>
        simp only [Node.length] at hs
        have hl : (d.take so).length = so := List.length_take_of_le hs
        simp only [Node.extract, collapsePoint, Node.textBefore, Node.textAfter]
        exact ⟨List.take_left' hl, List.drop_left' hl⟩
      | comment d =>
        simp [Node.extract, collapsePoint, Node.textBefore, Node.textAfter]
      | elem t c s ch =>
        simp only [Node.length] at hs
        have hl : (ch.take so).length = so := List.length_take_of_le hs
        simp only [Node.extract, collapsePoint, Node.textBefore, Node.textAfter]
        rw [List.take_left' hl, List.drop_left' hl]
        exact ⟨rfl, rfl⟩
    | cons j pe =>
      simp only [pointLE, decide_eq_true_eq] at hle
      cases n with
      | text d => simp [Node.validPoint] at he
      | comment d => simp [Node.validPoint] at he
      | elem t c s ch =>
        simp only [Node.validPoint] at he
        simp only [Node.length] at hs
        cases h : ch[j]? with
        | none => simp [h] at he
        | some k =>
          have hl : (ch.take so).length = so := List.length_take_of_le hs
          simp only [Node.extract, h, collapsePoint, Node.textBefore, Node.textAfter]
          rw [List.take_left' hl, List.drop_left' hl]
          simp [Node.textOfList, split_snd_text]
  | cons i ps ih =>
    cases n with
    | text d => simp [Node.validPoint] at hs
    | comment d => simp [Node.validPoint] at hs
    | elem t c s ch =>
      simp only [Node.validPoint] at hs
      cases hi : ch[i]? with
      | none => simp [hi] at hs
      | some a =>
        simp only [hi] at hs
        have hil := lt_length_of_getElem? ch i a hi
        have hl : (ch.take i).length = i := List.length_take_of_le (Nat.le_of_lt hil)
        cases pe with
        | nil =>
          simp only [Node.extract, hi, collapsePoint, Node.textBefore, Node.textAfter]
          rw [take_succ_append_cons _ _ _ _ hl, drop_succ_append_cons _ _ _ _ hl]
          simp [textOfList_append, Node.textOfList, split_fst_text]
        | cons j pe =>
          simp only [Node.validPoint] at he
          cases hj : ch[j]? with
          | none => simp [hj] at he
          | some b =>
            simp only [hj] at he
            simp only [pointLE] at hle
            by_cases hij : i = j
            · subst hij
              rw [hi] at hj; cases hj
              simp only [if_true] at hle
              have h := ih pe a hs he hle
              simp only [Node.extract, if_true, hi, collapsePoint, Node.textBefore,
                Node.textAfter, take_set_self, drop_set_self,
                getElem?_set_self_of_some ch i a _ hi]
              rw [h.1, h.2]
              exact ⟨rfl, rfl⟩
            · simp only [Node.extract, hij, if_false, hi, hj, collapsePoint, Node.textBefore,
                Node.textAfter]
              rw [take_succ_append_cons _ _ _ _ hl, drop_succ_append_cons _ _ _ _ hl]
              simp [textOfList_append, Node.textOfList, split_fst_text, split_snd_text]

/-- Insertion puts the new node's text exactly at the boundary point. -/
theorem insertAt_text (new : Node) (p : Path) (off : Nat) (n m : Node)
    (h : Node.insertAt new p off n = some m) :
    m.textContent = Node.textBefore p off n ++ (new.textContent ++ Node.textAfter p off n) := by
  induction p generalizing n m with
  | nil =>
    cases n with
    | text d => simp [Node.insertAt] at h
    | comment d => simp [Node.insertAt] at h
    | elem t c s ch =>
      simp only [Node.insertAt, Option.some.injEq] at h
      subst h
      simp [Node.textContent, Node.textBefore, Node.textAfter, textOfList_append,
        Node.textOfList]
  | cons i p ih =>
    cases n with
    | text d => simp [Node.insertAt] at h
    | comment d => simp [Node.insertAt] at h
    | elem t c s ch =>
      simp only [Node.insertAt] at h
      cases hi : ch[i]? with
      | none => simp [hi] at h
      | some k =>
        simp only [hi] at h
        cases k with
        | text d =>
          cases p with
          | nil =>
            simp only [Option.some.injEq] at h
            subst h
            simp [Node.textContent, Node.textBefore, Node.textAfter, textOfList_append,
              Node.textOfList, hi]
          | cons i' p' =>
            simp [Node.insertAt] at h
        | comment d =>
          cases p with
          | nil => simp [Node.insertAt] at h
          | cons i' p' => simp [Node.insertAt] at h
        | elem t' c' s' ch' =>
          simp only [Option.map_eq_some'] at h
          obtain ⟨k', hk', rfl⟩ := h
          have h1 := ih _ _ hk'
          simp only [Node.textContent, Node.textBefore, Node.textAfter, hi]
          rw [textOfList_set ch i _ k' hi, h1]
          simp [List.append_assoc]

/-- The inserted node is found at the position `Node.insertedAt` reports, with the text
before the insertion point on its left and the text after it on its right. -/
theorem insertAt_position (new : Node) (p : Path) (off : Nat) (n m : Node)
    (hv : n.validPoint p off = true) (h : Node.insertAt new p off n = some m) :
    m.nodeAt ((Node.insertedAt p off n).1 ++ [(Node.insertedAt p off n).2]) = some new ∧
      Node.textBefore (Node.insertedAt p off n).1 (Node.insertedAt p off n).2 m =
        Node.textBefore p off n ∧
      Node.textAfter (Node.insertedAt p off n).1 ((Node.insertedAt p off n).2 + 1) m =
        Node.textAfter p off n := by
  induction p generalizing n m with
  | nil =>
    cases n with
    | text d => simp [Node.insertAt] at h
    | comment d => simp [Node.insertAt] at h
    | elem t c s ch =>
      simp only [Node.insertAt, Option.some.injEq] at h
      subst h
      simp only [Node.validPoint, Node.length, decide_eq_true_eq] at hv
      have hl : (ch.take off).length = off := List.length_take_of_le hv
      simp only [Node.insertedAt, List.nil_append, Node.nodeAt, Node.children,
        Node.textBefore, Node.textAfter]
      rw [List.take_left' hl, drop_succ_append_cons _ _ _ _ hl]
      refine ⟨?_, rfl, rfl⟩
      have h2 : (ch.take off ++ new :: ch.drop off)[off]? = some new := by
        rw [List.getElem?_append_right (by omega)]
        simp [hl]
      rw [h2]
  | cons i p ih =>
    cases n with
    | text d => simp [Node.insertAt] at h
    | comment d => simp [Node.insertAt] at h
    | elem t c s ch =>
      simp only [Node.insertAt] at h
      simp only [Node.validPoint] at hv
      cases hi : ch[i]? with
      | none => simp [hi] at h
      | some k =>
        simp only [hi] at h hv
        have hil := lt_length_of_getElem? ch i k hi
        have hl : (ch.take i).length = i := List.length_take_of_le (Nat.le_of_lt hil)
        cases k with
        | text d =>
          cases p with
          | nil =>
            simp only [Option.some.injEq] at h
            subst h
            simp only [Node.validPoint, Node.length, decide_eq_true_eq] at hv
            simp only [Node.insertedAt, Node.children, hi, List.nil_append, Node.nodeAt,
              Node.textBefore, Node.textAfter]
            have e1 : ch.take i ++ Node.text (d.take off) :: new :: Node.text (d.drop off)
                :: ch.drop (i + 1) =
                (ch.take i ++ [Node.text (d.take off)]) ++ new :: Node.text (d.drop off)
                  :: ch.drop (i + 1) := by simp
            have hl' : (ch.take i ++ [Node.text (d.take off)]).length = i + 1 := by
              simp [hl]
            rw [e1, List.take_left' hl', drop_succ_append_cons _ _ _ _ hl']
            refine ⟨?_, ?_, ?_⟩
            · have h2 : ((ch.take i ++ [Node.text (d.take off)]) ++ new ::
                  Node.text (d.drop off) :: ch.drop (i + 1))[i + 1]? = some new := by
                rw [List.getElem?_append_right (by omega)]
                simp [hl']
              rw [h2]
            · simp [textOfList_append, Node.textOfList, Node.textContent]
            · simp [Node.textOfList, Node.textContent]
          | cons i' p' => simp [Node.insertAt] at h
        | comment d =>
          cases p with
          | nil => simp [Node.insertAt] at h
          | cons i' p' => simp [Node.insertAt] at h
        | elem t' c' s' ch' =>
          simp only [Option.map_eq_some'] at h
          obtain ⟨k', hk', rfl⟩ := h
          have h1 := ih _ _ hv hk'
          have hset := getElem?_set_self_of_some ch i _ k' hi
          simp only [Node.insertedAt, Node.children, hi, List.cons_append, Node.nodeAt,
            Node.textBefore, Node.textAfter, hset, take_set_self, drop_set_self]
          refine ⟨h1.1, ?_, ?_⟩
          · rw [h1.2.1]
          · rw [h1.2.2]

/-- Insertion succeeds exactly at the points `Node.insertable` accepts. -/
theorem insertAt_isSome (new : Node) (p : Path) (off : Nat) (n : Node) :
    (Node.insertAt new p off n).isSome = Node.insertable p n := by
  induction p generalizing n with
  | nil => cases n <;> simp [Node.insertAt, Node.insertable, Node.isElement]
  | cons i p ih =>
    cases n with
    | text d => simp [Node.insertAt, Node.insertable]
    | comment d => simp [Node.insertAt, Node.insertable]
    | elem t c s ch =>
      simp only [Node.insertAt, Node.insertable]
      cases hi : ch[i]? with
      | none => simp
      | some k =>
        cases k with
        | text d =>
          cases p with
          | nil => simp
          | cons i' p' => simp [Node.insertAt, Node.insertable]
        | comment d =>
          cases p with
          | nil => simp [Node.insertAt, Node.insertable, Node.isElement]
          | cons i' p' => simp [Node.insertAt, Node.insertable]
        | elem t' c' s' ch' =>
          simp only [Option.isSome_map']
          exact ih _

/-- Extraction leaves an element an element. -/
theorem extract_elem (ps : Path) (so : Nat) (pe : Path) (eo : Nat) (t : String)
    (c : List String) (s : List (String × String)) (ch : List Node) :
    ∃ ch', (Node.extract ps so pe eo (.elem t c s ch)).1 = .elem t c s ch' := by
  cases ps with
  | nil =>
    cases pe with
    | nil => exact ⟨_, rfl⟩
    | cons j pe =>
      simp only [Node.extract]
      cases ch[j]? with
      | none => exact ⟨_, rfl⟩
      | some k => exact ⟨_, rfl⟩
  | cons i ps =>
    cases pe with
    | nil =>
      simp only [Node.extract]
      cases ch[i]? with
      | none => exact ⟨_, rfl⟩
      | some k => exact ⟨_, rfl⟩
    | cons j pe =>
      simp only [Node.extract]
      by_cases hij : i = j
      · simp only [hij, if_true]
        cases ch[j]? with
        | none => exact ⟨_, rfl⟩
        | some k => exact ⟨_, rfl⟩
      · simp only [hij, if_false]
        cases ch[i]? with
        | none => exact ⟨_, rfl⟩
        | some a =>
          cases ch[j]? with
          | none => exact ⟨_, rfl⟩
          | some b => exact ⟨_, rfl⟩

/-- After extraction from an element, the collapsed range accepts an insertion unless both
ends of the range were inside one comment node. -/
theorem insertable_collapse (ps : Path) (so : Nat) (pe : Path) (eo : Nat) (n : Node)
    (hs : n.validPoint ps so = true) (he : n.validPoint pe eo = true)
    (hn : n.isElement = true) (hc : ¬ (ps = pe ∧ n.isCommentAt ps = true)) :
    Node.insertable (collapsePoint ps so pe eo).1 (Node.extract ps so pe eo n).1 = true := by
  induction ps generalizing pe n with
  | nil =>
    cases n with
    | text d => simp [Node.isElement] at hn
    | comment d => simp [Node.isElement] at hn
    | elem t c s ch =>
      obtain ⟨ch', h'⟩ := extract_elem [] so pe eo t c s ch
      rw [h']
      cases pe <;> simp [collapsePoint, Node.insertable, Node.isElement]
  | cons i ps ih =>
    cases n with
    | text d => simp [Node.isElement] at hn
    | comment d => simp [Node.isElement] at hn
    | elem t c s ch =>
      simp only [Node.validPoint] at hs
      cases hi : ch[i]? with
      | none => simp [hi] at hs
      | some a =>
        simp only [hi] at hs
        cases pe with
        | nil =>
          obtain ⟨ch', h'⟩ := extract_elem (i :: ps) so [] eo t c s ch
          rw [h']
          simp [collapsePoint, Node.insertable, Node.isElement]
        | cons j pe =>
          by_cases hij : i = j
          · subst hij
            simp only [Node.validPoint, hi] at he
            simp only [Node.extract, if_true, hi, collapsePoint, Node.insertable,
              getElem?_set_self_of_some ch i a _ hi]
            cases a with
            | text d =>
              cases ps with
              | nil =>
                cases pe with
                | nil => simp [Node.extract, collapsePoint]
                | cons j' pe' => simp [Node.validPoint] at he
              | cons i' ps' => simp [Node.validPoint] at hs
            | comment d =>
              cases ps with
              | nil =>
                cases pe with
                | nil =>
                  exfalso
                  apply hc
                  simp [Node.isCommentAt, Node.nodeAt, Node.children, hi]
                | cons j' pe' => simp [Node.validPoint] at he
              | cons i' ps' => simp [Node.validPoint] at hs
            | elem t' c' s' ch' =>
              obtain ⟨ch'', h''⟩ := extract_elem ps so pe eo t' c' s' ch'
              have h := ih pe (.elem t' c' s' ch') hs he rfl (by
                intro hx
                apply hc
                refine ⟨by rw [hx.1], ?_⟩
                have := hx.2
                simpa [Node.isCommentAt, Node.nodeAt, Node.children, hi] using this)
              rw [h''] at h ⊢
              exact h
          · obtain ⟨ch', h'⟩ := extract_elem (i :: ps) so (j :: pe) eo t c s ch
            rw [h']
            simp [collapsePoint, hij, Node.insertable, Node.isElement]

/-- After extraction the collapsed range is a boundary point of the remaining tree. -/
theorem collapse_valid (ps : Path) (so : Nat) (pe : Path) (eo : Nat) (n : Node)
    (hs : n.validPoint ps so = true) (he : n.validPoint pe eo = true)
    (hle : pointLE ps so pe eo = true) :
    (Node.extract ps so pe eo n).1.validPoint (collapsePoint ps so pe eo).1
      (collapsePoint ps so pe eo).2 = true := by
  induction ps generalizing pe n with
  | nil =>
    simp only [Node.validPoint, decide_eq_true_eq] at hs
    cases pe with
    | nil =>
      cases n with
      | text d =>
        simp only [Node.length] at hs
        simp only [Node.extract, collapsePoint, Node.validPoint, Node.length,
          decide_eq_true_eq, List.length_append, List.length_take]
        omega
      | comment d =>
        simp only [Node.length] at hs
        simp only [Node.extract, collapsePoint, Node.validPoint, Node.length,
          decide_eq_true_eq, List.length_append, List.length_take]
        omega
      | elem t c s ch =>
        simp only [Node.length] at hs
        simp only [Node.extract, collapsePoint, Node.validPoint, Node.length,
          decide_eq_true_eq, List.length_append, List.length_take]
        omega
    | cons j pe =>
      cases n with
      | text d => simp [Node.validPoint] at he
      | comment d => simp [Node.validPoint] at he
      | elem t c s ch =>
        simp only [Node.validPoint] at he
        simp only [Node.length] at hs
        cases h : ch[j]? with
        | none => simp [h] at he
        | some k =>
          simp only [Node.extract, h, collapsePoint, Node.validPoint, Node.length,
            decide_eq_true_eq, List.length_append, List.length_take, List.length_cons]
          omega
  | cons i ps ih =>
    cases n with
    | text d => simp [Node.validPoint] at hs
    | comment d => simp [Node.validPoint] at hs
    | elem t c s ch =>
      simp only [Node.validPoint] at hs
      cases hi : ch[i]? with
      | none => simp [hi] at hs
      | some a =>
        simp only [hi] at hs
        have hil := lt_length_of_getElem? ch i a hi
        cases pe with
        | nil =>
          simp only [Node.extract, hi, collapsePoint, Node.validPoint, Node.length,
            decide_eq_true_eq, List.length_append, List.length_take, List.length_cons]
          omega
        | cons j pe =>
          simp only [Node.validPoint] at he
          cases hj : ch[j]? with
          | none => simp [hj] at he
          | some b =>
            simp only [hj] at he
            simp only [pointLE] at hle
            by_cases hij : i = j
            · subst hij
              rw [hi] at hj; cases hj
              simp only [if_true] at hle
              have h := ih pe a hs he hle
              simp only [Node.extract, if_true, hi, collapsePoint, Node.validPoint,
                getElem?_set_self_of_some ch i a _ hi]
              exact h
            · simp only [Node.extract, hij, if_false, hi, hj, collapsePoint, Node.validPoint,
                Node.length, decide_eq_true_eq, List.length_append, List.length_take,
                List.length_cons]
              omega

/-! ## The monad -/

theorem Js.bind_apply {σ α β : Type} (x : Js σ α) (f : α → Js σ β) (s : σ) :
    (x >>= f) s =
      match x s with
      | (.ok a, s') => f a s'
      | (.thrown e, s') => (.thrown e, s') := rfl

/-! ## `wrap` without a selection, and exceptions -/

/-- C1. When the window selection is absent, collapsed or without ranges, `wrap` of each of
the three tools returns normally, and the only things that change are the console (one
informational line) and the trace (the call of `getSelection`): the page (document tree and
selection ranges), the host, the stored elements and the listeners are untouched, and no
formatting command, extraction or insertion is called. -/
theorem C1_wrap_without_selection (env : Browser) (w : World) (bold : BoldTool)
    (italic : ItalicTool) (color : TextColorTool) (h : NoSelection env w.page) :
    bold.wrap env w =
        (.ok (), { w with console := w.console ++ [.log "No text selected"],
                          calls := w.calls ++ [.getSelection] }) ∧
      italic.wrap env w =
        (.ok (), { w with console := w.console ++ [.log "No text selected"],
                          calls := w.calls ++ [.getSelection] }) ∧
      color.wrap env w =
        (.ok (), { w with console := w.console ++ [.log "No text selected"],
                          calls := w.calls ++ [.getSelection] }) := by
  rcases h with h | ⟨s, h, hs⟩
  · simp [BoldTool.wrap, ItalicTool.wrap, TextColorTool.wrap, Js.tryCatch, Js.bind_apply,
      World.getSelection, h, World.consoleLog, Js.modify]
  · simp [BoldTool.wrap, ItalicTool.wrap, TextColorTool.wrap, Js.tryCatch, Js.bind_apply,
      World.getSelection, h, hs, World.consoleLog, Js.modify]

/-- Witness for C1: the three tools on the sample page with a collapsed selection. -/
theorem C1_wrap_without_selection_witness :
    NoSelection Sample.env (Sample.world Sample.doc (some Sample.selCaret)).page ∧
      ((BoldTool.new Sample.api (Sample.world Sample.doc none)).1.wrap Sample.env
          (Sample.world Sample.doc (some Sample.selCaret))).1 = .ok () :=
  have h : NoSelection Sample.env (Sample.world Sample.doc (some Sample.selCaret)).page :=
    Or.inr ⟨Sample.selCaret, rfl, Or.inl (by decide)⟩
  ⟨h, by
    rw [(C1_wrap_without_selection Sample.env (Sample.world Sample.doc (some Sample.selCaret))
      (BoldTool.new Sample.api (Sample.world Sample.doc none)).1
      (ItalicTool.new Sample.api (Sample.world Sample.doc none)).1
      (TextColorTool.new Sample.api (Sample.world Sample.doc none)).1 h).1]⟩

/-- C7. Whatever the browser operations and the host's `close` do, including throwing,
`wrap` of each of the three tools returns normally. -/
theorem C7_wrap_never_throws (env : Browser) (w : World) (bold : BoldTool)
    (italic : ItalicTool) (color : TextColorTool) :
    (bold.wrap env w).1 = .ok () ∧ (italic.wrap env w).1 = .ok () ∧
      (color.wrap env w).1 = .ok () := by
  refine ⟨?_, ?_, ?_⟩
  · simp only [BoldTool.wrap, Js.tryCatch, World.consoleError, Js.modify]
    split <;> simp_all
  · simp only [ItalicTool.wrap, Js.tryCatch, World.consoleError, Js.modify]
    split <;> simp_all
  · simp only [TextColorTool.wrap, Js.tryCatch, World.consoleError, Js.modify]
    split <;> simp_all

/-- C8. With a selection that is not collapsed and has a range, `BoldTool.wrap` calls
`execCommand('bold')` exactly once, on the page as it stood, and `ItalicTool.wrap` calls
`execCommand('italic')` exactly once; when the command returns, `api.inlineToolbar.close()`
is called exactly once, after it; when the command throws, `close` is not called. -/
theorem C8_wrap_runs_command_once (env : Browser) (w : World) (bold : BoldTool)
    (italic : ItalicTool) (s : Selection) (hsel : env.getSelection w.page = .ok (some s))
    (hc : s.isCollapsed = false) (hr : s.rangeCount ≠ 0) :
    ((bold.wrap env w).2.calls =
        w.calls ++ [.getSelection, .execCommand "bold"] ++
          (if (env.execCommand "bold" w.page).1.isOk then [.inlineToolbarClose] else []) ∧
      (bold.wrap env w).2.page = (env.execCommand "bold" w.page).2) ∧
    ((italic.wrap env w).2.calls =
        w.calls ++ [.getSelection, .execCommand "italic"] ++
          (if (env.execCommand "italic" w.page).1.isOk then [.inlineToolbarClose] else []) ∧
      (italic.wrap env w).2.page = (env.execCommand "italic" w.page).2) := by
  refine ⟨?_, ?_⟩
  · cases hx : env.execCommand "bold" w.page with
    | mk r p =>
      cases r with
      | ok b =>
        cases hy : bold.api.inlineToolbar.close w.host with
        | mk r2 h2 =>
          cases r2 <;>
            simp [BoldTool.wrap, Js.tryCatch, Js.bind_apply, World.getSelection, hsel, hc, hr,
              World.native, World.hostCall, World.consoleError, Js.modify, hx, hy, Outcome.isOk]
      | thrown e =>
        simp [BoldTool.wrap, Js.tryCatch, Js.bind_apply, World.getSelection, hsel, hc, hr,
          World.native, World.hostCall, World.consoleError, Js.modify, hx, Outcome.isOk]
  · cases hx : env.execCommand "italic" w.page with
    | mk r p =>
      cases r with
      | ok b =>
        cases hy : italic.api.inlineToolbar.close w.host with
        | mk r2 h2 =>
          cases r2 <;>
            simp [ItalicTool.wrap, Js.tryCatch, Js.bind_apply, World.getSelection, hsel, hc, hr,
              World.native, World.hostCall, World.consoleError, Js.modify, hx, hy, Outcome.isOk]
      | thrown e =>
        simp [ItalicTool.wrap, Js.tryCatch, Js.bind_apply, World.getSelection, hsel, hc, hr,
          World.native, World.hostCall, World.consoleError, Js.modify, hx, Outcome.isOk]

/-- Witness for C8: the sample page with the word "Hello" selected. -/
theorem C8_wrap_runs_command_once_witness :
    ((BoldTool.new Sample.api (Sample.world Sample.doc none)).1.wrap Sample.env
        (Sample.world Sample.doc (some Sample.selHello))).2.calls =
      [.getSelection, .execCommand "bold", .inlineToolbarClose] :=
  (C8_wrap_runs_command_once Sample.env (Sample.world Sample.doc (some Sample.selHello))
    (BoldTool.new Sample.api (Sample.world Sample.doc none)).1
    (ItalicTool.new Sample.api (Sample.world Sample.doc none)).1
    Sample.selHello rfl (by decide) (by decide)).1.1

/-! ## `checkState` -/

/-- C4. With a null anchor node `checkState` of each of the three tools returns `false`,
whatever the tree and the other fields of the selection are. -/
theorem C4_checkState_without_anchor (bold : BoldTool) (italic : ItalicTool)
    (color : TextColorTool) (doc : Node) (selection : Selection)
    (h : selection.anchorNode = none) :
    bold.checkState doc selection = .ok false ∧
      italic.checkState doc selection = .ok false ∧
      color.checkState doc selection = .ok false := by
  simp [BoldTool.checkState, ItalicTool.checkState, TextColorTool.checkState, h]

/-- Witness for C4: a selection without anchor on the sample page. -/
theorem C4_checkState_without_anchor_witness :
    (BoldTool.new Sample.api (Sample.world Sample.doc none)).1.checkState Sample.doc
      ⟨none, 0, none, 0, []⟩ = .ok false :=
  (C4_checkState_without_anchor (BoldTool.new Sample.api (Sample.world Sample.doc none)).1
    (ItalicTool.new Sample.api (Sample.world Sample.doc none)).1
    (TextColorTool.new Sample.api (Sample.world Sample.doc none)).1 Sample.doc
    ⟨none, 0, none, 0, []⟩ rfl).1

theorem closest_isSome_iff (sel : Selector) (n : Node) (p : Path) (m : Node)
    (hp : n.nodeAt p = some m) :
    (n.closest sel p).isSome = true ↔ n.hasMatchingAncestor sel p := by
  induction p generalizing n with
  | nil =>
    simp only [Node.closest, Node.hasMatchingAncestor, List.prefix_nil]
    constructor
    · intro h
      by_cases hm : n.isMatch sel = true
      · exact ⟨[], n, rfl, rfl, hm⟩
      · simp [hm] at h
    · rintro ⟨q, k, rfl, hk, hm⟩
      simp only [Node.nodeAt, Option.some.injEq] at hk
      subst hk
      simp [hm]
  | cons i p ih =>
    simp only [Node.nodeAt] at hp
    cases hc : n.children[i]? with
    | none => simp [hc] at hp
    | some c =>
      simp only [hc] at hp
      have ih' := ih c hp
      simp only [Node.closest, hc]
      constructor
      · intro h
        cases hcl : Node.closest sel c p with
        | some q =>
          have : (Node.closest sel c p).isSome = true := by simp [hcl]
          obtain ⟨q', k, hq', hk, hm⟩ := ih'.1 this
          refine ⟨i :: q', k, by simpa using hq', ?_, hm⟩
          simp [Node.nodeAt, hc, hk]
        | none =>
          simp only [hcl] at h
          by_cases hm : n.isMatch sel = true
          · exact ⟨[], n, List.nil_prefix, rfl, hm⟩
          · simp [hm] at h
      · rintro ⟨q, k, hq, hk, hm⟩
        rcases List.prefix_cons_iff.1 hq with rfl | ⟨t, rfl, ht⟩
        · simp only [Node.nodeAt, Option.some.injEq] at hk
          subst hk
          cases hcl : Node.closest sel c p <;> simp [hm]
        · simp only [Node.nodeAt, hc] at hk
          have : (Node.closest sel c p).isSome = true := ih'.2 ⟨t, k, ht, hk, hm⟩
          cases hcl : Node.closest sel c p with
          | none => simp [hcl] at this
          | some q => simp

theorem nodeAt_concat (n : Node) (q : Path) (i : Nat) (m : Node)
    (h : n.nodeAt (q ++ [i]) = some m) : ∃ par, n.nodeAt q = some par := by
  induction q generalizing n with
  | nil => exact ⟨n, rfl⟩
  | cons j q ih =>
    simp only [List.cons_append, Node.nodeAt] at h ⊢
    cases hc : n.children[j]? with
    | none => simp [hc] at h
    | some c =>
      simp only [hc] at h ⊢
      exact ih c h

/-- What `checkState` computes when the anchor node is an element or has a parent: the
anchor element exists, and `closest` finds a match exactly when the anchor node has an
inclusive ancestor that matches the selector. -/
theorem closest_of_anchor (sel : Selector) (doc : Node) (p : Path) (m : Node)
    (hnode : doc.nodeAt p = some m) (hel : m.isElement = true ∨ p ≠ []) :
    ∃ a, doc.elementOrParent p = some a ∧
      ((doc.closest sel a).isSome = true ↔ doc.hasMatchingAncestor sel p) := by
  cases m with
  | elem t c s ch =>
    refine ⟨p, by simp [Node.elementOrParent, hnode], ?_⟩
    exact closest_isSome_iff sel doc p _ hnode
  | text d =>
    have hne : p ≠ [] := by
      rcases hel with h | h
      · simp [Node.isElement] at h
      · exact h
    obtain ⟨par, hpar⟩ := nodeAt_concat doc p.dropLast (p.getLast hne) (.text d)
      (by rw [List.dropLast_append_getLast hne]; exact hnode)
    refine ⟨p.dropLast, by simp [Node.elementOrParent, hnode, hne], ?_⟩
    rw [closest_isSome_iff sel doc p.dropLast par hpar]
    constructor
    · rintro ⟨q, k, hq, hk, hm⟩
      exact ⟨q, k, hq.trans (List.dropLast_prefix p), hk, hm⟩
    · rintro ⟨q, k, hq, hk, hm⟩
      rw [← List.dropLast_append_getLast hne] at hq
      rcases List.prefix_concat_iff.1 hq with rfl | hq
      · rw [List.dropLast_append_getLast hne, hnode] at hk
        cases hk
        simp [Node.isMatch] at hm
      · exact ⟨q, k, hq, hk, hm⟩
  | comment d =>
    have hne : p ≠ [] := by
      rcases hel with h | h
      · simp [Node.isElement] at h
      · exact h
    obtain ⟨par, hpar⟩ := nodeAt_concat doc p.dropLast (p.getLast hne) (.comment d)
      (by rw [List.dropLast_append_getLast hne]; exact hnode)
    refine ⟨p.dropLast, by simp [Node.elementOrParent, hnode, hne], ?_⟩
    rw [closest_isSome_iff sel doc p.dropLast par hpar]
    constructor
    · rintro ⟨q, k, hq, hk, hm⟩
      exact ⟨q, k, hq.trans (List.dropLast_prefix p), hk, hm⟩
    · rintro ⟨q, k, hq, hk, hm⟩
      rw [← List.dropLast_append_getLast hne] at hq
      rcases List.prefix_concat_iff.1 hq with rfl | hq
      · rw [List.dropLast_append_getLast hne, hnode] at hk
        cases hk
        simp [Node.isMatch] at hm
      · exact ⟨q, k, hq, hk, hm⟩

/-- For an anchor node that is an element or has a parent, `checkState` of each tool returns
a boolean, which is `true` exactly when the anchor node has an inclusive ancestor matching
`B`, `I` or `SPAN.colored-text`. -/
theorem checkState_with_anchor_element (bold : BoldTool) (italic : ItalicTool)
    (color : TextColorTool) (doc : Node) (selection : Selection) (p : Path) (m : Node)
    (hanchor : selection.anchorNode = some p) (hnode : doc.nodeAt p = some m)
    (hel : m.isElement = true ∨ p ≠ []) :
    (∃ b, bold.checkState doc selection = .ok b ∧
        (b = true ↔ doc.hasMatchingAncestor (parseSelector bold.tag) p)) ∧
      (∃ b, italic.checkState doc selection = .ok b ∧
        (b = true ↔ doc.hasMatchingAncestor (parseSelector italic.tag) p)) ∧
      (∃ b, color.checkState doc selection = .ok b ∧
        (b = true ↔
          doc.hasMatchingAncestor (parseSelector (color.tag ++ "." ++ color.className)) p)) := by
  refine ⟨?_, ?_, ?_⟩
  · obtain ⟨a, ha, hiff⟩ := closest_of_anchor (parseSelector bold.tag) doc p m hnode hel
    exact ⟨_, by simp only [BoldTool.checkState, hanchor, ha], hiff⟩
  · obtain ⟨a, ha, hiff⟩ := closest_of_anchor (parseSelector italic.tag) doc p m hnode hel
    exact ⟨_, by simp only [ItalicTool.checkState, hanchor, ha], hiff⟩
  · obtain ⟨a, ha, hiff⟩ :=
      closest_of_anchor (parseSelector (color.tag ++ "." ++ color.className)) doc p m hnode hel
    exact ⟨_, by simp only [TextColorTool.checkState, hanchor, ha], hiff⟩

/-- C3, at the failing input. For an anchor node that is not an element and has no parent
element, `checkState` of each of the three tools throws a `TypeError` instead of returning a
boolean: `text.parentElement` is `null` and `.closest` is read from it. -/
theorem C3_checkState_throws_without_parent_element :
    (BoldTool.new Sample.api (Sample.world Sample.doc none)).1.checkState Sample.loneText
        Sample.selRoot =
        .thrown (.typeError "Cannot read properties of null (reading 'closest')") ∧
      (ItalicTool.new Sample.api (Sample.world Sample.doc none)).1.checkState Sample.loneText
        Sample.selRoot =
        .thrown (.typeError "Cannot read properties of null (reading 'closest')") ∧
      (TextColorTool.new Sample.api (Sample.world Sample.doc none)).1.checkState
        Sample.loneText Sample.selRoot =
        .thrown (.typeError "Cannot read properties of null (reading 'closest')") := by
  refine ⟨?_, ?_, ?_⟩ <;> rfl

/-! ## `TextColorTool.wrap` on a selection -/

/-- The document that `TextColorTool.wrap` leaves behind when extraction and insertion both
succeed: whatever happens afterwards (restoring the selection, updating the indicator,
closing the toolbar, or an exception in one of them) does not touch the document tree. -/
theorem wrap_document (exec : String → Js Page Bool) (css : String → String → Bool)
    (self : TextColorTool) (w : World)
    (s : Selection) (r : Range) (d : Node)
    (hsel : w.page.selection = some s) (hnc : s.isCollapsed = false)
    (hr : s.ranges.head? = some r)
    (hins : Node.insertAt
        (self.coloredSpan css
          (Node.extract r.startContainer r.startOffset r.endContainer r.endOffset
            w.page.document).2)
        (collapsePoint r.startContainer r.startOffset r.endContainer r.endOffset).1
        (collapsePoint r.startContainer r.startOffset r.endContainer r.endOffset).2
        (Node.extract r.startContainer r.startOffset r.endContainer r.endOffset
          w.page.document).1 = some d) :
    (self.wrap (Browser.dom exec css) w).2.page.document = d := by
  have hr0 : s.ranges[0]? = some r := by
    cases hl : s.ranges with
    | nil => simp [hl] at hr
    | cons a l => simp [hl] at hr; simp [hr]
  have hcount : s.rangeCount ≠ 0 := by
    cases hl : s.ranges with
    | nil => simp [hl] at hr
    | cons a l => simp [Selection.rangeCount, hl]
  cases hb : self.button with
  | none =>
    simp [TextColorTool.wrap, Js.tryCatch, Js.bind_apply, World.getSelection, Browser.dom,
      hsel, hnc, hcount, Selection.getRangeAt, hr0, World.native, hins, hb, Js.throw,
      World.consoleError, Js.modify]
  | some button =>
    cases hy : self.api.inlineToolbar.close w.host with
    | mk r2 h2 =>
      cases hq : w.querySelectorClass button "color-indicator" <;>
      simp only [World.querySelectorClass] at hq <;>
      cases r2 <;>
        simp [TextColorTool.wrap, Js.tryCatch, Js.bind_apply, World.getSelection, Browser.dom,
          hsel, hnc, hcount, Selection.getRangeAt, hr0, World.native, hins, hb, Js.throw,
          World.consoleError, Js.modify, Js.get, World.hostCall, hy, World.querySelectorClass,
          hq, World.setStyle, World.update, Js.pure, pure]

/-- The span built by `wrap` for an instance with the constructor's tag and class: the
colour is declared when the CSS parser accepts it. -/
theorem coloredSpan_shape (css : String → String → Bool) (self : TextColorTool)
    (frag : List Node) (htag : self.tag = "SPAN") (hclass : self.className = "colored-text") :
    self.coloredSpan css frag =
      .elem "SPAN" ["colored-text"]
        (if css "color" self.currentColor then [("color", self.currentColor)] else [])
        frag := by
  have hu : upperCase "SPAN" = "SPAN" := by decide
  by_cases hc : css "color" self.currentColor = true
  · simp [TextColorTool.coloredSpan, Node.createElement, Node.classListAdd, Node.setStyle,
      Node.appendFragment, htag, hclass, hu, setKey, hc]
  · by_cases he : self.currentColor = ""
    · rw [he] at hc
      simp [TextColorTool.coloredSpan, Node.createElement, Node.classListAdd, Node.setStyle,
        Node.appendFragment, htag, hclass, hu, hc, he]
    · simp [TextColorTool.coloredSpan, Node.createElement, Node.classListAdd, Node.setStyle,
        Node.appendFragment, htag, hclass, hu, hc, he]

theorem coloredSpan_eq (css : String → String → Bool) (self : TextColorTool)
    (frag : List Node) (htag : self.tag = "SPAN") (hclass : self.className = "colored-text")
    (hcolor : css "color" self.currentColor = true) :
    self.coloredSpan css frag =
      .elem "SPAN" ["colored-text"] [("color", self.currentColor)] frag := by
  rw [coloredSpan_shape css self frag htag hclass, if_pos hcolor]

theorem countList_append (sel : String → List String → List (String × String) → Bool)
    (a b : List Node) :
    Node.countList sel (a ++ b) = Node.countList sel a + Node.countList sel b := by
  induction a with
  | nil => simp [Node.countList]
  | cons x l ih => simp [Node.countList, ih, Nat.add_assoc]

theorem countList_set (sel : String → List String → List (String × String) → Bool)
    (ch : List Node) (i : Nat) (k x : Node) (h : ch[i]? = some k) :
    Node.countList sel (ch.set i x) + k.count sel = Node.countList sel ch + x.count sel := by
  have hi := lt_length_of_getElem? ch i k h
  have hch : ch = ch.take i ++ k :: ch.drop (i + 1) := by
    have hk : ch[i] = k := by
      rw [List.getElem?_eq_getElem hi] at h
      exact Option.some.inj h
    rw [← hk]
    exact (List.take_append_drop i ch).symm.trans (by rw [List.drop_eq_getElem_cons hi])
  rw [List.set_eq_take_append_cons_drop, if_pos hi]
  conv => rhs; rw [hch]
  simp only [countList_append, Node.countList]
  omega

/-- Insertion adds the elements of the new node to those of the tree and changes no other
element. -/
theorem insertAt_count (sel : String → List String → List (String × String) → Bool)
    (new : Node) (p : Path) (off : Nat) (n m : Node)
    (h : Node.insertAt new p off n = some m) :
    m.count sel = n.count sel + new.count sel := by
  induction p generalizing n m with
  | nil =>
    cases n with
    | text d => simp [Node.insertAt] at h
    | comment d => simp [Node.insertAt] at h
    | elem t c s ch =>
      simp only [Node.insertAt, Option.some.injEq] at h
      subst h
      have h2 := countList_append sel (ch.take off) (ch.drop off)
      rw [List.take_append_drop] at h2
      simp only [Node.count, countList_append, Node.countList]
      omega
  | cons i p ih =>
    cases n with
    | text d => simp [Node.insertAt] at h
    | comment d => simp [Node.insertAt] at h
    | elem t c s ch =>
      simp only [Node.insertAt] at h
      cases hi : ch[i]? with
      | none => simp [hi] at h
      | some k =>
        simp only [hi] at h
        have hlen := lt_length_of_getElem? ch i k hi
        have hch : Node.countList sel ch =
            Node.countList sel (ch.take i) + (k.count sel +
              Node.countList sel (ch.drop (i + 1))) := by
          have hk : ch[i] = k := by
            rw [List.getElem?_eq_getElem hlen] at hi
            exact Option.some.inj hi
          have h3 := countList_append sel (ch.take i) (ch.drop i)
          rw [List.take_append_drop, List.drop_eq_getElem_cons hlen, hk] at h3
          simpa [Node.countList] using h3
        cases k with
        | text d =>
          cases p with
          | nil =>
            simp only [Option.some.injEq] at h
            subst h
            simp only [Node.count, countList_append, Node.countList] at hch ⊢
            omega
          | cons i' p' =>
            simp [Node.insertAt] at h
        | comment d =>
          cases p with
          | nil => simp [Node.insertAt] at h
          | cons i' p' => simp [Node.insertAt] at h
        | elem t' c' s' ch' =>
          simp only [Option.map_eq_some'] at h
          obtain ⟨k', hk', rfl⟩ := h
          have h1 := ih _ _ hk'
          have h2 := countList_set sel ch i _ k' hi
          simp only [Node.count] at h1 h2 ⊢
          omega

/-- C2 (amended). For a selection that is not collapsed, whose first range `r` is a live
range of the document (so that it can be extracted) and does not lie inside a single comment
node (so that a node can be inserted at its start), and for a current colour that the CSS
parser accepts as a value of `color`, `TextColorTool.wrap` leaves the document that remains
after the extraction with exactly one node inserted, at the point to which the extraction
collapsed the range: at index `k` under the parent `q`,
* the inserted node is a `SPAN` with class `colored-text` and inline style
  `color: currentColor` whose children are exactly the extracted contents of the range;
* the text of that span is the text the range had before the call;
* the text before the span is the text that was before the start of the range, and the text
  after the span is the text that was after the end of the range;
* the text content of the whole document is unchanged;
* for every condition on tag name, classes and inline style, the elements that satisfy it
  are those of the remaining document and of the extracted contents and, when it satisfies
  the condition, the one new span: no other element is added or removed. -/
theorem C2_wrap_colors_selection (exec : String → Js Page Bool)
    (css : String → String → Bool) (self : TextColorTool)
    (w : World) (s : Selection) (r : Range)
    (htag : self.tag = "SPAN") (hclass : self.className = "colored-text")
    (hcolor : css "color" self.currentColor = true)
    (hsel : w.page.selection = some s) (hnc : s.isCollapsed = false)
    (hr : s.ranges.head? = some r)
    (hvalid : r.validIn w.page.document = true)
    (hroot : w.page.document.isElement = true)
    (hcomment : r.insideComment w.page.document = false) :
    ∃ (q : Path) (k : Nat),
      (q, k) =
          Node.insertedAt
            (collapsePoint r.startContainer r.startOffset r.endContainer r.endOffset).1
            (collapsePoint r.startContainer r.startOffset r.endContainer r.endOffset).2
            (Node.extract r.startContainer r.startOffset r.endContainer r.endOffset
              w.page.document).1 ∧
        Node.insertAt
            (.elem "SPAN" ["colored-text"] [("color", self.currentColor)]
              (Node.extract r.startContainer r.startOffset r.endContainer r.endOffset
                w.page.document).2)
            (collapsePoint r.startContainer r.startOffset r.endContainer r.endOffset).1
            (collapsePoint r.startContainer r.startOffset r.endContainer r.endOffset).2
            (Node.extract r.startContainer r.startOffset r.endContainer r.endOffset
              w.page.document).1 =
          some (self.wrap (Browser.dom exec css) w).2.page.document ∧
        ((self.wrap (Browser.dom exec css) w).2.page.document).nodeAt (q ++ [k]) =
          some (.elem "SPAN" ["colored-text"] [("color", self.currentColor)]
            (Node.extract r.startContainer r.startOffset r.endContainer r.endOffset
              w.page.document).2) ∧
        Node.textOfList
            (Node.extract r.startContainer r.startOffset r.endContainer r.endOffset
              w.page.document).2 = r.text w.page.document ∧
        Node.textBefore q k (self.wrap (Browser.dom exec css) w).2.page.document =
          Node.textBefore r.startContainer r.startOffset w.page.document ∧
        Node.textAfter q (k + 1) (self.wrap (Browser.dom exec css) w).2.page.document =
          Node.textAfter r.endContainer r.endOffset w.page.document ∧
        ((self.wrap (Browser.dom exec css) w).2.page.document).textContent =
          w.page.document.textContent ∧
        ∀ sel : String → List String → List (String × String) → Bool,
          ((self.wrap (Browser.dom exec css) w).2.page.document).count sel =
            (Node.extract r.startContainer r.startOffset r.endContainer r.endOffset
                w.page.document).1.count sel +
              (if sel "SPAN" ["colored-text"] [("color", self.currentColor)] then 1 else 0) +
              Node.countList sel
                (Node.extract r.startContainer r.startOffset r.endContainer r.endOffset
                  w.page.document).2 := by
  simp only [Range.validIn, Bool.and_eq_true] at hvalid
  obtain ⟨⟨hs, he⟩, hle⟩ := hvalid
  have hc : ¬ (r.startContainer = r.endContainer ∧
      w.page.document.isCommentAt r.startContainer = true) := by
    intro hx
    simp [Range.insideComment, hx.1, Bool.and_eq_true] at hcomment
    rw [← hx.1, hx.2] at hcomment
    cases hcomment
  have hable := insertable_collapse _ _ _ _ _ hs he hroot hc
  have htext := extract_text _ _ _ _ _ hs he hle
  have hcol := extract_collapse _ _ _ _ _ hs he hle
  have hcv := collapse_valid _ _ _ _ _ hs he hle
  have hsome := insertAt_isSome
    (self.coloredSpan css
      (Node.extract r.startContainer r.startOffset r.endContainer r.endOffset
        w.page.document).2)
    (collapsePoint r.startContainer r.startOffset r.endContainer r.endOffset).1
    (collapsePoint r.startContainer r.startOffset r.endContainer r.endOffset).2
    (Node.extract r.startContainer r.startOffset r.endContainer r.endOffset
      w.page.document).1
  rw [hable, Option.isSome_iff_exists] at hsome
  obtain ⟨d, hd⟩ := hsome
  have hdoc := wrap_document exec css self w s r d hsel hnc hr hd
  rw [coloredSpan_eq css self _ htag hclass hcolor] at hd
  have hpos := insertAt_position _ _ _ _ _ hcv hd
  have htc := insertAt_text _ _ _ _ _ hd
  rw [hdoc]
  refine ⟨_, _, rfl, hd, hpos.1, ?_, ?_, ?_, ?_, ?_⟩
  · rw [Range.text, ← htext.1, List.drop_left]
  · rw [hpos.2.1, hcol.1]
  · rw [hpos.2.2, hcol.2]
  · rw [htc, hcol.1, hcol.2]
    simp only [Node.textContent]
    rw [← List.append_assoc, htext.1, textBefore_append_textAfter]
  · intro sel
    rw [insertAt_count sel _ _ _ _ _ hd]
    simp only [Node.count]
    omega

/-- Witness for C2: "Hello" of `<p>Hello world</p>` wrapped in red. The paragraph then holds
an empty text node, a `SPAN` with class `colored-text` and colour `#FF0000` around "Hello",
and the text " world"; the text of the document is still "Hello world", and the document has
one `SPAN`. -/
theorem C2_wrap_colors_selection_witness :
    Sample.env.cssSupports "color" "#FF0000" = true ∧
      Sample.selHello.isCollapsed = false ∧
      (⟨[0], 0, [0], 5⟩ : Range).validIn Sample.doc = true ∧
      ({ (TextColorTool.new Sample.api (Sample.world Sample.doc none)).1 with
            currentColor := "#FF0000" }.wrap Sample.env
          (Sample.world Sample.doc (some Sample.selHello))).2.page.document.textContent =
        utf16 "Hello world" ∧
      ({ (TextColorTool.new Sample.api (Sample.world Sample.doc none)).1 with
            currentColor := "#FF0000" }.wrap Sample.env
          (Sample.world Sample.doc (some Sample.selHello))).2.page.document.count
          (fun t _ _ => decide (t = "SPAN")) = 1 ∧
      ({ (TextColorTool.new Sample.api (Sample.world Sample.doc none)).1 with
            currentColor := "#FF0000" }.wrap Sample.env
          (Sample.world Sample.doc
            (some Sample.selHello))).2.page.document.descendants.map Node.tagName =
        ["P", "", "SPAN", "", ""] ∧
      (({ (TextColorTool.new Sample.api (Sample.world Sample.doc none)).1 with
            currentColor := "#FF0000" }.wrap Sample.env
          (Sample.world Sample.doc (some Sample.selHello))).2.page.document.nodeAt [1]).map
          (fun (n : Node) => (n.classes, n.inlineStyle, n.textContent)) =
        some (["colored-text"], [("color", "#FF0000")], utf16 "Hello") := by
  refine ⟨by decide, by decide, by decide, ?_, ?_, by decide, by decide⟩
  · obtain ⟨q, k, h⟩ := C2_wrap_colors_selection (fun _ p => (.ok true, p))
      (fun _ v => Sample.isHexColor v)
      { (TextColorTool.new Sample.api (Sample.world Sample.doc none)).1 with
          currentColor := "#FF0000" }
      (Sample.world Sample.doc (some Sample.selHello)) Sample.selHello ⟨[0], 0, [0], 5⟩
      rfl rfl (by decide) rfl (by decide) rfl (by decide) rfl (by decide)
    exact h.2.2.2.2.2.2.1
  · obtain ⟨q, k, h⟩ := C2_wrap_colors_selection (fun _ p => (.ok true, p))
      (fun _ v => Sample.isHexColor v)
      { (TextColorTool.new Sample.api (Sample.world Sample.doc none)).1 with
          currentColor := "#FF0000" }
      (Sample.world Sample.doc (some Sample.selHello)) Sample.selHello ⟨[0], 0, [0], 5⟩
      rfl rfl (by decide) rfl (by decide) rfl (by decide) rfl (by decide)
    exact (h.2.2.2.2.2.2.2 (fun t _ _ => decide (t = "SPAN"))).trans (by decide)

/-- C2, counterexamples to the claim as stated.
* On `<p><!--note-->Hello</p>` with the characters "ot" of the comment selected, the
  selection is not collapsed and its range is extracted, but `insertNode` throws
  `HierarchyRequestError` (the start node is a comment); the exception is caught and logged,
  the extracted characters are gone and the document contains no `SPAN`.
* On `<p>Hello world</p>` with "Hello" selected and the current colour `banana`, which the
  CSS parser does not accept, the span is inserted with its class and the text "Hello", but
  it has no inline colour. -/
theorem C2_wrap_span_missing_or_uncoloured :
    (Sample.selInComment.isCollapsed = false ∧
      (⟨[0], 1, [0], 3⟩ : Range).validIn Sample.docComment = true ∧
      ((TextColorTool.new Sample.api (Sample.world Sample.doc none)).1.wrap Sample.env
          (Sample.world Sample.docComment (some Sample.selInComment))).2.calls =
        [.getSelection, .extractContents, .insertNode] ∧
      ((TextColorTool.new Sample.api (Sample.world Sample.doc none)).1.wrap Sample.env
          (Sample.world Sample.docComment (some Sample.selInComment))).2.console =
        [.error "Error applying text color:" (.domException "HierarchyRequestError")] ∧
      (((TextColorTool.new Sample.api (Sample.world Sample.doc none)).1.wrap Sample.env
          (Sample.world Sample.docComment
            (some Sample.selInComment))).2.page.document.descendants.map Node.tagName) =
        ["P", "", ""]) ∧
    (Sample.env.cssSupports "color" "banana" = false ∧
      Sample.selHello.isCollapsed = false ∧
      (⟨[0], 0, [0], 5⟩ : Range).validIn Sample.doc = true ∧
      (({ (TextColorTool.new Sample.api (Sample.world Sample.doc none)).1 with
            currentColor := "banana" }.wrap Sample.env
          (Sample.world Sample.doc (some Sample.selHello))).2.page.document.nodeAt [1]).map
          (fun (n : Node) => (n.tagName, n.classes, n.inlineStyle, n.textContent)) =
        some ("SPAN", ["colored-text"], [], utf16 "Hello")) := by
  refine ⟨⟨by decide, by decide, ?_, ?_, ?_⟩, ⟨by decide, by decide, by decide, by decide⟩⟩ <;>
    rfl

/-! ## The colour picker -/

/-- C5, at the failing input. A `TextColorTool` is constructed and rendered on a page whose
selection is collapsed, and the swatch of Red (the second one) is clicked. After the click
has been dispatched the current colour is `#FF0000` and the picker is hidden, but the
indicator still shows `#000000`: `wrap` returns at "No text selected" before the lines that
update the indicator. -/
theorem C5_indicator_stale_after_select_without_selection :
    (TextColorTool.clickSwatch Sample.env
        (((TextColorTool.new Sample.api (Sample.world Sample.doc (some Sample.selCaret))).1.render
            (TextColorTool.new Sample.api (Sample.world Sample.doc (some Sample.selCaret))).2).2)
        1).1.currentColor = "#FF0000" ∧
      TextColorTool.indicatorColor
        (TextColorTool.clickSwatch Sample.env
          (((TextColorTool.new Sample.api
              (Sample.world Sample.doc (some Sample.selCaret))).1.render
            (TextColorTool.new Sample.api (Sample.world Sample.doc (some Sample.selCaret))).2).2)
          1).1
        (TextColorTool.clickSwatch Sample.env
          (((TextColorTool.new Sample.api
              (Sample.world Sample.doc (some Sample.selCaret))).1.render
            (TextColorTool.new Sample.api (Sample.world Sample.doc (some Sample.selCaret))).2).2)
          1).2 = some "#000000" ∧
      TextColorTool.pickerDisplay
        (TextColorTool.clickSwatch Sample.env
          (((TextColorTool.new Sample.api
              (Sample.world Sample.doc (some Sample.selCaret))).1.render
            (TextColorTool.new Sample.api (Sample.world Sample.doc (some Sample.selCaret))).2).2)
          1).1
        (TextColorTool.clickSwatch Sample.env
          (((TextColorTool.new Sample.api
              (Sample.world Sample.doc (some Sample.selCaret))).1.render
            (TextColorTool.new Sample.api (Sample.world Sample.doc (some Sample.selCaret))).2).2)
          1).2 = some "none" ∧
      (TextColorTool.clickSwatch Sample.env
        (((TextColorTool.new Sample.api (Sample.world Sample.doc (some Sample.selCaret))).1.render
            (TextColorTool.new Sample.api (Sample.world Sample.doc (some Sample.selCaret))).2).2)
        1).2.console = [.log "No text selected"] := by
  refine ⟨?_, ?_, ?_, ?_⟩ <;> decide

/-! ## The sanitizer configuration -/

/-- C9. The sanitizer configuration of each tool matches what the tool emits: the only key
of `BoldTool.sanitize` is the lower-cased `tag` of a `BoldTool` (`b`), the only key of
`ItalicTool.sanitize` is the lower-cased `tag` of an `ItalicTool` (`i`), and the span that
`TextColorTool.wrap` builds, for any CSS parser, any current colour and any extracted
contents, has the tag name `SPAN`, whose lower-cased form is the only key of
`TextColorTool.sanitize`, and carries exactly the attributes `class` and, when the parser
accepts the colour, `style`, each of them allowed for that key. -/
theorem C9_sanitize_matches_markup (api : Api) (w : World) (css : String → String → Bool)
    (c : String) (frag : List Node) :
    BoldTool.sanitize.map Prod.fst = [toLowerCase (BoldTool.new api w).1.tag] ∧
      ItalicTool.sanitize.map Prod.fst = [toLowerCase (ItalicTool.new api w).1.tag] ∧
      TextColorTool.sanitize.map Prod.fst =
        [toLowerCase
          (({ (TextColorTool.new api w).1 with currentColor := c }).coloredSpan css
            frag).tagName] ∧
      (({ (TextColorTool.new api w).1 with currentColor := c }).coloredSpan css
          frag).attributeNames =
        (if css "color" c then ["class", "style"] else ["class"]) ∧
      ∀ a ∈ (({ (TextColorTool.new api w).1 with currentColor := c }).coloredSpan css
          frag).attributeNames,
        TextColorTool.sanitize.allows
          (toLowerCase
            (({ (TextColorTool.new api w).1 with currentColor := c }).coloredSpan css
              frag).tagName)
          a = true := by
  have hb : toLowerCase "B" = "b" := by decide
  have hi : toLowerCase "I" = "i" := by decide
  have hs : toLowerCase "SPAN" = "span" := by decide
  have hspan : ({ (TextColorTool.new api w).1 with currentColor := c }).coloredSpan css frag =
      .elem "SPAN" ["colored-text"] (if css "color" c then [("color", c)] else []) frag :=
    coloredSpan_shape css _ frag rfl rfl
  rw [hspan]
  have hattr : (Node.elem "SPAN" ["colored-text"]
      (if css "color" c then [("color", c)] else []) frag).attributeNames =
      (if css "color" c then ["class", "style"] else ["class"]) := by
    cases css "color" c <;> simp [Node.attributeNames]
  refine ⟨?_, ?_, ?_, hattr, ?_⟩
  · simp [BoldTool.sanitize, BoldTool.new, World.newFn, hb]
  · simp [ItalicTool.sanitize, ItalicTool.new, World.newFn, hi]
  · simp [TextColorTool.sanitize, Node.tagName, hs]
  · intro a ha
    rw [hattr] at ha
    simp only [Node.tagName, hs]
    cases hc : css "color" c <;> simp [hc] at ha
    · subst ha; decide
    · rcases ha with rfl | rfl <;> decide

/-! ## The element store -/

@[simp] theorem updateAt_length {α : Type} (f : α → α) (i : Nat) (l : List α) :
    (updateAt f i l).length = l.length := by
  induction l generalizing i with
  | nil => cases i <;> rfl
  | cons a l ih =>
    cases i with
    | zero => rfl
    | succ i => simp [updateAt, ih]

theorem getElem?_updateAt {α : Type} (f : α → α) (i j : Nat) (l : List α) :
    (updateAt f i l)[j]? = if i = j then l[j]?.map f else l[j]? := by
  induction l generalizing i j with
  | nil => cases i <;> simp [updateAt]
  | cons a l ih =>
    cases i with
    | zero =>
      cases j with
      | zero => simp [updateAt]
      | succ j => simp [updateAt]
    | succ i =>
      cases j with
      | zero => simp [updateAt]
      | succ j => simp [updateAt, ih]

theorem updateAt_append_right {α : Type} (f : α → α) (k : Nat) (l r : List α) :
    updateAt f (l.length + k) (l ++ r) = l ++ updateAt f k r := by
  induction l with
  | nil => simp
  | cons a l ih =>
    have h : (a :: l).length + k = (l.length + k) + 1 := by simp; omega
    rw [h]
    simp [updateAt, ih]

theorem updateAt_append_left {α : Type} (f : α → α) (i : Nat) (l r : List α)
    (h : i < l.length) : updateAt f i (l ++ r) = updateAt f i l ++ r := by
  induction l generalizing i with
  | nil => simp at h
  | cons a l ih =>
    cases i with
    | zero => simp [updateAt]
    | succ i =>
      simp only [List.length_cons, Nat.add_lt_add_iff_right] at h
      simp [updateAt, ih i h]

/-! ## Listeners on the document -/

theorem addListener_of_not_mem (l : Listener) (ls : List Listener) (h : l ∉ ls) :
    addListener l ls = ls ++ [l] := by
  simp [addListener, h]

theorem addListener_of_mem (l : Listener) (ls : List Listener) (h : l ∈ ls) :
    addListener l ls = ls := by
  simp [addListener, h]

theorem mem_addListener (l : Listener) (ls : List Listener) : l ∈ addListener l ls := by
  by_cases h : l ∈ ls
  · rw [addListener_of_mem l ls h]; exact h
  · rw [addListener_of_not_mem l ls h]; simp

theorem addListener_idem (l : Listener) (ls : List Listener) :
    addListener l (addListener l ls) = addListener l ls :=
  addListener_of_mem l _ (mem_addListener l ls)

theorem removeListener_append_self (l : Listener) (ls : List Listener) (h : l ∉ ls) :
    removeListener l (ls ++ [l]) = ls := by
  simp only [removeListener, List.filter_append]
  have h1 : List.filter (fun x => decide (x ≠ l)) ls = ls := by
    rw [List.filter_eq_self]
    intro a ha
    simp only [ne_eq, decide_not, Bool.not_eq_eq_eq_not, Bool.not_true, decide_eq_false_iff_not]
    intro hx
    exact h (hx ▸ ha)
  rw [h1]
  simp

theorem renderColorOption_documentListeners (self : TextColorTool) (p : Nat) (w : World)
    (color : Color) :
    (self.renderColorOption p w color).documentListeners = w.documentListeners := by
  simp [TextColorTool.renderColorOption, World.createElement, World.classListAdd,
    World.setStyle, World.setTitle, World.setAttribute, World.newFn, World.addEventListener,
    World.appendChild, World.update]

theorem foldl_renderColorOption_documentListeners (self : TextColorTool) (p : Nat)
    (colors : List Color) (w : World) :
    (colors.foldl (self.renderColorOption p) w).documentListeners = w.documentListeners := by
  induction colors generalizing w with
  | nil => rfl
  | cons c cs ih =>
    simp only [List.foldl_cons]
    rw [ih, renderColorOption_documentListeners]

theorem render_documentListeners (self : TextColorTool) (w : World) :
    (self.render w).2.2.documentListeners =
      addListener ⟨"click", self.handleDocumentClickFn, false⟩ w.documentListeners := by
  simp only [TextColorTool.render, World.addDocumentListener, World.addEventListener,
    World.appendChild, World.update, foldl_renderColorOption_documentListeners]
  simp [World.createElement, World.classListAdd, World.setStyle, World.setTitle,
    World.setType, World.setInnerHTML, World.update, World.appendChild]

theorem render_self (self : TextColorTool) (w : World) :
    (self.render w).2.1 =
      { self with button := some w.elems.length, colorPicker := some (w.elems.length + 2) } := by
  simp [TextColorTool.render, World.createElement, World.classListAdd, World.setStyle,
    World.setTitle, World.setType, World.setInnerHTML, World.update, World.appendChild,
    updateAt_length]

theorem renderTimes_succ (n : Nat) (self : TextColorTool) (w : World) :
    ((TextColorTool.renderTimes (n + 1) self w).2.documentListeners =
        addListener ⟨"click", self.handleDocumentClickFn, false⟩ w.documentListeners ∧
      (TextColorTool.renderTimes (n + 1) self w).1.handleDocumentClickFn =
        self.handleDocumentClickFn) ∧
      ∃ b, (TextColorTool.renderTimes (n + 1) self w).1.button = some b := by
  induction n generalizing self w with
  | zero =>
    simp only [TextColorTool.renderTimes]
    rw [render_documentListeners, render_self]
    exact ⟨⟨rfl, rfl⟩, _, rfl⟩
  | succ n ih =>
    have h := ih (self.render w).2.1 (self.render w).2.2
    have hf : (self.render w).2.1.handleDocumentClickFn = self.handleDocumentClickFn := by
      rw [render_self]
    rw [hf, render_documentListeners, addListener_idem] at h
    exact h

/-- C6. On a well-formed world, for an instance made by the constructor, calling `render`
once or more (`n + 1` times) registers exactly one click listener on the document, after the
ones that were there, and `destroy` then returns normally and leaves the document's
listeners exactly as they were before the first `render`. -/
theorem C6_destroy_restores_document_listeners (api : Api) (w : World) (n : Nat)
    (hwf : w.WellFormed) :
    (TextColorTool.renderTimes (n + 1) (TextColorTool.new api w).1
        (TextColorTool.new api w).2).2.documentListeners =
        w.documentListeners ++
          [⟨"click", (TextColorTool.new api w).1.handleDocumentClickFn, false⟩] ∧
      ((TextColorTool.renderTimes (n + 1) (TextColorTool.new api w).1
          (TextColorTool.new api w).2).1.destroy
        (TextColorTool.renderTimes (n + 1) (TextColorTool.new api w).1
          (TextColorTool.new api w).2).2).1 = .ok () ∧
      ((TextColorTool.renderTimes (n + 1) (TextColorTool.new api w).1
          (TextColorTool.new api w).2).1.destroy
        (TextColorTool.renderTimes (n + 1) (TextColorTool.new api w).1
          (TextColorTool.new api w).2).2).2.documentListeners = w.documentListeners := by
  obtain ⟨⟨h1, h2⟩, b, h3⟩ :=
    renderTimes_succ n (TextColorTool.new api w).1 (TextColorTool.new api w).2
  have hnew : (TextColorTool.new api w).2.documentListeners = w.documentListeners := by
    simp [TextColorTool.new, World.newFn]
  have hfn : (TextColorTool.new api w).1.handleDocumentClickFn = w.fns.length + 3 := by
    simp [TextColorTool.new, World.newFn]
  have hnot : (⟨"click", (TextColorTool.new api w).1.handleDocumentClickFn, false⟩ : Listener) ∉
      w.documentListeners := by
    intro hmem
    have := hwf.1 _ hmem
    rw [hfn] at this
    simp at this
  rw [hnew, addListener_of_not_mem _ _ hnot] at h1
  refine ⟨h1, ?_, ?_⟩
  · simp [TextColorTool.destroy, Js.bind_apply, Js.modify, h3]
  · simp only [TextColorTool.destroy, Js.bind_apply, Js.modify, h3,
      World.removeDocumentListener, World.removeEventListener, World.update, h1, h2]
    exact removeListener_append_self _ _ hnot

/-- Witness for C6: the sample page, where another listener is already registered on the
document, and two calls of `render`. -/
theorem C6_destroy_restores_document_listeners_witness :
    World.WellFormed
        { Sample.world Sample.doc none with
            fns := [.foreign], documentListeners := [⟨"click", 0, true⟩] } ∧
      ((TextColorTool.renderTimes 2
          (TextColorTool.new Sample.api
            { Sample.world Sample.doc none with
                fns := [.foreign], documentListeners := [⟨"click", 0, true⟩] }).1
          (TextColorTool.new Sample.api
            { Sample.world Sample.doc none with
                fns := [.foreign], documentListeners := [⟨"click", 0, true⟩] }).2).1.destroy
        (TextColorTool.renderTimes 2
          (TextColorTool.new Sample.api
            { Sample.world Sample.doc none with
                fns := [.foreign], documentListeners := [⟨"click", 0, true⟩] }).1
          (TextColorTool.new Sample.api
            { Sample.world Sample.doc none with
                fns := [.foreign], documentListeners := [⟨"click", 0, true⟩] }).2).2).2.documentListeners
        = [⟨"click", 0, true⟩] :=
  have hwf : World.WellFormed
      { Sample.world Sample.doc none with
          fns := [.foreign], documentListeners := [⟨"click", 0, true⟩] } := by
    constructor
    · intro l hl
      simp [Sample.world] at hl
      subst hl
      decide
    · intro f hf
      simp [Sample.world] at hf
      subst hf
      trivial
  ⟨hwf, (C6_destroy_restores_document_listeners Sample.api _ 1 hwf).2.2⟩

/-! ## Computations that keep the wiring -/

theorem SameWiring.refl (w : World) : World.SameWiring w w := ⟨rfl, rfl, rfl, rfl⟩

theorem SameWiring.trans {a b c : World} (h1 : World.SameWiring a b)
    (h2 : World.SameWiring b c) : World.SameWiring a c :=
  ⟨h2.1.trans h1.1, h2.2.1.trans h1.2.1, h2.2.2.1.trans h1.2.2.1, h2.2.2.2.trans h1.2.2.2⟩

theorem map_shape_updateAt (f : Elem → Elem) (i : Nat) (l : List Elem)
    (hf : ∀ e, (f e).shape = e.shape) :
    (updateAt f i l).map Elem.shape = l.map Elem.shape := by
  induction l generalizing i with
  | nil => cases i <;> rfl
  | cons a l ih =>
    cases i with
    | zero => simp [updateAt, hf]
    | succ i => simp [updateAt, ih]

theorem setStyle_sameWiring (ref : Nat) (prop v : String) (w : World) :
    World.SameWiring w (w.setStyle ref prop v) := by
  refine ⟨?_, rfl, rfl, rfl⟩
  simp only [World.setStyle, World.update]
  exact map_shape_updateAt _ _ _ (fun e => rfl)

theorem steady_bind {α β : Type} (x : Js World α) (f : α → Js World β) (hx : Js.Steady x)
    (hf : ∀ a, Js.Steady (f a)) : Js.Steady (x >>= f) := by
  intro w
  rw [Js.bind_apply]
  have h1 := hx w
  cases hxw : x w with
  | mk r w1 =>
    rw [hxw] at h1
    cases r with
    | ok a => exact SameWiring.trans h1 (hf a w1)
    | thrown e => exact h1

theorem steady_tryCatch {α : Type} (x : Js World α) (h : JsError → Js World α)
    (hx : Js.Steady x) (hh : ∀ e, Js.Steady (h e)) : Js.Steady (Js.tryCatch x h) := by
  intro w
  simp only [Js.tryCatch]
  have h1 := hx w
  cases hxw : x w with
  | mk r w1 =>
    rw [hxw] at h1
    cases r with
    | ok a => exact h1
    | thrown e => exact SameWiring.trans h1 (hh e w1)

theorem steady_native {α : Type} (c : Call) (op : Js Page α) : Js.Steady (World.native c op) :=
  fun _ => ⟨rfl, rfl, rfl, rfl⟩

theorem steady_hostCall {α : Type} (c : Call) (op : Js Host α) :
    Js.Steady (World.hostCall c op) :=
  fun _ => ⟨rfl, rfl, rfl, rfl⟩

theorem steady_getSelection (env : Browser) : Js.Steady (World.getSelection env) :=
  fun _ => ⟨rfl, rfl, rfl, rfl⟩

theorem steady_consoleLog (m : String) : Js.Steady (World.consoleLog m) :=
  fun _ => ⟨rfl, rfl, rfl, rfl⟩

theorem steady_consoleError (m : String) (e : JsError) : Js.Steady (World.consoleError m e) :=
  fun _ => ⟨rfl, rfl, rfl, rfl⟩

theorem steady_throw {α : Type} (e : JsError) : Js.Steady (Js.throw e : Js World α) :=
  fun _ => ⟨rfl, rfl, rfl, rfl⟩

theorem steady_pure {α : Type} (a : α) : Js.Steady (pure a : Js World α) :=
  fun _ => ⟨rfl, rfl, rfl, rfl⟩

theorem steady_get : Js.Steady (Js.get : Js World World) :=
  fun _ => ⟨rfl, rfl, rfl, rfl⟩

theorem steady_const {α : Type} (r : Outcome α) : Js.Steady (fun w : World => (r, w)) :=
  fun _ => ⟨rfl, rfl, rfl, rfl⟩

theorem steady_setStyle (ref : Nat) (prop v : String) :
    Js.Steady (Js.modify (World.setStyle ref prop v)) :=
  fun w => setStyle_sameWiring ref prop v w

/-- The method `wrap` of the colour tool never changes the wiring. -/
theorem wrap_steady (env : Browser) (self : TextColorTool) : Js.Steady (self.wrap env) := by
  unfold TextColorTool.wrap
  apply steady_tryCatch
  · apply steady_bind _ _ (steady_getSelection env)
    intro sel
    cases sel with
    | none => exact steady_consoleLog _
    | some s =>
      simp only
      split
      · exact steady_consoleLog _
      · apply steady_bind _ _ (steady_const _)
        intro range
        apply steady_bind _ _ (steady_native _ _)
        intro x
        apply steady_bind _ _ (steady_native _ _)
        intro range2
        apply steady_bind _ _ (steady_native _ _)
        intro _
        apply steady_bind _ _ (steady_native _ _)
        intro _
        cases self.button with
        | none =>
          apply steady_bind _ _ (steady_throw _)
          intro _
          exact steady_hostCall _ _
        | some button =>
          apply steady_bind _ _ steady_get
          intro w
          split
          · apply steady_bind _ _ (steady_setStyle _ _ _)
            intro _
            exact steady_hostCall _ _
          · apply steady_bind _ _ (steady_pure _)
            intro _
            exact steady_hostCall _ _
  · intro e
    exact steady_consoleError _ e

/-! ## A click on a swatch -/

theorem lookup_of_sameWiring {w w' : World} (h : World.SameWiring w w') (j : Nat) (e : Elem)
    (he : w.elems[j]? = some e) : ∃ e', w'.elems[j]? = some e' ∧ e'.shape = e.shape := by
  have h1 : (w'.elems.map Elem.shape)[j]? = (w.elems.map Elem.shape)[j]? := by rw [h.1]
  simp only [List.getElem?_map, he, Option.map_some'] at h1
  cases hj : w'.elems[j]? with
  | none => simp [hj] at h1
  | some e' =>
    simp only [hj, Option.map_some', Option.some.injEq] at h1
    exact ⟨e', rfl, h1⟩

/-- The rendered state survives every change that keeps the wiring, and a change of the
current colour. -/
theorem Rendered.of_sameWiring {self : TextColorTool} {w w' : World} {e0 f0 : Nat}
    (h : self.Rendered w e0 f0) (hw : World.SameWiring w w') (c : String) :
    TextColorTool.Rendered { self with currentColor := c } w' e0 f0 := by
  obtain ⟨hb, hp, ⟨eb, heb, hpb, hlb⟩, ⟨ep, hep, hpp, hlp, hcp⟩, hsw, hfn, hdoc⟩ := h
  refine ⟨hb, hp, ?_, ?_, ?_, ?_, ?_⟩
  · obtain ⟨e', he', hs'⟩ := lookup_of_sameWiring hw _ _ heb
    simp only [Elem.shape, Prod.mk.injEq] at hs'
    exact ⟨e', he', hs'.1.trans hpb, hs'.2.1.trans hlb⟩
  · obtain ⟨e', he', hs'⟩ := lookup_of_sameWiring hw _ _ hep
    simp only [Elem.shape, Prod.mk.injEq] at hs'
    exact ⟨e', he', hs'.1.trans hpp, hs'.2.1.trans hlp, hs'.2.2.trans hcp⟩
  · intro i hi
    obtain ⟨e, he, hpe, hle⟩ := hsw i hi
    obtain ⟨e', he', hs'⟩ := lookup_of_sameWiring hw _ _ he
    simp only [Elem.shape, Prod.mk.injEq] at hs'
    exact ⟨e', he', hs'.1.trans hpe, hs'.2.1.trans hle⟩
  · intro i hi
    rw [hw.2.1]
    exact hfn i hi
  · intro l hl hcap
    rw [hw.2.2.1] at hl
    rw [hw.2.1]
    exact hdoc l hl hcap

theorem foldl_fixed {α β : Type} (f : β → α → β) (b : β) (l : List α)
    (h : ∀ a ∈ l, f b a = b) : l.foldl f b = b := by
  induction l with
  | nil => rfl
  | cons a l ih =>
    simp only [List.foldl_cons]
    rw [h a (by simp)]
    exact ih (fun x hx => h x (by simp [hx]))

theorem invoke_not_owned (env : Browser) (fn : Nat) (st : TextColorTool.Dispatch)
    (h : match st.world.fns[fn]? with
      | some (.bound owner _) => owner ≠ st.self.ref
      | some (.colorOption owner _) => owner ≠ st.self.ref
      | _ => True) :
    TextColorTool.invoke env fn st = st := by
  unfold TextColorTool.invoke
  cases hf : st.world.fns[fn]? with
  | none => rfl
  | some f =>
    rw [hf] at h
    cases f with
    | bound owner m =>
      simp only at h
      cases m <;> simp [h]
    | colorOption owner c =>
      simp only at h
      simp [h]
    | foreign => rfl

theorem visit_stopped (env : Browser) (phase : Option Bool) (node : Option Nat)
    (st : TextColorTool.Dispatch) (h : st.event.propagationStopped = true) :
    TextColorTool.visit env phase node st = st := by
  simp [TextColorTool.visit, h]

theorem handleColorSelect_spec (env : Browser) (self : TextColorTool) (ev : Event)
    (c : String) (w : World) :
    (self.handleColorSelect env ev c w).2.1 = { self with currentColor := c } ∧
      (self.handleColorSelect env ev c w).2.2.1.propagationStopped = true ∧
      World.SameWiring w (self.handleColorSelect env ev c w).2.2.2 := by
  cases hp : self.colorPicker with
  | none =>
    refine ⟨?_, ?_, ?_⟩
    · simp [TextColorTool.handleColorSelect, TextColorTool.hideColorPicker, hp, Js.throw]
    · simp [TextColorTool.handleColorSelect, TextColorTool.hideColorPicker, hp, Js.throw,
        Event.stopPropagation, Event.preventDefault]
    · simp only [TextColorTool.handleColorSelect, TextColorTool.hideColorPicker, hp, Js.throw]
      exact SameWiring.refl w
  | some p =>
    refine ⟨?_, ?_, ?_⟩
    · simp [TextColorTool.handleColorSelect, TextColorTool.hideColorPicker, hp, Js.modify]
    · simp [TextColorTool.handleColorSelect, TextColorTool.hideColorPicker, hp, Js.modify,
        Event.stopPropagation, Event.preventDefault]
    · simp only [TextColorTool.handleColorSelect, TextColorTool.hideColorPicker, hp, Js.modify]
      exact SameWiring.trans (setStyle_sameWiring p "display" "none" w) (wrap_steady env _ _)

theorem report_sameWiring (r : Outcome Unit) (w : World) :
    World.SameWiring w (TextColorTool.report r w) := by
  cases r <;> exact ⟨rfl, rfl, rfl, rfl⟩

theorem ancestors_swatch {self : TextColorTool} {w : World} {e0 f0 : Nat}
    (h : self.Rendered w e0 f0) (i : Nat) (hi : i < 8) :
    w.ancestors (e0 + 3 + i) = [e0 + 2, e0] := by
  obtain ⟨e, he, hpe, _⟩ := h.elemSwatch i hi
  obtain ⟨ep, hep, hpp, _, _⟩ := h.elemPicker
  obtain ⟨eb, heb, hpb, _⟩ := h.elemButton
  have hlen := lt_length_of_getElem? _ _ _ he
  obtain ⟨n, hn⟩ : ∃ n, w.elems.length = n + 3 := ⟨w.elems.length - 3, by omega⟩
  simp [World.ancestors, hn, World.ancestorsIn, he, hpe, hep, hpp, heb, hpb]

theorem swatches_rendered {self : TextColorTool} {w : World} {e0 f0 : Nat}
    (h : self.Rendered w e0 f0) :
    TextColorTool.swatches self w =
      [e0 + 3, e0 + 4, e0 + 5, e0 + 6, e0 + 7, e0 + 8, e0 + 9, e0 + 10] := by
  obtain ⟨ep, hep, _, _, hcp⟩ := h.elemPicker
  simp [TextColorTool.swatches, h.picker, hep, hcp]

/-- A click on the `i`-th swatch of a rendered instance runs `handleColorSelect` with the
`i`-th palette value and nothing else: the current colour becomes that value and the wiring
is unchanged. -/
theorem dispatchClick_swatch (env : Browser) {self : TextColorTool} {w : World}
    {e0 f0 : Nat} (h : self.Rendered w e0 f0) (i : Nat) (hi : i < 8) (c : Color)
    (hc : TextColorTool.palette[i]? = some c) :
    (TextColorTool.dispatchClick env (e0 + 3 + i) self w).1 =
        { self with currentColor := c.value } ∧
      World.SameWiring w (TextColorTool.dispatchClick env (e0 + 3 + i) self w).2 := by
  obtain ⟨e, he, hpe, hle⟩ := h.elemSwatch i hi
  obtain ⟨ep, hep, hpp, hlp, _⟩ := h.elemPicker
  obtain ⟨eb, heb, hpb, hlb⟩ := h.elemButton
  have hfn := h.fnSwatch i hi
  rw [hc] at hfn
  simp only [Option.map_some'] at hfn
  have hspec := handleColorSelect_spec env self ⟨some (e0 + 3 + i), false, false⟩ c.value w
  -- capture phase on the document
  have hdoc : TextColorTool.visit env (some true) none
      ⟨self, ⟨some (e0 + 3 + i), false, false⟩, w⟩ =
      ⟨self, ⟨some (e0 + 3 + i), false, false⟩, w⟩ := by
    simp only [TextColorTool.visit, TextColorTool.listenersOf]
    simp only [Bool.false_eq_true, if_false]
    apply foldl_fixed
    intro l hl
    by_cases hcap : l.capture = true
    · have := h.documentCapture l hl hcap
      rw [invoke_not_owned env l.callback _ this]
      simp
    · simp [hcap]
  -- capture phase on the button and the picker
  have hbut : TextColorTool.visit env (some true) (some e0)
      ⟨self, ⟨some (e0 + 3 + i), false, false⟩, w⟩ =
      ⟨self, ⟨some (e0 + 3 + i), false, false⟩, w⟩ := by
    simp [TextColorTool.visit, TextColorTool.listenersOf, heb, hlb]
  have hpic : TextColorTool.visit env (some true) (some (e0 + 2))
      ⟨self, ⟨some (e0 + 3 + i), false, false⟩, w⟩ =
      ⟨self, ⟨some (e0 + 3 + i), false, false⟩, w⟩ := by
    simp [TextColorTool.visit, TextColorTool.listenersOf, hep, hlp]
  -- the target
  have htar : TextColorTool.visit env none (some (e0 + 3 + i))
      ⟨self, ⟨some (e0 + 3 + i), false, false⟩, w⟩ =
      ⟨(self.handleColorSelect env ⟨some (e0 + 3 + i), false, false⟩ c.value w).2.1,
        (self.handleColorSelect env ⟨some (e0 + 3 + i), false, false⟩ c.value w).2.2.1,
        TextColorTool.report
          (self.handleColorSelect env ⟨some (e0 + 3 + i), false, false⟩ c.value w).1
          (self.handleColorSelect env ⟨some (e0 + 3 + i), false, false⟩ c.value w).2.2.2⟩ := by
    simp [TextColorTool.visit, TextColorTool.listenersOf, he, hle, TextColorTool.invoke, hfn]
  simp only [TextColorTool.dispatchClick, ancestors_swatch h i hi, List.reverse_cons,
    List.reverse_nil, List.nil_append, List.cons_append, List.foldl_cons, List.foldl_nil,
    hdoc, hbut, hpic, htar]
  rw [visit_stopped env (some false) (some (e0 + 2)) _ hspec.2.1,
    visit_stopped env (some false) (some e0) _ hspec.2.1,
    visit_stopped env (some false) none _ hspec.2.1]
  exact ⟨hspec.1, SameWiring.trans hspec.2.2 (report_sameWiring _ _)⟩

/-- A click on a swatch of a rendered instance: the instance stays rendered and its current
colour is the palette value of the swatch. -/
theorem clickSwatch_rendered (env : Browser) {s : TextColorTool × World} {e0 f0 : Nat}
    (h : s.1.Rendered s.2 e0 f0) (i : Fin 8) :
    (TextColorTool.clickSwatch env s i.val).1.Rendered
        (TextColorTool.clickSwatch env s i.val).2 e0 f0 ∧
      TextColorTool.palette[i.val]?.map Color.value =
        some (TextColorTool.clickSwatch env s i.val).1.currentColor := by
  have hsw : (TextColorTool.swatches s.1 s.2)[i.val]? = some (e0 + 3 + i.val) := by
    rw [swatches_rendered h]
    have := i.isLt
    interval_cases i.val <;> rfl
  obtain ⟨c, hc⟩ : ∃ c, TextColorTool.palette[i.val]? = some c := by
    have := i.isLt
    interval_cases i.val <;> exact ⟨_, rfl⟩
  have hd := dispatchClick_swatch env h i.val i.isLt c hc
  simp only [TextColorTool.clickSwatch, hsw]
  refine ⟨?_, ?_⟩
  · rw [hd.1]
    exact Rendered.of_sameWiring h hd.2 c.value
  · rw [hd.1, hc]
    rfl

/-! ## What `render` builds -/

theorem updateAt_append_length {α : Type} (f : α → α) (l r : List α) :
    updateAt f l.length (l ++ r) = l ++ updateAt f 0 r := by
  have := updateAt_append_right f 0 l r
  simpa using this

theorem updateAt_zero_cons {α : Type} (f : α → α) (a : α) (l : List α) :
    updateAt f 0 (a :: l) = f a :: l := rfl

theorem updateAt_succ_cons {α : Type} (f : α → α) (i : Nat) (a : α) (l : List α) :
    updateAt f (i + 1) (a :: l) = a :: updateAt f i l := rfl

set_option maxHeartbeats 1000000 in
/-- The elements that `render` adds to the store: the button, the indicator, the picker and
one swatch for each of the eight palette colours, wired to each other. -/
theorem render_elems (self : TextColorTool) (w : World)
    (hc : self.colors = TextColorTool.palette) :
    ∃ L : List Elem, (self.render w).2.2.elems = w.elems ++ L ∧ L.length = 11 ∧
      (∃ e, L[0]? = some e ∧ e.parent = none ∧
        e.listeners = [⟨"click", self.showColorPickerFn, false⟩]) ∧
      (∃ e, L[2]? = some e ∧ e.parent = some w.elems.length ∧ e.listeners = [] ∧
        e.children = [.element (w.elems.length + 3), .element (w.elems.length + 4),
          .element (w.elems.length + 5), .element (w.elems.length + 6),
          .element (w.elems.length + 7), .element (w.elems.length + 8),
          .element (w.elems.length + 9), .element (w.elems.length + 10)]) ∧
      (∀ i, i < 8 → ∃ e, L[3 + i]? = some e ∧ e.parent = some (w.elems.length + 2) ∧
        e.listeners = [⟨"click", w.fns.length + i, false⟩] ∧
        getKey "data-color" e.attributes = TextColorTool.palette[i]?.map Color.value) := by
  simp only [TextColorTool.render, hc, TextColorTool.palette, List.foldl_cons, List.foldl_nil,
    TextColorTool.renderColorOption, World.createElement, World.classListAdd, World.setStyle,
    World.setTitle, World.setAttribute, World.newFn, World.addEventListener,
    World.appendChild, World.update, World.setType, World.setInnerHTML,
    World.addDocumentListener, updateAt_length, List.length_append, List.length_cons,
    List.length_nil, List.append_assoc, List.cons_append, List.nil_append,
    updateAt_append_right, updateAt_append_length, updateAt_zero_cons, updateAt_succ_cons,
    Nat.add_assoc, Nat.reduceAdd, Nat.zero_add]
  refine ⟨_, rfl, rfl, ⟨_, rfl, rfl, by simp [addListener]⟩, ⟨_, rfl, rfl, rfl, rfl⟩, ?_⟩
  intro i hi
  interval_cases i
  all_goals exact ⟨_, rfl, rfl, by simp [addListener], by simp [setKey, getKey]⟩

set_option maxHeartbeats 1000000 in
/-- The function objects that `render` adds: one arrow function for each palette colour. -/
theorem render_fns (self : TextColorTool) (w : World)
    (hc : self.colors = TextColorTool.palette) :
    (self.render w).2.2.fns =
      w.fns ++ TextColorTool.palette.map (fun c => Fn.colorOption self.ref c.value) := by
  simp only [TextColorTool.render, hc, TextColorTool.palette, List.foldl_cons, List.foldl_nil,
    TextColorTool.renderColorOption, World.createElement, World.classListAdd, World.setStyle,
    World.setTitle, World.setAttribute, World.newFn, World.addEventListener,
    World.appendChild, World.update, World.setType, World.setInnerHTML,
    World.addDocumentListener, List.append_assoc, List.cons_append, List.nil_append,
    List.map_cons, List.map_nil]

theorem mem_of_mem_addListener (l l0 : Listener) (ls : List Listener)
    (h : l ∈ addListener l0 ls) : l ∈ ls ∨ l = l0 := by
  unfold addListener at h
  split at h
  · exact Or.inl h
  · simpa using h

/-- After `render` the instance is in the rendered state, provided the capturing listeners
that were on the document before do not belong to it. -/
theorem render_rendered (self : TextColorTool) (w : World)
    (hc : self.colors = TextColorTool.palette)
    (hdoc : ∀ l ∈ w.documentListeners, l.capture = true →
      l.callback < w.fns.length ∧
        match w.fns[l.callback]? with
        | some (.bound owner _) => owner ≠ self.ref
        | some (.colorOption owner _) => owner ≠ self.ref
        | _ => True) :
    (self.render w).2.1.Rendered (self.render w).2.2 w.elems.length w.fns.length := by
  obtain ⟨L, hL, hlen, ⟨eb, heb, hpb, hlb⟩, ⟨ep, hep, hpp, hlp, hcp⟩, hs⟩ :=
    render_elems self w hc
  refine ⟨?_, ?_, ?_, ?_, ?_, ?_, ?_⟩
  · rw [render_self]
  · rw [render_self]
  · refine ⟨eb, ?_, hpb, ?_⟩
    · rw [hL, List.getElem?_append_right (Nat.le_refl _)]
      simpa using heb
    · rw [render_self]; exact hlb
  · refine ⟨ep, ?_, hpp, hlp, hcp⟩
    rw [hL, List.getElem?_append_right (by omega)]
    have : w.elems.length + 2 - w.elems.length = 2 := by omega
    rw [this]; exact hep
  · intro i hi
    obtain ⟨e, he, hpe, hle, _⟩ := hs i hi
    refine ⟨e, ?_, hpe, hle⟩
    rw [hL, List.getElem?_append_right (by omega)]
    have : w.elems.length + 3 + i - w.elems.length = 3 + i := by omega
    rw [this]; exact he
  · intro i hi
    rw [render_fns self w hc, List.getElem?_append_right (by omega)]
    have : w.fns.length + i - w.fns.length = i := by omega
    rw [this, List.getElem?_map, render_self]
  · intro l hl hcap
    rw [render_documentListeners] at hl
    rcases mem_of_mem_addListener _ _ _ hl with hl | hl
    · obtain ⟨hlt, hown⟩ := hdoc l hl hcap
      rw [render_fns self w hc, List.getElem?_append_left hlt, render_self]
      exact hown
    · rw [hl] at hcap
      cases hcap

/-- The constructor followed by `render`, on a well-formed world. -/
theorem new_render_rendered (api : Api) (w : World) (hwf : w.WellFormed) :
    ((TextColorTool.new api w).1.render (TextColorTool.new api w).2).2.1.Rendered
      ((TextColorTool.new api w).1.render (TextColorTool.new api w).2).2.2
      w.elems.length (w.fns.length + 4) := by
  have h := render_rendered (TextColorTool.new api w).1 (TextColorTool.new api w).2 rfl (by
    intro l hl hcap
    have hl' : l ∈ w.documentListeners := by
      simpa [TextColorTool.new, World.newFn] using hl
    have hlt := hwf.1 l hl'
    have hfns : (TextColorTool.new api w).2.fns =
        w.fns ++ [.bound w.instances .showColorPicker, .bound w.instances .hideColorPicker,
          .bound w.instances .handleColorSelect, .bound w.instances .handleDocumentClick] := by
      simp [TextColorTool.new, World.newFn]
    have href : (TextColorTool.new api w).1.ref = w.instances := by
      simp [TextColorTool.new, World.newFn]
    rw [hfns, href]
    refine ⟨by simp; omega, ?_⟩
    rw [List.getElem?_append_left hlt, List.getElem?_eq_getElem hlt]
    have hmem : w.fns[l.callback] ∈ w.fns := List.getElem_mem hlt
    have hown := hwf.2 _ hmem
    cases hf : w.fns[l.callback] with
    | bound owner m => rw [hf] at hown; simp only at hown ⊢; omega
    | colorOption owner c => rw [hf] at hown; simp only at hown ⊢; omega
    | foreign => trivial)
  have he : (TextColorTool.new api w).2.elems = w.elems := by
    simp [TextColorTool.new, World.newFn]
  have hf : (TextColorTool.new api w).2.fns.length = w.fns.length + 4 := by
    simp [TextColorTool.new, World.newFn]
  rw [he, hf] at h
  exact h

theorem clicks_rendered (env : Browser) (clicks : List (Fin 8)) (s : TextColorTool × World)
    (e0 f0 : Nat) (h : s.1.Rendered s.2 e0 f0) :
    (clicks.foldl (fun s i => TextColorTool.clickSwatch env s i.val) s).1.Rendered
        (clicks.foldl (fun s i => TextColorTool.clickSwatch env s i.val) s).2 e0 f0 ∧
      (clicks.foldl (fun s i => TextColorTool.clickSwatch env s i.val) s).1.currentColor =
        match clicks.getLast? with
        | none => s.1.currentColor
        | some i => (TextColorTool.palette[i.val]?.map Color.value).getD "" := by
  induction clicks generalizing s with
  | nil => exact ⟨h, rfl⟩
  | cons i rest ih =>
    have h1 := clickSwatch_rendered env h i
    have h2 := ih (TextColorTool.clickSwatch env s i.val) h1.1
    simp only [List.foldl_cons]
    refine ⟨h2.1, ?_⟩
    rw [h2.2]
    cases hr : rest.getLast? with
    | none =>
      have : rest = [] := by simpa using hr
      subst this
      simp [h1.2]
    | some j =>
      have : (i :: rest).getLast? = some j := by
        cases rest with
        | nil => simp at hr
        | cons a l => simpa [List.getLast?_cons_cons] using hr
      rw [this]

/-- C10. For an instance made by the constructor on a well-formed world:
* the palette has exactly 8 entries with pairwise distinct values;
* right after construction the current colour is `#000000`, the value of the first entry;
* `render` creates the swatches of the picker, one per palette entry and in palette order
  (the `data-color` of the `i`-th swatch is the `i`-th palette value);
* after any sequence of clicks on these swatches the current colour is a palette value, and
  it is the palette value of the swatch clicked last. -/
theorem C10_current_color_follows_clicks (api : Api) (env : Browser) (w : World)
    (hwf : w.WellFormed) (clicks : List (Fin 8)) :
    (TextColorTool.new api w).1.colors.length = 8 ∧
      ((TextColorTool.new api w).1.colors.map Color.value).Nodup ∧
      (TextColorTool.new api w).1.currentColor = "#000000" ∧
      (TextColorTool.new api w).1.colors.head?.map Color.value = some "#000000" ∧
      (TextColorTool.swatches
          ((TextColorTool.new api w).1.render (TextColorTool.new api w).2).2.1
          ((TextColorTool.new api w).1.render (TextColorTool.new api w).2).2.2).map
          (fun r => TextColorTool.attributeOf
            ((TextColorTool.new api w).1.render (TextColorTool.new api w).2).2.2 r
            "data-color") =
        (TextColorTool.new api w).1.colors.map (fun c => some c.value) ∧
      (clicks.foldl (fun s i => TextColorTool.clickSwatch env s i.val)
          ((TextColorTool.new api w).1.render (TextColorTool.new api w).2).2).1.currentColor ∈
        (TextColorTool.new api w).1.colors.map Color.value ∧
      ∀ i, clicks.getLast? = some i →
        (TextColorTool.new api w).1.colors[i.val]?.map Color.value =
          some (clicks.foldl (fun s i => TextColorTool.clickSwatch env s i.val)
            ((TextColorTool.new api w).1.render
              (TextColorTool.new api w).2).2).1.currentColor := by
  have hcolors : (TextColorTool.new api w).1.colors = TextColorTool.palette := rfl
  have hcur : (TextColorTool.new api w).1.currentColor = "#000000" := rfl
  have hR := new_render_rendered api w hwf
  have hclicks := clicks_rendered env clicks
    ((TextColorTool.new api w).1.render (TextColorTool.new api w).2).2 _ _ hR
  have hcur' : ((TextColorTool.new api w).1.render
      (TextColorTool.new api w).2).2.1.currentColor = "#000000" := by
    rw [render_self]
    exact hcur
  rw [hcolors]
  refine ⟨rfl, by decide, hcur, rfl, ?_, ?_, ?_⟩
  · rw [swatches_rendered hR]
    obtain ⟨L, hL, _, _, _, hs⟩ :=
      render_elems (TextColorTool.new api w).1 (TextColorTool.new api w).2 hcolors
    have he : (TextColorTool.new api w).2.elems = w.elems := by
      simp [TextColorTool.new, World.newFn]
    rw [he] at hL hs
    have key : ∀ i, i < 8 →
        TextColorTool.attributeOf
          ((TextColorTool.new api w).1.render (TextColorTool.new api w).2).2.2
          (w.elems.length + (3 + i)) "data-color" =
          TextColorTool.palette[i]?.map Color.value := by
      intro i hi
      obtain ⟨e, he, _, _, ha⟩ := hs i hi
      unfold TextColorTool.attributeOf
      rw [hL, List.getElem?_append_right (by omega)]
      have : w.elems.length + (3 + i) - w.elems.length = 3 + i := by omega
      rw [this, he]
      exact ha
    simp only [List.map_cons, List.map_nil]
    rw [key 0 (by omega), key 1 (by omega), key 2 (by omega), key 3 (by omega),
      key 4 (by omega), key 5 (by omega), key 6 (by omega), key 7 (by omega)]
    rfl
  · rw [hclicks.2]
    cases hl : clicks.getLast? with
    | none => simp only [hcur']; decide
    | some i =>
      simp only
      have := i.isLt
      interval_cases i.val <;> decide
  · intro i hi
    rw [hclicks.2, hi]
    simp only
    have := i.isLt
    interval_cases i.val <;> rfl

/-- Witness for C10: the sample page, with the swatches of Blue and then Red clicked. -/
theorem C10_current_color_follows_clicks_witness :
    World.WellFormed (Sample.world Sample.doc (some Sample.selHello)) ∧
      ([3, 1].foldl (fun s (i : Fin 8) => TextColorTool.clickSwatch Sample.env s i.val)
          ((TextColorTool.new Sample.api
              (Sample.world Sample.doc (some Sample.selHello))).1.render
            (TextColorTool.new Sample.api
              (Sample.world Sample.doc (some Sample.selHello))).2).2).1.currentColor ∈
        ["#000000", "#FF0000", "#008000", "#0000FF", "#FFFF00", "#800080", "#FFA500",
          "#808080"] :=
  have hwf : World.WellFormed (Sample.world Sample.doc (some Sample.selHello)) :=
    ⟨fun l hl => by simp [Sample.world] at hl, fun f hf => by simp [Sample.world] at hf⟩
  ⟨hwf, (C10_current_color_follows_clicks Sample.api Sample.env _ hwf [3, 1]).2.2.2.2.2.1⟩

/-! ## A click somewhere in the document -/

theorem getKey_setKey (k v : String) (l : List (String × String)) :
    getKey k (setKey k v l) = some v := by
  induction l with
  | nil => simp [setKey, getKey]
  | cons a l ih =>
    obtain ⟨k', v'⟩ := a
    by_cases h : k' = k
    · simp [setKey, getKey, h]
    · simp [setKey, getKey, h, ih]

theorem getKey_setKey_ne (k k2 v : String) (l : List (String × String)) (h : k2 ≠ k) :
    getKey k2 (setKey k v l) = getKey k2 l := by
  induction l with
  | nil => simp [setKey, getKey, Ne.symm h]
  | cons a l ih =>
    obtain ⟨k', v'⟩ := a
    by_cases h1 : k' = k
    · subst h1
      simp [setKey, getKey, Ne.symm h]
    · by_cases h2 : k' = k2
      · subst h2
        simp [setKey, getKey, h1]
      · simp [setKey, getKey, h1, h2, ih]

/-- C11. For an instance whose button and picker exist (as after `render`) and every click
event, `handleDocumentClick` returns normally and
* when the target is contained in neither the picker nor the button, the only change of the
  world is the assignment `colorPicker.style.display = 'none'`, after which the picker's
  display is `none`;
* when the target is contained in the picker or in the button, the world is left exactly as
  it was, so the picker's visibility is what it was;
* in both cases the page (document content and selection), the host, the console and the
  trace are unchanged, and the listener as `render` registers it leaves the instance, hence
  its current colour, unchanged. -/
theorem C11_handleDocumentClick_hides_outside (env : Browser) (self : TextColorTool)
    (w : World) (event : Event) (p b : Nat) (e : Elem)
    (hp : self.colorPicker = some p) (hb : self.button = some b)
    (he : w.elems[p]? = some e) :
    (self.handleDocumentClick event w).1 = .ok () ∧
      ((w.contains p event.target || w.contains b event.target) = false →
        (self.handleDocumentClick event w).2 = w.setStyle p "display" "none" ∧
          self.pickerDisplay (self.handleDocumentClick event w).2 = some "none") ∧
      ((w.contains p event.target || w.contains b event.target) = true →
        (self.handleDocumentClick event w).2 = w) ∧
      ((self.handleDocumentClick event w).2.page = w.page ∧
        (self.handleDocumentClick event w).2.host = w.host ∧
        (self.handleDocumentClick event w).2.console = w.console ∧
        (self.handleDocumentClick event w).2.calls = w.calls) ∧
      ∀ fn, w.fns[fn]? = some (.bound self.ref .handleDocumentClick) →
        TextColorTool.invoke env fn ⟨self, event, w⟩ =
          ⟨self, event, (self.handleDocumentClick event w).2⟩ := by
  have hdisp : self.pickerDisplay (w.setStyle p "display" "none") = some "none" := by
    simp [TextColorTool.pickerDisplay, TextColorTool.styleOf, hp, World.setStyle, World.update,
      getElem?_updateAt, he, getKey_setKey]
  by_cases h1 : w.contains p event.target = true
  · have hres : self.handleDocumentClick event w = (.ok (), w) := by
      simp [TextColorTool.handleDocumentClick, hp, h1]
    rw [hres]
    refine ⟨rfl, ?_, fun _ => rfl, ⟨rfl, rfl, rfl, rfl⟩, ?_⟩
    · intro h; simp [h1] at h
    · intro fn hfn
      simp [TextColorTool.invoke, hfn, hres, TextColorTool.report]
  · by_cases h2 : w.contains b event.target = true
    · have hres : self.handleDocumentClick event w = (.ok (), w) := by
        simp [TextColorTool.handleDocumentClick, hp, hb, h1, h2]
      rw [hres]
      refine ⟨rfl, ?_, fun _ => rfl, ⟨rfl, rfl, rfl, rfl⟩, ?_⟩
      · intro h; simp [h2] at h
      · intro fn hfn
        simp [TextColorTool.invoke, hfn, hres, TextColorTool.report]
    · have hres : self.handleDocumentClick event w =
          (.ok (), w.setStyle p "display" "none") := by
        simp [TextColorTool.handleDocumentClick, TextColorTool.hideColorPicker, hp, hb, h1, h2,
          Js.modify]
      rw [hres]
      refine ⟨rfl, fun _ => ⟨rfl, hdisp⟩, ?_, ⟨rfl, rfl, rfl, rfl⟩, ?_⟩
      · intro h; simp [h1, h2] at h
      · intro fn hfn
        simp [TextColorTool.invoke, hfn, hres, TextColorTool.report]

/-- Witness for C11: on the rendered sample page a click outside every stored element hides
the picker, and a click on the button leaves the world as it was. -/
theorem C11_handleDocumentClick_hides_outside_witness :
    Sample.rendered.1.colorPicker = some 2 ∧ Sample.rendered.1.button = some 0 ∧
      (Sample.rendered.1.handleDocumentClick ⟨none, false, false⟩ Sample.rendered.2).1 =
        .ok () ∧
      Sample.rendered.1.pickerDisplay
        (Sample.rendered.1.handleDocumentClick ⟨none, false, false⟩ Sample.rendered.2).2 =
        some "none" ∧
      (Sample.rendered.1.handleDocumentClick ⟨some 0, false, false⟩ Sample.rendered.2).2 =
        Sample.rendered.2 := by
  have hp : Sample.rendered.1.colorPicker = some 2 := by decide
  have hb : Sample.rendered.1.button = some 0 := by decide
  obtain ⟨e, he⟩ : ∃ e, Sample.rendered.2.elems[2]? = some e := ⟨_, rfl⟩
  have h1 := C11_handleDocumentClick_hides_outside Sample.env Sample.rendered.1
    Sample.rendered.2 ⟨none, false, false⟩ 2 0 e hp hb he
  have h2 := C11_handleDocumentClick_hides_outside Sample.env Sample.rendered.1
    Sample.rendered.2 ⟨some 0, false, false⟩ 2 0 e hp hb he
  exact ⟨hp, hb, h1.1, (h1.2.1 (by decide)).2, h2.2.2.1 (by decide)⟩

/-! ## The patch module: style element, document listener and observer -/

theorem withId_append (id : String) (a b : List DocElement) :
    withId id (a ++ b) = withId id a ++ withId id b := by
  simp [withId]

theorem withId_of_findId_none (id : String) (l : List DocElement) (h : findId id l = none) :
    withId id l = [] := by
  induction l with
  | nil => rfl
  | cons e l ih =>
    by_cases he : e.id = id
    · simp [findId, he] at h
    · simp only [findId, he, if_false, Option.map_eq_none'] at h
      simp [withId, he]
      intro a ha
      have := ih h
      simp only [withId, List.filter_eq_nil_iff, decide_eq_true_eq] at this
      exact this a ha

theorem withId_eraseIdx_findId (id : String) (l : List DocElement) (i : Nat)
    (h : findId id l = some i) :
    withId id l ≠ [] ∧ withId id (l.eraseIdx i) = (withId id l).tail := by
  induction l generalizing i with
  | nil => simp [findId] at h
  | cons e l ih =>
    by_cases he : e.id = id
    · simp only [findId, he, if_true, Option.some.injEq] at h
      subst h
      simp [withId, he]
    · simp only [findId, he, if_false, Option.map_eq_some'] at h
      obtain ⟨j, hj, rfl⟩ := h
      have := ih j hj
      simp only [withId, List.eraseIdx_cons_succ, he, decide_False, Bool.false_eq_true,
        not_false_eq_true, List.filter_cons_of_neg] at this ⊢
      exact this

theorem setupMutationObserver_frame (s : FixWorld) :
    (setupMutationObserver s).head = s.head ∧ (setupMutationObserver s).body = s.body ∧
      (setupMutationObserver s).inDocument = s.inDocument ∧
      (setupMutationObserver s).handleToolbarClick = s.handleToolbarClick ∧
      (setupMutationObserver s).world.documentListeners = s.world.documentListeners ∧
      (setupMutationObserver s).world.elems = s.world.elems := by
  unfold setupMutationObserver
  cases s.editorJSFixObserver <;>
    simp [FixWorld.observe, FixWorld.disconnect, World.newFn]

/-- After `fixInlineToolbar`, starting with at most one element with the style's `id`, the
only element with that `id` is the new style element. -/
theorem fixInlineToolbar_style (s : FixWorld)
    (h : (withId fixStyleId (s.head ++ s.body)).length ≤ 1) :
    withId fixStyleId ((fixInlineToolbar s).head ++ (fixInlineToolbar s).body) =
      [⟨"STYLE", fixStyleId, fixStyleText⟩] := by
  have hu : upperCase "style" = "STYLE" := by decide
  rw [withId_append] at h ⊢
  simp only [List.length_append] at h
  simp only [fixInlineToolbar, (setupMutationObserver_frame _).1,
    (setupMutationObserver_frame _).2.1, FixWorld.addDocumentListener,
    FixWorld.removeDocumentListener, FixWorld.consoleLog, FixWorld.getElementById, hu]
  cases hh : findId fixStyleId s.head with
  | some i =>
    obtain ⟨hne, hera⟩ := withId_eraseIdx_findId _ _ _ hh
    have hlen : 1 ≤ (withId fixStyleId s.head).length := by
      cases hw : withId fixStyleId s.head with
      | nil => exact absurd hw hne
      | cons a l => simp
    have hb : withId fixStyleId s.body = [] := by
      apply List.eq_nil_of_length_eq_zero; omega
    have ht : (withId fixStyleId s.head).tail = [] := by
      apply List.eq_nil_of_length_eq_zero
      simp only [List.length_tail]; omega
    simp only [FixWorld.remove, withId_append, hera, ht, hb, List.nil_append,
      List.append_nil]
    simp [withId]
  | none =>
    have hhead := withId_of_findId_none _ _ hh
    cases hb : findId fixStyleId s.body with
    | some j =>
      obtain ⟨hne, hera⟩ := withId_eraseIdx_findId _ _ _ hb
      have ht : (withId fixStyleId s.body).tail = [] := by
        apply List.eq_nil_of_length_eq_zero
        simp only [List.length_tail]; omega
      simp only [FixWorld.remove, withId_append, hera, ht, hhead, List.nil_append,
        List.append_nil, Option.map_some']
      simp [withId]
    | none =>
      have hbody := withId_of_findId_none _ _ hb
      simp only [withId_append, hhead, hbody, List.nil_append, List.append_nil,
        Option.map_none']
      simp [withId]

theorem not_mem_removeListener (l : Listener) (ls : List Listener) :
    l ∉ removeListener l ls := by
  simp [removeListener]

/-- After `fixInlineToolbar` the capturing click listener `handleToolbarClick` is
registered on the document exactly once. -/
theorem fixInlineToolbar_listener (s : FixWorld) :
    (fixInlineToolbar s).world.documentListeners.count
        ⟨"click", s.handleToolbarClick, true⟩ = 1 ∧
      (fixInlineToolbar s).handleToolbarClick = s.handleToolbarClick := by
  have hnot := not_mem_removeListener ⟨"click", s.handleToolbarClick, true⟩
    s.world.documentListeners
  simp only [fixInlineToolbar, (setupMutationObserver_frame _).2.2.2.1,
    (setupMutationObserver_frame _).2.2.2.2.1, FixWorld.addDocumentListener,
    FixWorld.removeDocumentListener, FixWorld.consoleLog]
  refine ⟨?_, ?_⟩
  · split
    · rename_i r _
      cases r <;>
        simp [FixWorld.remove, addListener_of_not_mem _ _ hnot, List.count_append,
          List.count_eq_zero.2 hnot]
    · simp [addListener_of_not_mem _ _ hnot, List.count_append, List.count_eq_zero.2 hnot]
  · split
    · rename_i r _
      cases r <;> rfl
    · rfl

theorem getElem?_updateAt_append_self {α : Type} (f : α → α) (l : List α) (x : α) (n : Nat)
    (hn : l.length = n) : (updateAt f l.length (l ++ [x]))[n]? = some (f x) := by
  subst hn
  rw [updateAt_append_length]
  simp [updateAt]

theorem setupMutationObserver_observers (s : FixWorld) :
    (setupMutationObserver s).observers.length = s.observers.length + 1 ∧
      (setupMutationObserver s).editorJSFixObserver = some s.observers.length ∧
      (∃ o, (setupMutationObserver s).observers[s.observers.length]? = some o ∧
        o.connected = true) ∧
      ∀ i, i < s.observers.length →
        (setupMutationObserver s).observers[i]? =
          if s.editorJSFixObserver = some i then
            s.observers[i]?.map (fun x => { x with connected := false })
          else s.observers[i]? := by
  unfold setupMutationObserver
  cases hp : s.editorJSFixObserver with
  | none =>
    refine ⟨by simp [FixWorld.observe], by simp [FixWorld.observe], ?_, ?_⟩
    · exact ⟨_, getElem?_updateAt_append_self _ _ _ _ rfl, rfl⟩
    · intro i hi
      have hne : ¬ s.observers.length = i := by omega
      simp [FixWorld.observe, getElem?_updateAt, hne, List.getElem?_append_left hi]
  | some o =>
    refine ⟨by simp [FixWorld.observe, FixWorld.disconnect],
      by simp [FixWorld.observe, FixWorld.disconnect], ?_, ?_⟩
    · have h := getElem?_updateAt_append_self
        (fun x : Observer => { x with connected := true })
        (updateAt (fun x : Observer => { x with connected := false }) o s.observers)
        ⟨((s.disconnect o).world.newFn .foreign).1, false⟩ s.observers.length
        (updateAt_length _ _ _)
      exact ⟨_, h, rfl⟩
    · intro i hi
      have hne : ¬ s.observers.length = i := by omega
      have hi' : i < (updateAt (fun x : Observer => { x with connected := false }) o
          s.observers).length := by simpa using hi
      simp only [FixWorld.observe, FixWorld.disconnect, getElem?_updateAt, updateAt_length,
        hne, if_false, List.getElem?_append_left hi', Option.some.injEq]

/-- One call of `setupMutationObserver` from any state: the observer it creates is the only
connected one among those created from now on. -/
theorem setupMutationObserver_first (s : FixWorld) :
    (setupMutationObserver s).LastObserverOnly s.observers.length := by
  obtain ⟨hlen, hptr, ⟨o, ho, hc⟩, _⟩ := setupMutationObserver_observers s
  refine ⟨by omega, by rw [hptr, hlen]; rfl, ?_⟩
  intro i x hi hx
  rw [hlen]
  by_cases he : i = s.observers.length
  · subst he
    rw [ho] at hx
    cases hx
    simp [hc]
  · have hlt := lt_length_of_getElem? _ _ _ hx
    omega

/-- A further call of `setupMutationObserver` disconnects the observer of the call before
and connects its own. -/
theorem setupMutationObserver_next (s : FixWorld) (base : Nat)
    (h : s.LastObserverOnly base) : (setupMutationObserver s).LastObserverOnly base := by
  obtain ⟨hbase, hp, hall⟩ := h
  obtain ⟨hlen, hptr, ⟨o, ho, hc⟩, hold⟩ := setupMutationObserver_observers s
  refine ⟨by omega, by rw [hptr, hlen]; rfl, ?_⟩
  intro i x hi hx
  rw [hlen]
  by_cases he : i = s.observers.length
  · subst he
    rw [ho] at hx
    cases hx
    simp [hc]
  · have hlt := lt_length_of_getElem? _ _ _ hx
    have hi' : i < s.observers.length := by omega
    rw [hold i hi', hp] at hx
    by_cases hlast : i = s.observers.length - 1
    · have : some (s.observers.length - 1) = some i := by rw [hlast]
      rw [if_pos this] at hx
      cases hy : s.observers[i]? with
      | none => simp [hy] at hx
      | some y =>
        simp only [hy, Option.map_some', Option.some.injEq] at hx
        subst hx
        simp
        omega
    · have : ¬ some (s.observers.length - 1) = some i := by
        intro hh; cases hh; exact hlast rfl
      rw [if_neg this] at hx
      have := hall i x hi hx
      constructor
      · intro hcx
        have := this.1 hcx
        omega
      · intro hcx
        omega

theorem fixInlineToolbar_observers (s : FixWorld) :
    (fixInlineToolbar s).observers.length = s.observers.length + 1 ∧
      (fixInlineToolbar s).LastObserverOnly s.observers.length ∧
      ∀ base, s.LastObserverOnly base → (fixInlineToolbar s).LastObserverOnly base := by
  have key : ∀ t : FixWorld, t.observers = s.observers →
      t.editorJSFixObserver = s.editorJSFixObserver →
      (setupMutationObserver t).observers.length = s.observers.length + 1 ∧
      (setupMutationObserver t).LastObserverOnly s.observers.length ∧
      ∀ base, s.LastObserverOnly base → (setupMutationObserver t).LastObserverOnly base := by
    intro t ho hp
    refine ⟨?_, ?_, ?_⟩
    · rw [(setupMutationObserver_observers t).1, ho]
    · rw [← ho]; exact setupMutationObserver_first t
    · intro base hb
      apply setupMutationObserver_next
      unfold FixWorld.LastObserverOnly at hb ⊢
      rw [ho, hp]
      exact hb
  unfold fixInlineToolbar
  apply key
  · simp only [FixWorld.addDocumentListener, FixWorld.removeDocumentListener,
      FixWorld.consoleLog]
    split
    · rename_i r _
      cases r <;> rfl
    · rfl
  · simp only [FixWorld.addDocumentListener, FixWorld.removeDocumentListener,
      FixWorld.consoleLog]
    split
    · rename_i r _
      cases r <;> rfl
    · rfl

/-! ## The patch module: handlers on the toolbar buttons -/

theorem FixWorld.SameTools.same (s : FixWorld) : s.SameTools s :=
  ⟨rfl, rfl, fun _ e he => ⟨e, he, rfl, rfl, fun _ h => h⟩⟩

theorem FixWorld.SameTools.andThen {a b c : FixWorld} (h1 : a.SameTools b) (h2 : b.SameTools c) :
    a.SameTools c := by
  refine ⟨h2.1.trans h1.1, h2.2.1.trans h1.2.1, ?_⟩
  intro r e he
  obtain ⟨e1, he1, hc1, ht1, hm1⟩ := h1.2.2 r e he
  obtain ⟨e2, he2, hc2, ht2, hm2⟩ := h2.2.2 r e1 he1
  exact ⟨e2, he2, hc2.trans hc1, ht2.trans ht1, fun n hn => hm2 n (hm1 n hn)⟩

theorem FixWorld.SameTools.isTool {s t : FixWorld} (h : s.SameTools t) (values : List String)
    (r : Nat) : t.isTool values r = s.isTool values r := by
  unfold FixWorld.isTool
  cases he : s.world.elems[r]? with
  | none =>
    have hlen : s.world.elems.length ≤ r := by
      rcases Nat.lt_or_ge r s.world.elems.length with h1 | h1
      · rw [List.getElem?_eq_getElem h1] at he; cases he
      · exact h1
    rw [List.getElem?_eq_none (by rw [h.2.1]; exact hlen)]
  | some e =>
    obtain ⟨e', he', hc, ht, _⟩ := h.2.2 r e he
    simp only [he', hc, ht]

theorem FixWorld.SameTools.query {s t : FixWorld} (h : s.SameTools t) (values : List String) :
    t.querySelectorAllTools values = s.querySelectorAllTools values := by
  unfold FixWorld.querySelectorAllTools
  rw [h.1]
  apply List.filter_congr
  intro r _
  exact h.isTool values r

theorem FixWorld.SameTools.hasAttribute {s t : FixWorld} (h : s.SameTools t) (r : Nat)
    (name : String) (hs : s.hasAttribute r name = true) : t.hasAttribute r name = true := by
  unfold FixWorld.hasAttribute at hs ⊢
  cases he : s.world.elems[r]? with
  | none => simp [he] at hs
  | some e =>
    obtain ⟨e', he', _, _, hm⟩ := h.2.2 r e he
    simp only [he] at hs
    simp only [he']
    exact hm name hs

theorem getKey_setKey_isSome (k v name : String) (l : List (String × String))
    (h : (getKey name l).isSome = true) : (getKey name (setKey k v l)).isSome = true := by
  by_cases hk : name = k
  · subst hk
    rw [getKey_setKey]; rfl
  · rw [getKey_setKey_ne k name v l hk]; exact h

/-- A change of one stored element that keeps its classes and `data-tool` and loses no
attribute keeps the tools. -/
theorem sameTools_update (s : FixWorld) (w : World) (b : Nat) (f : Elem → Elem)
    (hw : w.elems = updateAt f b s.world.elems)
    (hc : ∀ e, (f e).classList = e.classList)
    (ht : ∀ e, getKey "data-tool" (f e).attributes = getKey "data-tool" e.attributes)
    (hm : ∀ e name, (getKey name e.attributes).isSome = true →
      (getKey name (f e).attributes).isSome = true) :
    s.SameTools { s with world := w } := by
  refine ⟨rfl, by simp [hw], ?_⟩
  intro r e he
  simp only [hw, getElem?_updateAt]
  by_cases hb : b = r
  · subst hb
    simp only [if_true, he, Option.map_some']
    exact ⟨f e, rfl, hc e, ht e, hm e⟩
  · simp only [hb, if_false]
    exact ⟨e, he, rfl, rfl, fun _ h => h⟩

theorem addCapturingListener_sameTools (s : FixWorld) (b : Nat) (type : String) :
    s.SameTools (s.addCapturingListener b type) := by
  unfold FixWorld.addCapturingListener
  exact sameTools_update s _ b
    (fun e => { e with listeners := addListener ⟨type, s.world.fns.length, true⟩ e.listeners })
    (by simp [World.update, World.newFn]) (fun _ => rfl) (fun _ => rfl) (fun _ _ h => h)

theorem setAttribute_sameTools (s : FixWorld) (b : Nat) (name v : String)
    (hname : "data-tool" ≠ name) :
    s.SameTools { s with world := s.world.setAttribute b name v } := by
  apply sameTools_update s _ b (fun e => { e with attributes := setKey name v e.attributes })
  · simp [World.setAttribute, World.update]
  · intro e; rfl
  · intro e
    exact getKey_setKey_ne name "data-tool" v e.attributes hname
  · intro e n h
    exact getKey_setKey_isSome name v n e.attributes h

theorem fixFormatButton_sameTools (s : FixWorld) (b : Nat) :
    s.SameTools (fixFormatButton s b) := by
  unfold fixFormatButton
  split
  · exact FixWorld.SameTools.same s
  · exact ((setAttribute_sameTools s b "data-format-fixed" "true" (by decide)).andThen
      (addCapturingListener_sameTools _ b "mousedown")).andThen
      (addCapturingListener_sameTools _ b "click")

theorem fixColorButton_sameTools (s : FixWorld) (b : Nat) :
    s.SameTools (fixColorButton s b) := by
  unfold fixColorButton
  split
  · exact FixWorld.SameTools.same s
  · exact (setAttribute_sameTools s b "data-color-fixed" "true" (by decide)).andThen
      (addCapturingListener_sameTools _ b "click")

theorem hasAttribute_setAttribute (s : FixWorld) (b : Nat) (name v : String) (e : Elem)
    (he : s.world.elems[b]? = some e) :
    FixWorld.hasAttribute { s with world := s.world.setAttribute b name v } b name = true := by
  simp [FixWorld.hasAttribute, World.setAttribute, World.update, getElem?_updateAt, he,
    getKey_setKey]

theorem fixFormatButton_marks (s : FixWorld) (b : Nat) (e : Elem)
    (he : s.world.elems[b]? = some e) :
    (fixFormatButton s b).hasAttribute b "data-format-fixed" = true := by
  unfold fixFormatButton
  split
  · assumption
  · exact ((addCapturingListener_sameTools _ b "mousedown").andThen
      (addCapturingListener_sameTools _ b "click")).hasAttribute b _
      (hasAttribute_setAttribute s b _ _ e he)

theorem fixColorButton_marks (s : FixWorld) (b : Nat) (e : Elem)
    (he : s.world.elems[b]? = some e) :
    (fixColorButton s b).hasAttribute b "data-color-fixed" = true := by
  unfold fixColorButton
  split
  · assumption
  · exact (addCapturingListener_sameTools _ b "click").hasAttribute b _
      (hasAttribute_setAttribute s b _ _ e he)

/-- Running a guarded step over a list of buttons keeps the tools and leaves every button of
the list that exists marked. -/
theorem foldl_step_marks (step : FixWorld → Nat → FixWorld) (m : String)
    (hsame : ∀ (s : FixWorld) (b : Nat), s.SameTools (step s b))
    (hmark : ∀ (s : FixWorld) (b : Nat) (e : Elem), s.world.elems[b]? = some e →
      (step s b).hasAttribute b m = true)
    (bs : List Nat) (s : FixWorld) :
    s.SameTools (bs.foldl step s) ∧
      ∀ b ∈ bs, (∃ e, s.world.elems[b]? = some e) →
        (bs.foldl step s).hasAttribute b m = true := by
  induction bs generalizing s with
  | nil => exact ⟨FixWorld.SameTools.same s, fun b hb => by simp at hb⟩
  | cons a l ih =>
    obtain ⟨h1, h2⟩ := ih (step s a)
    simp only [List.foldl_cons]
    refine ⟨(hsame s a).andThen h1, ?_⟩
    intro b hb ⟨e, he⟩
    rcases List.mem_cons.1 hb with rfl | hb
    · exact h1.hasAttribute _ _ (hmark s _ e he)
    · obtain ⟨e', he', _⟩ := (hsame s a).2.2 b e he
      exact h2 b hb ⟨e', he'⟩

theorem exists_of_isTool (s : FixWorld) (values : List String) (b : Nat)
    (h : s.isTool values b = true) : ∃ e, s.world.elems[b]? = some e := by
  unfold FixWorld.isTool at h
  cases he : s.world.elems[b]? with
  | none => simp [he] at h
  | some e => exact ⟨e, rfl⟩

theorem exists_of_mem_query (s : FixWorld) (values : List String) (b : Nat)
    (h : b ∈ s.querySelectorAllTools values) : ∃ e, s.world.elems[b]? = some e := by
  unfold FixWorld.querySelectorAllTools at h
  exact exists_of_isTool s values b (List.mem_filter.1 h).2

theorem fixBoldItalicButtons_spec (s : FixWorld) :
    s.SameTools (fixBoldItalicButtons s) ∧
      ∀ b ∈ (fixBoldItalicButtons s).querySelectorAllTools ["bold", "italic", "Bold", "Italic"],
        (fixBoldItalicButtons s).hasAttribute b "data-format-fixed" = true := by
  obtain ⟨h1, h2⟩ := foldl_step_marks fixFormatButton "data-format-fixed"
    fixFormatButton_sameTools fixFormatButton_marks
    (s.querySelectorAllTools ["bold", "italic", "Bold", "Italic"]) s
  refine ⟨h1, ?_⟩
  intro b hb
  have hq : (fixBoldItalicButtons s).querySelectorAllTools ["bold", "italic", "Bold", "Italic"] =
      s.querySelectorAllTools ["bold", "italic", "Bold", "Italic"] := h1.query _
  rw [hq] at hb
  exact h2 b hb (exists_of_mem_query s _ b hb)

theorem fixColorPicker_spec (s : FixWorld) :
    s.SameTools (fixColorPicker s) ∧
      ∀ b ∈ (fixColorPicker s).querySelectorAllTools ["Color", "Marker", "TextColor"],
        (fixColorPicker s).hasAttribute b "data-color-fixed" = true := by
  obtain ⟨h1, h2⟩ := foldl_step_marks fixColorButton "data-color-fixed"
    fixColorButton_sameTools fixColorButton_marks
    (s.querySelectorAllTools ["Color", "Marker", "TextColor"]) s
  refine ⟨h1, ?_⟩
  intro b hb
  have hq : (fixColorPicker s).querySelectorAllTools ["Color", "Marker", "TextColor"] =
      s.querySelectorAllTools ["Color", "Marker", "TextColor"] := h1.query _
  rw [hq] at hb
  exact h2 b hb (exists_of_mem_query s _ b hb)

/-- When every selected button carries the marker, `fixBoldItalicButtons` changes
nothing. -/
theorem fixBoldItalicButtons_of_fixed (s : FixWorld)
    (h : ∀ b ∈ s.querySelectorAllTools ["bold", "italic", "Bold", "Italic"],
      s.hasAttribute b "data-format-fixed" = true) : fixBoldItalicButtons s = s := by
  unfold fixBoldItalicButtons
  apply foldl_fixed
  intro b hb
  simp [fixFormatButton, h b hb]

/-- When every selected button carries the marker, `fixColorPicker` changes nothing. -/
theorem fixColorPicker_of_fixed (s : FixWorld)
    (h : ∀ b ∈ s.querySelectorAllTools ["Color", "Marker", "TextColor"],
      s.hasAttribute b "data-color-fixed" = true) : fixColorPicker s = s := by
  unfold fixColorPicker
  apply foldl_fixed
  intro b hb
  simp [fixColorButton, h b hb]

theorem addListener_length_le (l : Listener) (ls : List Listener) :
    (addListener l ls).length ≤ ls.length + 1 := by
  unfold addListener
  split <;> simp

theorem setAttribute_listenersAt (s : FixWorld) (b r : Nat) (name v : String) :
    FixWorld.listenersAt { s with world := s.world.setAttribute b name v } r =
      s.listenersAt r := by
  simp only [FixWorld.listenersAt, World.setAttribute, World.update, getElem?_updateAt]
  by_cases hb : b = r
  · subst hb
    cases s.world.elems[b]? <;> simp
  · simp [hb]

theorem setAttribute_hasAttribute_ne (s : FixWorld) (b r : Nat) (name v m : String)
    (hr : r ≠ b) :
    FixWorld.hasAttribute { s with world := s.world.setAttribute b name v } r m =
      s.hasAttribute r m := by
  have hb : ¬ b = r := fun h => hr h.symm
  simp [FixWorld.hasAttribute, World.setAttribute, World.update, getElem?_updateAt, hb]

theorem addCapturingListener_hasAttribute (s : FixWorld) (b r : Nat) (type m : String) :
    (s.addCapturingListener b type).hasAttribute r m = s.hasAttribute r m := by
  simp only [FixWorld.hasAttribute, FixWorld.addCapturingListener, World.update,
    World.newFn, getElem?_updateAt]
  by_cases hb : b = r
  · subst hb
    cases s.world.elems[b]? <;> simp
  · simp [hb]

theorem addCapturingListener_listenersAt_ne (s : FixWorld) (b r : Nat) (type : String)
    (hr : r ≠ b) : (s.addCapturingListener b type).listenersAt r = s.listenersAt r := by
  have hb : ¬ b = r := fun h => hr h.symm
  simp [FixWorld.listenersAt, FixWorld.addCapturingListener, World.update, World.newFn,
    getElem?_updateAt, hb]

theorem addCapturingListener_listenersAt_le (s : FixWorld) (b : Nat) (type : String) :
    ((s.addCapturingListener b type).listenersAt b).length ≤
      (s.listenersAt b).length + 1 := by
  simp only [FixWorld.listenersAt, FixWorld.addCapturingListener, World.update,
    World.newFn, getElem?_updateAt, if_true]
  cases s.world.elems[b]? with
  | none => simp
  | some e => simpa using addListener_length_le _ _

/-- A step on a stored element that does not exist leaves no listeners there. -/
theorem listenersAt_of_sameTools_none {s t : FixWorld} (h : s.SameTools t) (b : Nat)
    (hb : s.world.elems[b]? = none) : t.listenersAt b = s.listenersAt b := by
  have hlen : s.world.elems.length ≤ b := by
    rcases Nat.lt_or_ge b s.world.elems.length with h1 | h1
    · rw [List.getElem?_eq_getElem h1] at hb; cases hb
    · exact h1
  have ht : t.world.elems[b]? = none := List.getElem?_eq_none (by rw [h.2.1]; exact hlen)
  simp [FixWorld.listenersAt, hb, ht]

theorem fixFormatButton_other (s : FixWorld) (b r : Nat) (hr : r ≠ b) :
    (fixFormatButton s b).listenersAt r = s.listenersAt r ∧
      (fixFormatButton s b).hasAttribute r "data-format-fixed" =
        s.hasAttribute r "data-format-fixed" := by
  unfold fixFormatButton
  split
  · exact ⟨rfl, rfl⟩
  · refine ⟨?_, ?_⟩
    · rw [addCapturingListener_listenersAt_ne _ b r _ hr,
        addCapturingListener_listenersAt_ne _ b r _ hr, setAttribute_listenersAt]
    · rw [addCapturingListener_hasAttribute, addCapturingListener_hasAttribute,
        setAttribute_hasAttribute_ne _ b r _ _ _ hr]

theorem fixColorButton_other (s : FixWorld) (b r : Nat) (hr : r ≠ b) :
    (fixColorButton s b).listenersAt r = s.listenersAt r ∧
      (fixColorButton s b).hasAttribute r "data-color-fixed" =
        s.hasAttribute r "data-color-fixed" := by
  unfold fixColorButton
  split
  · exact ⟨rfl, rfl⟩
  · refine ⟨?_, ?_⟩
    · rw [addCapturingListener_listenersAt_ne _ b r _ hr, setAttribute_listenersAt]
    · rw [addCapturingListener_hasAttribute, setAttribute_hasAttribute_ne _ b r _ _ _ hr]

theorem fixFormatButton_self (s : FixWorld) (b : Nat) :
    ((fixFormatButton s b).listenersAt b).length ≤ (s.listenersAt b).length + 2 ∧
      ((fixFormatButton s b).hasAttribute b "data-format-fixed" = true ∨
        (fixFormatButton s b).listenersAt b = s.listenersAt b) := by
  refine ⟨?_, ?_⟩
  · unfold fixFormatButton
    split
    · omega
    · have h1 := addCapturingListener_listenersAt_le
        (FixWorld.addCapturingListener
          { s with world := s.world.setAttribute b "data-format-fixed" "true" } b "mousedown")
        b "click"
      have h2 := addCapturingListener_listenersAt_le
        { s with world := s.world.setAttribute b "data-format-fixed" "true" } b "mousedown"
      rw [setAttribute_listenersAt] at h2
      exact Nat.le_trans h1 (by omega)
  · cases he : s.world.elems[b]? with
    | none => exact Or.inr (listenersAt_of_sameTools_none (fixFormatButton_sameTools s b) b he)
    | some e => exact Or.inl (fixFormatButton_marks s b e he)

theorem fixColorButton_self (s : FixWorld) (b : Nat) :
    ((fixColorButton s b).listenersAt b).length ≤ (s.listenersAt b).length + 1 ∧
      ((fixColorButton s b).hasAttribute b "data-color-fixed" = true ∨
        (fixColorButton s b).listenersAt b = s.listenersAt b) := by
  refine ⟨?_, ?_⟩
  · unfold fixColorButton
    split
    · omega
    · have h2 := addCapturingListener_listenersAt_le
        { s with world := s.world.setAttribute b "data-color-fixed" "true" } b "click"
      rw [setAttribute_listenersAt] at h2
      exact h2
  · cases he : s.world.elems[b]? with
    | none => exact Or.inr (listenersAt_of_sameTools_none (fixColorButton_sameTools s b) b he)
    | some e => exact Or.inl (fixColorButton_marks s b e he)

/-- Running a guarded step over a list of buttons adds at most `k` listeners to any stored
element, and none to an element that carried the marker before. -/
theorem foldl_step_listeners (step : FixWorld → Nat → FixWorld) (m : String) (k : Nat)
    (hfixed : ∀ (s : FixWorld) (b : Nat), s.hasAttribute b m = true → step s b = s)
    (hother : ∀ (s : FixWorld) (b r : Nat), r ≠ b →
      (step s b).listenersAt r = s.listenersAt r ∧
        (step s b).hasAttribute r m = s.hasAttribute r m)
    (hself : ∀ (s : FixWorld) (b : Nat),
      ((step s b).listenersAt b).length ≤ (s.listenersAt b).length + k ∧
        ((step s b).hasAttribute b m = true ∨ (step s b).listenersAt b = s.listenersAt b))
    (s0 : FixWorld) (r : Nat) (bs : List Nat) (cur : FixWorld)
    (hinv : (cur.listenersAt r).length ≤ (s0.listenersAt r).length + k ∧
      (cur.hasAttribute r m = true ∨ cur.listenersAt r = s0.listenersAt r) ∧
      (s0.hasAttribute r m = true →
        cur.listenersAt r = s0.listenersAt r ∧ cur.hasAttribute r m = true)) :
    ((bs.foldl step cur).listenersAt r).length ≤ (s0.listenersAt r).length + k ∧
      ((bs.foldl step cur).hasAttribute r m = true ∨
        (bs.foldl step cur).listenersAt r = s0.listenersAt r) ∧
      (s0.hasAttribute r m = true →
        (bs.foldl step cur).listenersAt r = s0.listenersAt r ∧
          (bs.foldl step cur).hasAttribute r m = true) := by
  induction bs generalizing cur with
  | nil => exact hinv
  | cons a l ih =>
    simp only [List.foldl_cons]
    apply ih
    by_cases hm : cur.hasAttribute a m = true
    · rw [hfixed cur a hm]; exact hinv
    · by_cases hr : r = a
      · subst hr
        have hc : cur.listenersAt r = s0.listenersAt r := hinv.2.1.resolve_left hm
        obtain ⟨h1, h2⟩ := hself cur r
        refine ⟨by rw [← hc]; exact h1, ?_, ?_⟩
        · rcases h2 with h2 | h2
          · exact Or.inl h2
          · exact Or.inr (h2.trans hc)
        · intro h0
          exact absurd (hinv.2.2 h0).2 hm
      · obtain ⟨h1, h2⟩ := hother cur a r hr
        rw [h1, h2]; exact hinv

theorem fixBoldItalicButtons_listeners (s : FixWorld) (r : Nat) :
    ((fixBoldItalicButtons s).listenersAt r).length ≤ (s.listenersAt r).length + 2 ∧
      (s.hasAttribute r "data-format-fixed" = true →
        (fixBoldItalicButtons s).listenersAt r = s.listenersAt r) := by
  have h := foldl_step_listeners fixFormatButton "data-format-fixed" 2
    (fun s b hb => by simp [fixFormatButton, hb]) fixFormatButton_other fixFormatButton_self
    s r (s.querySelectorAllTools ["bold", "italic", "Bold", "Italic"]) s
    ⟨by omega, Or.inr rfl, fun h => ⟨rfl, h⟩⟩
  exact ⟨h.1, fun h0 => (h.2.2 h0).1⟩

theorem fixColorPicker_listeners (s : FixWorld) (r : Nat) :
    ((fixColorPicker s).listenersAt r).length ≤ (s.listenersAt r).length + 1 ∧
      (s.hasAttribute r "data-color-fixed" = true →
        (fixColorPicker s).listenersAt r = s.listenersAt r) := by
  have h := foldl_step_listeners fixColorButton "data-color-fixed" 1
    (fun s b hb => by simp [fixColorButton, hb]) fixColorButton_other fixColorButton_self
    s r (s.querySelectorAllTools ["Color", "Marker", "TextColor"]) s
    ⟨by omega, Or.inr rfl, fun h => ⟨rfl, h⟩⟩
  exact ⟨h.1, fun h0 => (h.2.2 h0).1⟩

/-! ## The patch module: repeated firings of the timer -/

theorem frame_components {s t : FixWorld} (h : t.frame = s.frame) :
    t.head = s.head ∧ t.body = s.body ∧ t.inDocument = s.inDocument ∧
      t.observers = s.observers ∧ t.editorJSFixObserver = s.editorJSFixObserver ∧
      t.handleToolbarClick = s.handleToolbarClick ∧
      t.world.documentListeners = s.world.documentListeners := by
  simpa [FixWorld.frame] using h

theorem addCapturingListener_frame (s : FixWorld) (b : Nat) (type : String) :
    (s.addCapturingListener b type).frame = s.frame := by
  simp [FixWorld.frame, FixWorld.addCapturingListener, World.update, World.newFn]

theorem fixFormatButton_frame (s : FixWorld) (b : Nat) :
    (fixFormatButton s b).frame = s.frame := by
  unfold fixFormatButton
  split
  · rfl
  · rw [addCapturingListener_frame, addCapturingListener_frame]
    simp [FixWorld.frame, World.setAttribute, World.update]

theorem fixColorButton_frame (s : FixWorld) (b : Nat) :
    (fixColorButton s b).frame = s.frame := by
  unfold fixColorButton
  split
  · rfl
  · rw [addCapturingListener_frame]
    simp [FixWorld.frame, World.setAttribute, World.update]

theorem foldl_frame (step : FixWorld → Nat → FixWorld)
    (h : ∀ (s : FixWorld) (b : Nat), (step s b).frame = s.frame) (bs : List Nat)
    (s : FixWorld) : (bs.foldl step s).frame = s.frame := by
  induction bs generalizing s with
  | nil => rfl
  | cons a l ih => simp only [List.foldl_cons]; rw [ih, h]

theorem fixBoldItalicButtons_frame (s : FixWorld) :
    (fixBoldItalicButtons s).frame = s.frame :=
  foldl_frame fixFormatButton fixFormatButton_frame _ s

theorem fixColorPicker_frame (s : FixWorld) : (fixColorPicker s).frame = s.frame :=
  foldl_frame fixColorButton fixColorButton_frame _ s

theorem applyFixes_frame (s : FixWorld) : (applyFixes s).frame = (fixInlineToolbar s).frame := by
  unfold applyFixes
  rw [fixBoldItalicButtons_frame, fixColorPicker_frame]

theorem lastObserverOnly_congr {s t : FixWorld} (ho : t.observers = s.observers)
    (hp : t.editorJSFixObserver = s.editorJSFixObserver) (base : Nat)
    (h : s.LastObserverOnly base) : t.LastObserverOnly base := by
  unfold FixWorld.LastObserverOnly at h ⊢
  rw [ho, hp]; exact h

theorem fixInlineToolbar_elems (s : FixWorld) :
    (fixInlineToolbar s).world.elems = s.world.elems ∧
      (fixInlineToolbar s).inDocument = s.inDocument := by
  simp only [fixInlineToolbar, (setupMutationObserver_frame _).2.2.1,
    (setupMutationObserver_frame _).2.2.2.2.2, FixWorld.addDocumentListener,
    FixWorld.removeDocumentListener, FixWorld.consoleLog]
  split
  · rename_i r _
    cases r <;> simp [FixWorld.remove]
  · simp

theorem allFixed_congr {s t : FixWorld} (he : t.world.elems = s.world.elems)
    (hd : t.inDocument = s.inDocument) (h : s.AllFixed) : t.AllFixed := by
  have hi : ∀ values, t.isTool values = s.isTool values := by
    intro values; funext r; simp only [FixWorld.isTool, he]
  have hq : ∀ values, t.querySelectorAllTools values = s.querySelectorAllTools values := by
    intro values; simp only [FixWorld.querySelectorAllTools, hi, hd]
  have ha : ∀ r m, t.hasAttribute r m = s.hasAttribute r m := by
    intro r m; simp only [FixWorld.hasAttribute, he]
  unfold FixWorld.AllFixed
  simp only [hq, ha]
  exact h

/-- One firing of the timer leaves every selected button marked. -/
theorem applyFixes_allFixed (s : FixWorld) : (applyFixes s).AllFixed := by
  obtain ⟨_, hc2⟩ := fixColorPicker_spec (fixInlineToolbar s)
  obtain ⟨hf1, hf2⟩ := fixBoldItalicButtons_spec (fixColorPicker (fixInlineToolbar s))
  refine ⟨?_, hf2⟩
  intro b hb
  have hq := hf1.query ["Color", "Marker", "TextColor"]
  unfold applyFixes at hb ⊢
  rw [hq] at hb
  exact hf1.hasAttribute b _ (hc2 b hb)

/-- When every selected button is marked, a firing of the timer is `fixInlineToolbar`
alone. -/
theorem applyFixes_of_allFixed (s : FixWorld) (h : s.AllFixed) :
    applyFixes s = fixInlineToolbar s := by
  have h1 : (fixInlineToolbar s).AllFixed :=
    allFixed_congr (fixInlineToolbar_elems s).1 (fixInlineToolbar_elems s).2 h
  unfold applyFixes
  rw [fixColorPicker_of_fixed _ h1.1, fixBoldItalicButtons_of_fixed _ h1.2]

theorem applyFixesTimes_of_allFixed (n : Nat) (s : FixWorld) (h : s.AllFixed) :
    (applyFixesTimes n s).world.elems = s.world.elems ∧
      (applyFixesTimes n s).inDocument = s.inDocument ∧ (applyFixesTimes n s).AllFixed := by
  induction n generalizing s with
  | zero => exact ⟨rfl, rfl, h⟩
  | succ n ih =>
    have he := fixInlineToolbar_elems s
    have h1 : (applyFixes s).AllFixed := applyFixes_allFixed s
    obtain ⟨i1, i2, i3⟩ := ih (applyFixes s) h1
    simp only [applyFixesTimes]
    rw [applyFixes_of_allFixed s h] at i1 i2 i3 ⊢
    exact ⟨i1.trans he.1, i2.trans he.2, i3⟩

/-- What one firing of the timer does to the style element, the document listener and the
observers. -/
theorem applyFixes_inv (s : FixWorld) (h : (withId fixStyleId (s.head ++ s.body)).length ≤ 1) :
    withId fixStyleId ((applyFixes s).head ++ (applyFixes s).body) =
        [⟨"STYLE", fixStyleId, fixStyleText⟩] ∧
      (applyFixes s).world.documentListeners.count ⟨"click", s.handleToolbarClick, true⟩ = 1 ∧
      (applyFixes s).handleToolbarClick = s.handleToolbarClick ∧
      (applyFixes s).observers.length = s.observers.length + 1 ∧
      (applyFixes s).LastObserverOnly s.observers.length ∧
      ∀ base, s.LastObserverOnly base → (applyFixes s).LastObserverOnly base := by
  obtain ⟨f1, f2, _, f4, f5, f6, f7⟩ := frame_components (applyFixes_frame s)
  obtain ⟨o1, o2, o3⟩ := fixInlineToolbar_observers s
  obtain ⟨l1, l2⟩ := fixInlineToolbar_listener s
  refine ⟨?_, ?_, ?_, ?_, ?_, ?_⟩
  · rw [f1, f2]; exact fixInlineToolbar_style s h
  · rw [f7]; exact l1
  · rw [f6]; exact l2
  · rw [f4]; exact o1
  · exact lastObserverOnly_congr f4 f5 _ o2
  · intro base hb
    exact lastObserverOnly_congr f4 f5 _ (o3 base hb)

theorem applyFixesTimes_inv (n : Nat) (s : FixWorld)
    (h : (withId fixStyleId (s.head ++ s.body)).length ≤ 1) :
    withId fixStyleId
        ((applyFixesTimes (n + 1) s).head ++ (applyFixesTimes (n + 1) s).body) =
        [⟨"STYLE", fixStyleId, fixStyleText⟩] ∧
      (applyFixesTimes (n + 1) s).world.documentListeners.count
        ⟨"click", s.handleToolbarClick, true⟩ = 1 ∧
      (applyFixesTimes (n + 1) s).handleToolbarClick = s.handleToolbarClick ∧
      (applyFixesTimes (n + 1) s).observers.length = s.observers.length + (n + 1) ∧
      ∀ base, (applyFixes s).LastObserverOnly base →
        (applyFixesTimes (n + 1) s).LastObserverOnly base := by
  induction n generalizing s with
  | zero =>
    obtain ⟨a, b, c, d, _, _⟩ := applyFixes_inv s h
    exact ⟨a, b, c, d, fun _ hb => hb⟩
  | succ n ih =>
    obtain ⟨a, _, c, d, _, g⟩ := applyFixes_inv s h
    have h1 : (withId fixStyleId ((applyFixes s).head ++ (applyFixes s).body)).length ≤ 1 := by
      rw [a]; simp
    obtain ⟨a2, b2, c2, d2, g2⟩ := ih (applyFixes s) h1
    obtain ⟨_, _, _, _, _, g3⟩ := applyFixes_inv (applyFixes s) h1
    have hstep : applyFixesTimes (n + 1 + 1) s = applyFixesTimes (n + 1) (applyFixes s) := rfl
    rw [hstep]
    refine ⟨a2, ?_, c2.trans c, by rw [d2, d]; omega, ?_⟩
    · rw [← c]; exact b2
    · intro base hb
      exact g2 base (g3 base hb)

/-- C12. Re-applying the patch accumulates nothing. Start from a page in which at most one
element carries the id `editorjs-fix-style`, and let the timer callback fire `n + 1` times,
each firing calling `fixInlineToolbar`, `fixColorPicker` and `fixBoldItalicButtons`. Then
* exactly one element of the document has that id, and it is the style element of the patch;
* `handleToolbarClick` is registered exactly once as a capturing click listener of the
  document;
* `n + 1` observers have been created, and of them exactly the last one is connected, which
  is the one `window.editorJSFixObserver` holds;
* the stored elements, their listeners included, are those left by the first firing, and a
  further run of `fixBoldItalicButtons` or of `fixColorPicker` changes nothing at all;
* in any state, one run of `fixBoldItalicButtons` adds at most two listeners to an element
  and one run of `fixColorPicker` at most one, and none to an element that carries the
  marker of that function. -/
theorem C12_reapplying_patch_accumulates_nothing (s : FixWorld) (n : Nat)
    (h : (withId fixStyleId (s.head ++ s.body)).length ≤ 1) :
    withId fixStyleId
        ((applyFixesTimes (n + 1) s).head ++ (applyFixesTimes (n + 1) s).body) =
        [⟨"STYLE", fixStyleId, fixStyleText⟩] ∧
      (applyFixesTimes (n + 1) s).world.documentListeners.count
        ⟨"click", (applyFixesTimes (n + 1) s).handleToolbarClick, true⟩ = 1 ∧
      (applyFixesTimes (n + 1) s).observers.length = s.observers.length + (n + 1) ∧
      (applyFixesTimes (n + 1) s).LastObserverOnly s.observers.length ∧
      (applyFixesTimes (n + 1) s).world.elems = (applyFixes s).world.elems ∧
      fixBoldItalicButtons (applyFixesTimes (n + 1) s) = applyFixesTimes (n + 1) s ∧
      fixColorPicker (applyFixesTimes (n + 1) s) = applyFixesTimes (n + 1) s ∧
      ∀ (u : FixWorld) (r : Nat),
        ((fixBoldItalicButtons u).listenersAt r).length ≤ (u.listenersAt r).length + 2 ∧
          ((fixColorPicker u).listenersAt r).length ≤ (u.listenersAt r).length + 1 ∧
          (u.hasAttribute r "data-format-fixed" = true →
            (fixBoldItalicButtons u).listenersAt r = u.listenersAt r) ∧
          (u.hasAttribute r "data-color-fixed" = true →
            (fixColorPicker u).listenersAt r = u.listenersAt r) := by
  obtain ⟨a, b, c, d, g⟩ := applyFixesTimes_inv n s h
  obtain ⟨_, _, _, _, o, _⟩ := applyFixes_inv s h
  have hstep : applyFixesTimes (n + 1) s = applyFixesTimes n (applyFixes s) := rfl
  obtain ⟨e1, _, e3⟩ := applyFixesTimes_of_allFixed n (applyFixes s) (applyFixes_allFixed s)
  rw [← hstep] at e1 e3
  refine ⟨a, by rw [c]; exact b, d, g _ o, e1, fixBoldItalicButtons_of_fixed _ e3.2,
    fixColorPicker_of_fixed _ e3.1, ?_⟩
  intro u r
  exact ⟨(fixBoldItalicButtons_listeners u r).1, (fixColorPicker_listeners u r).1,
    (fixBoldItalicButtons_listeners u r).2, (fixColorPicker_listeners u r).2⟩

/-- Witness for C12: the sample page after three firings of the timer. The `bold` button
has the two listeners of `fixBoldItalicButtons` and the `TextColor` button the one of
`fixColorPicker`, as after the first firing. -/
theorem C12_reapplying_patch_accumulates_nothing_witness :
    (withId fixStyleId (Sample.fixWorld.head ++ Sample.fixWorld.body)).length ≤ 1 ∧
      (applyFixesTimes 3 Sample.fixWorld).observers.length = 3 ∧
      (applyFixesTimes 3 Sample.fixWorld).LastObserverOnly 0 ∧
      (applyFixesTimes 3 Sample.fixWorld).world.elems =
        (applyFixes Sample.fixWorld).world.elems ∧
      ((applyFixes Sample.fixWorld).listenersAt 0).length = 2 ∧
      ((applyFixes Sample.fixWorld).listenersAt 2).length = 1 := by
  have h0 : (withId fixStyleId (Sample.fixWorld.head ++ Sample.fixWorld.body)).length ≤ 1 := by
    decide
  have h := C12_reapplying_patch_accumulates_nothing Sample.fixWorld 2 h0
  exact ⟨h0, h.2.2.1, h.2.2.2.1, h.2.2.2.2.1, by decide, by decide⟩

end EditorTools
